import Mathlib

/-!
# Virtual-memory core of the teaching kernel (asst3): hashed page table,
# address spaces and the fault handler; file descriptors (asst2)

Shallow embedding of `kern/vm/vm.c` and `kern/vm/addrspace.c`, and of
`kern/syscall/file.c` (in the section on the file table).

* 32-bit machine words (`vaddr_t`, `paddr_t`, `uint32_t`, `size_t`) are natural
  numbers; every addition that can overflow is reduced with `u32`.
* `struct hpt_entry *` is a slot index into the table (`Option Nat`, `none` is
  `NULL`): every such pointer in the program is the address of a table slot.
* A kernel assertion that fails (`KASSERT`), a trap (division by a zero table
  size, a `NULL` dereference) and a loop that never ends are all the result
  `none`.  Loops carry a fuel argument; the callers pass a fuel that is enough
  whenever the loop ends at all: a chain walk that ends visits every slot at
  most once (the number of slots for the tail walks, one more for the walk of
  `hpt_get`, which also steps to `NULL`), and a loop over a page range that
  ends takes at most as many rounds as the 32-bit space has pages.
-/

namespace Vm

/-! ## Constants of the base system (`machine/vm.h`, `mips/tlb.h`, `kern/errno.h`)

The headers are not among the sources; the values are those of the OS/161 base system
for the MIPS machine the kernel is built for. -/

/-- Modelled from the spec: `PAGE_SIZE` of `machine/vm.h` (header absent), the fixed frame size. -/
def PAGE_SIZE : Nat := 4096

/-- Modelled from the spec: `PAGE_FRAME` of `machine/vm.h` (header absent), mask of the page number. -/
def PAGE_FRAME : Nat := 0xfffff000

/-- Modelled from the spec: `MIPS_KSEG0` of `machine/vm.h` (header absent), the user/kernel split. -/
def MIPS_KSEG0 : Nat := 0x80000000

/-- Modelled from the spec: `USERSTACK` of `machine/vm.h` (header absent), the top of user space. -/
def USERSTACK : Nat := MIPS_KSEG0

/-- Modelled from the spec: `VM_STACKPAGES` (header absent), the fixed size of the stack region in pages. -/
def VM_STACKPAGES : Nat := 16

/-- Modelled from the spec: `TLBHI_VPAGE` of `mips/tlb.h` (header absent), the virtual page field. -/
def TLBHI_VPAGE : Nat := 0xfffff000

/-- Modelled from the spec: `TLBLO_PPAGE` of `mips/tlb.h` (header absent), the physical frame field. -/
def TLBLO_PPAGE : Nat := 0xfffff000

/-- Modelled from the spec: `TLBLO_DIRTY` of `mips/tlb.h` (header absent), the dirty (writable) bit. -/
def TLBLO_DIRTY : Nat := 0x00000400

/-- Modelled from the spec: `TLBLO_VALID` of `mips/tlb.h` (header absent), the valid bit. -/
def TLBLO_VALID : Nat := 0x00000200

/-- Modelled from the spec: `NUM_TLB` of `mips/tlb.h` (header absent), the slot count of the TLB. -/
def NUM_TLB : Nat := 64

/-- Modelled from the spec: `ENOMEM` of `kern/errno.h` (header absent), OutOfMemory. -/
def ENOMEM : Nat := 3

/-- Modelled from the spec: `EFAULT` of `kern/errno.h` (header absent), AccessFault. -/
def EFAULT : Nat := 6

/-- Modelled from the spec: `EINVAL` of `kern/errno.h` (header absent), InvalidArgument. -/
def EINVAL : Nat := 8

/-- Modelled from the spec: `VM_FAULT_READ` of `vm.h` (header absent), the Read fault type. -/
def VM_FAULT_READ : Int := 0

/-- Modelled from the spec: `VM_FAULT_WRITE` of `vm.h` (header absent), the Write fault type. -/
def VM_FAULT_WRITE : Int := 1

/-- Modelled from the spec: `VM_FAULT_READONLY` of `vm.h` (header absent), the read-only-violation type. -/
def VM_FAULT_READONLY : Int := 2

/-- Modelled from the spec: `READ` of `addrspace.h` (header absent), one bit of the permission
set; the three permission bits are distinct single bits (here those of the ELF segment flags). -/
def READ : Nat := 4

/-- Modelled from the spec: `WRITE` of `addrspace.h` (header absent), one bit of the permission set. -/
def WRITE : Nat := 2

/-- Modelled from the spec: `EXECUTE` of `addrspace.h` (header absent), one bit of the permission set. -/
def EXECUTE : Nat := 1

/-- Reduction of a sum to a 32-bit machine word. -/
def u32 (x : Nat) : Nat := x % 2 ^ 32

/-- Number of pages of the 32-bit address space: fuel of the loops over a page range. -/
def NPAGES : Nat := 2 ^ 20

/-- Modelled from the spec: `KVADDR_TO_PADDR` of `vm.h` (header absent), `kvaddr - MIPS_KSEG0` on 32 bits. -/
def KVADDR_TO_PADDR (kvaddr : Nat) : Nat := u32 (kvaddr + (2 ^ 32 - MIPS_KSEG0))

/-- Modelled from the spec: `PADDR_TO_KVADDR` of `vm.h` (header absent), `paddr + MIPS_KSEG0` on 32 bits. -/
def PADDR_TO_KVADDR (paddr : Nat) : Nat := u32 (paddr + MIPS_KSEG0)

/-- Modelled from the spec: `TLBHI_INVALID(i)` of `mips/tlb.h` (header absent). -/
def TLBHI_INVALID (i : Nat) : Nat := (0x80000 + i) <<< 12

/-- Modelled from the spec: `TLBLO_INVALID()` of `mips/tlb.h` (header absent). -/
def TLBLO_INVALID : Nat := 0

/-! ## Data model -/

/-- One slot of the hash page table (`struct hpt_entry`); `next` is a slot index. -/
structure hpt_entry where
  pid : Nat
  entrylo : Nat
  entryhi : Nat
  next : Option Nat
deriving DecidableEq, Repr

/-- One region of an address space (`struct as_regions`, without its list link). -/
structure as_regions where
  base : Nat
  size : Nat
  permissions : Nat
  read_only_change : Bool
deriving DecidableEq, Repr

/-- The end of a region as the kernel computes it in every test: `base + size` on 32 bits
(the exact sum unless that reaches `2 ^ 32`). -/
def region_end (r : as_regions) : Nat := u32 (r.base + r.size)

/-- An address space (`struct addrspace`): its address `ptr` (the identity used as
hash key, `0` for `NULL`) and its region list, head first. -/
structure addrspace where
  ptr : Nat
  regions : List as_regions
deriving DecidableEq, Repr

/-- A write to the translation cache, in the order issued. -/
inductive tlb_op where
  | random (entryhi entrylo : Nat)
  | write (entryhi entrylo index : Nat)
deriving DecidableEq, Repr

/-- The global state the subsystem works on.

* `hpt`: the table, `HPT_SIZE` is its length.
* `frames`: Modelled from the spec: the frame allocator is an external collaborator
  (`allocate(1 page) -> address | failure`, `free(address)`); here the list of free
  frames (kernel virtual addresses), taken from and returned to the head.
* `mem`: the bytes of memory by kernel virtual address.
* `tlb`: the writes issued to the TLB adapter, latest first.
* `kheap`: Modelled from the spec: `kmalloc` is external; here the list of the
  addresses its next calls return (`0` or an empty list is a failed allocation). -/
structure Kernel where
  hpt : List hpt_entry
  frames : List Nat
  mem : Nat → Nat
  tlb : List tlb_op
  kheap : List Nat

/-- Modelled from the spec: `alloc_kpages(1)` of the external frame allocator:
the address of a free frame, or `0` when none is left (a failed call leaves the
allocator as it is). -/
def alloc_kpages (frames : List Nat) : Nat × List Nat :=
  match frames with
  | [] => (0, [])
  | f :: fs => if f = 0 then (0, f :: fs) else (f, fs)

/-- Modelled from the spec: `free_kpages(addr)` of the external frame allocator. -/
def free_kpages (frames : List Nat) (addr : Nat) : List Nat := addr :: frames

/-- Modelled from the spec: `kmalloc` of the external kernel heap: the next address, `0` on failure. -/
def kmalloc (kheap : List Nat) : Nat × List Nat :=
  match kheap with
  | [] => (0, [])
  | p :: ps => (p, ps)

/-- Modelled from the spec: `bzero(p, len)` of the kernel library. -/
def bzero (mem : Nat → Nat) (p len : Nat) : Nat → Nat :=
  fun a => if p ≤ a ∧ a < p + len then 0 else mem a

/-- Modelled from the spec: `memmove(dst, src, len)` of the kernel library. -/
def memmove (mem : Nat → Nat) (dst src len : Nat) : Nat → Nat :=
  fun a => if dst ≤ a ∧ a < dst + len then mem (src + (a - dst)) else mem a

/-! ## Hash page table (`vm.c`) -/

/-- The table as `hpt_init` leaves it: `(ram_size / PAGE_SIZE) * 2` cleared slots. -/
def hpt_init (ram_size : Nat) : List hpt_entry :=
  List.replicate ((ram_size / PAGE_SIZE) * 2) ⟨0, 0, 0, none⟩

/-- Hash index of `hpt_hash`; `none` when the assertion fails or the table size is zero. -/
def hpt_hash (HPT_SIZE : Nat) (as address : Nat) : Option Nat :=
  if (address &&& PAGE_FRAME) ≠ address then none
  else if HPT_SIZE = 0 then none
  else some ((as ^^^ (address >>> 12)) % HPT_SIZE)

/-- Zero fill of `zero_pad`. -/
def zero_pad (mem : Nat → Nat) (paddr npages : Nat) : Option (Nat → Nat) :=
  if paddr = 0 ∨ npages = 0 then none
  else some (bzero mem paddr (npages * PAGE_SIZE))

/-- The probe loop of `hpt_add`: the first invalid slot from `curr_index` on, `some none`
when the probe is back at `index`. -/
def hpt_add_probe (hpt : List hpt_entry) (index : Nat) : Nat → Nat → Option (Option Nat)
  | 0, _ => none
  | fuel + 1, curr_index =>
    match hpt[curr_index]? with
    | none => none
    | some entry =>
      if entry.entrylo &&& TLBLO_VALID ≠ 0 then
        if (curr_index + 1) % hpt.length = index then some none
        else hpt_add_probe hpt index fuel ((curr_index + 1) % hpt.length)
      else some (some curr_index)

/-- The tail walk of `hpt_add`: `while (curr_entry->next) curr_entry = curr_entry->next`. -/
def hpt_add_tail (hpt : List hpt_entry) : Nat → Nat → Option Nat
  | 0, _ => none
  | fuel + 1, curr =>
    match hpt[curr]? with
    | none => none
    | some e =>
      match e.next with
      | none => some curr
      | some nx => hpt_add_tail hpt fuel nx

/-- Assignment to the `next` field of slot `i`. -/
def set_next (hpt : List hpt_entry) (i : Nat) (nx : Option Nat) : List hpt_entry :=
  match hpt[i]? with
  | none => hpt
  | some e => hpt.set i { e with next := nx }

/-- The block "internal collision" of `hpt_add`: when the home slot `index` is valid,
the last slot of its chain is linked to the slot `ei` found by the probe. -/
def hpt_add_link (hpt : List hpt_entry) (index ei : Nat) : Option (List hpt_entry) :=
  match hpt[index]? with
  | none => none
  | some curr_entry =>
    if curr_entry.entrylo &&& TLBLO_VALID ≠ 0 then
      match hpt_add_tail hpt hpt.length index with
      | none => none
      | some t => some (set_next hpt t (some ei))
    else some hpt

/-- The word `hpt_add` stores in `entrylo`: the frame, the valid bit, and the dirty bit
if the permissions hold `WRITE`. -/
def hpt_add_entrylo (paddr permissions : Nat) : Nat :=
  if permissions &&& WRITE ≠ 0 then (KVADDR_TO_PADDR paddr ||| TLBLO_VALID) ||| TLBLO_DIRTY
  else KVADDR_TO_PADDR paddr ||| TLBLO_VALID

/-- Function `hpt_add`: result code and new state. -/
def hpt_add (s : Kernel) (as vaddr permissions : Nat) (write_to_tlb : Bool) :
    Option (Nat × Kernel) :=
  if as = 0 ∨ vaddr = 0 then none
  else
    let vaddr := vaddr &&& PAGE_FRAME
    let paddr := (alloc_kpages s.frames).1
    let frames := (alloc_kpages s.frames).2
    if paddr = 0 then some (ENOMEM, { s with frames := frames })
    else if paddr % PAGE_SIZE ≠ 0 then none
    else
      match hpt_hash s.hpt.length as vaddr with
      | none => none
      | some index =>
        match hpt_add_probe s.hpt index s.hpt.length index with
        | none => none
        | some none => some (ENOMEM, { s with frames := free_kpages frames paddr })
        | some (some ei) =>
          match hpt_add_link s.hpt index ei, zero_pad s.mem paddr 1 with
          | some hpt1, some mem1 =>
            let lo := hpt_add_entrylo paddr permissions
            some (0, { s with
              hpt := hpt1.set ei ⟨as, lo, vaddr, none⟩
              frames := frames
              mem := mem1
              tlb := if write_to_tlb then tlb_op.random vaddr lo :: s.tlb else s.tlb })
          | _, _ => none

/-- The chain walk of `hpt_get` from slot `curr`: the matching slot (if any) and the
last slot stepped over (`*prev_entry`, unchanged when nothing is stepped over). -/
def hpt_get_walk (hpt : List hpt_entry) (pid vaddr : Nat) :
    Nat → Option Nat → Option Nat → Option (Option Nat × Option Nat)
  | 0, _, _ => none
  | _ + 1, none, prev => some (none, prev)
  | fuel + 1, some i, prev =>
    match hpt[i]? with
    | none => none
    | some e =>
      if (e.entryhi &&& TLBHI_VPAGE) = vaddr ∧ pid = e.pid ∧ e.entrylo &&& TLBLO_VALID ≠ 0 then
        some (some i, prev)
      else hpt_get_walk hpt pid vaddr fuel e.next (some i)

/-- Function `hpt_get` called with a `prev_entry` that was set to `NULL`: the slot of the
entry for `(as, vaddr)` and the slot of its predecessor in the walk. -/
def hpt_get (hpt : List hpt_entry) (as vaddr : Nat) : Option (Option Nat × Option Nat) :=
  match hpt_hash hpt.length as vaddr with
  | none => none
  | some index => hpt_get_walk hpt as vaddr (hpt.length + 1) (some index) none

/-- The tail walk of `hpt_free`: the last slot of the chain and the one before it. -/
def hpt_free_tail (hpt : List hpt_entry) : Nat → Nat → Nat → Option (Nat × Nat)
  | 0, _, _ => none
  | fuel + 1, prev, end_entry =>
    match hpt[end_entry]? with
    | none => none
    | some e =>
      match e.next with
      | none => some (prev, end_entry)
      | some nx => hpt_free_tail hpt fuel end_entry nx

/-- Clearing of `pid`, `entryhi` and `entrylo` of slot `i` (its `next` is kept). -/
def clear_entry (hpt : List hpt_entry) (i : Nat) : List hpt_entry :=
  match hpt[i]? with
  | none => hpt
  | some e => hpt.set i { e with pid := 0, entryhi := 0, entrylo := 0 }

/-- Body of the loop of `hpt_free` for one page. -/
def hpt_free_page (s : Kernel) (as page : Nat) : Option Kernel :=
  match hpt_get s.hpt as page with
  | none => none
  | some (none, _) => some s
  | some (some ei, prev_entry) =>
    match s.hpt[ei]? with
    | none => none
    | some entry =>
      if (entry.entryhi &&& TLBHI_VPAGE) ≠ page then none
      else
        let frames := free_kpages s.frames (PADDR_TO_KVADDR (entry.entrylo &&& TLBLO_PPAGE))
        match prev_entry with
        | some p =>
          some { s with frames := frames, hpt := clear_entry (set_next s.hpt p entry.next) ei }
        | none =>
          match entry.next with
          | none => some { s with frames := frames, hpt := clear_entry s.hpt ei }
          | some _ =>
            match hpt_free_tail s.hpt s.hpt.length ei ei with
            | none => none
            | some (prev, end_entry) =>
              match s.hpt[end_entry]? with
              | none => none
              | some e =>
                let hpt1 := s.hpt.set ei { entry with pid := e.pid, entryhi := e.entryhi, entrylo := e.entrylo }
                some { s with frames := frames, hpt := clear_entry (set_next hpt1 prev none) end_entry }

/-- The loop of `hpt_free`: `for (page = vaddr; page != vaddr + memsize; page += PAGE_SIZE)`. -/
def hpt_free_loop (as end_page : Nat) : Nat → Kernel → Nat → Option Kernel
  | 0, _, _ => none
  | fuel + 1, s, page =>
    if page = end_page then some s
    else
      match hpt_free_page s as page with
      | none => none
      | some s1 => hpt_free_loop as end_page fuel s1 (u32 (page + PAGE_SIZE))

/-- Function `hpt_free`. -/
def hpt_free (s : Kernel) (as vaddr memsize : Nat) : Option Kernel :=
  hpt_free_loop as (u32 (vaddr + memsize)) (NPAGES + 1) s vaddr

/-- Function `hpt_copy`: the loop over the pages of `region`. -/
def hpt_copy_loop (region : as_regions) (old newas end_addr : Nat) :
    Nat → Kernel → Nat → Option (Nat × Kernel)
  | 0, _, _ => none
  | fuel + 1, s, addr =>
    if addr = end_addr then some (0, s)
    else
      match hpt_get s.hpt old addr with
      | none => none
      | some (none, _) => hpt_copy_loop region old newas end_addr fuel s (u32 (addr + PAGE_SIZE))
      | some (some ei, _) =>
        match hpt_add s newas addr region.permissions false with
        | none => none
        | some (ret, s1) =>
          if ret ≠ 0 then some (ret, s1)
          else
            match hpt_get s1.hpt newas addr with
            | none => none
            | some (none, _) => some (ENOMEM, s1)
            | some (some ni, _) =>
              match s1.hpt[ei]?, s1.hpt[ni]? with
              | some entry, some new_entry =>
                let old_frame := PADDR_TO_KVADDR (entry.entrylo &&& TLBLO_PPAGE)
                let new_frame := PADDR_TO_KVADDR (new_entry.entrylo &&& TLBLO_PPAGE)
                hpt_copy_loop region old newas end_addr fuel
                  { s1 with mem := memmove s1.mem new_frame old_frame PAGE_SIZE }
                  (u32 (addr + PAGE_SIZE))
              | _, _ => none

/-- Function `hpt_copy`. -/
def hpt_copy (s : Kernel) (region : as_regions) (old newas : Nat) : Option (Nat × Kernel) :=
  hpt_copy_loop region old newas (u32 (region.base + region.size)) (NPAGES + 1) s region.base

/-- Assignment to the `entrylo` field of slot `i`. -/
def set_entrylo (hpt : List hpt_entry) (i : Nat) (lo : Nat) : List hpt_entry :=
  match hpt[i]? with
  | none => hpt
  | some e => hpt.set i { e with entrylo := lo }

/-- The loop of `set_page_write_permissions`. -/
def set_page_write_permissions_loop (as end_addr : Nat) : Nat → Kernel → Nat → Option Kernel
  | 0, _, _ => none
  | fuel + 1, s, addr =>
    if addr = end_addr then some s
    else
      let addr := addr &&& PAGE_FRAME
      match hpt_get s.hpt as addr with
      | none => none
      | some (none, _) => set_page_write_permissions_loop as end_addr fuel s (u32 (addr + PAGE_SIZE))
      | some (some ei, _) =>
        match s.hpt[ei]? with
        | none => none
        | some entry =>
          let paddr := entry.entrylo &&& TLBLO_PPAGE
          let lo := entry.entrylo ||| (TLBLO_DIRTY ||| TLBLO_VALID)
          set_page_write_permissions_loop as end_addr fuel
            { s with hpt := set_entrylo s.hpt ei lo, tlb := tlb_op.write addr paddr lo :: s.tlb }
            (u32 (addr + PAGE_SIZE))

/-- Function `set_page_write_permissions`. -/
def set_page_write_permissions (s : Kernel) (as vaddr memsize : Nat) : Option Kernel :=
  set_page_write_permissions_loop as (u32 (vaddr + memsize)) (NPAGES + 1) s vaddr

/-- The loop of `reset_page_write_permissions`. -/
def reset_page_write_permissions_loop (as end_addr : Nat) : Nat → Kernel → Nat → Option Kernel
  | 0, _, _ => none
  | fuel + 1, s, addr =>
    if addr = end_addr then some s
    else
      let addr := addr &&& PAGE_FRAME
      match hpt_get s.hpt as addr with
      | none => none
      | some (none, _) => reset_page_write_permissions_loop as end_addr fuel s (u32 (addr + PAGE_SIZE))
      | some (some ei, _) =>
        match s.hpt[ei]? with
        | none => none
        | some entry =>
          let paddr := entry.entrylo &&& TLBLO_PPAGE
          let lo := entry.entrylo &&& (2 ^ 32 - 1 - TLBLO_DIRTY)
          reset_page_write_permissions_loop as end_addr fuel
            { s with hpt := set_entrylo s.hpt ei lo, tlb := tlb_op.write addr paddr lo :: s.tlb }
            (u32 (addr + PAGE_SIZE))

/-- Function `reset_page_write_permissions`. -/
def reset_page_write_permissions (s : Kernel) (as vaddr memsize : Nat) : Option Kernel :=
  reset_page_write_permissions_loop as (u32 (vaddr + memsize)) (NPAGES + 1) s vaddr

/-- Function `vm_bootstrap`: the table is set up from the size of physical memory. -/
def vm_bootstrap (s : Kernel) (ram_size : Nat) : Kernel :=
  { s with hpt := hpt_init ram_size }

/-- The region scan of `vm_fault`: the first region that contains `faultaddress`;
`none` when the alignment assertion fails on some region of the list. -/
def vm_fault_scan (faultaddress : Nat) : List as_regions → Option as_regions → Option (Option as_regions)
  | [], found_region => some found_region
  | region :: rest, found_region =>
    if (region.base &&& PAGE_FRAME) ≠ region.base then none
    else if found_region = none ∧ faultaddress ≥ region.base ∧
        faultaddress < region_end region then
      vm_fault_scan faultaddress rest (some region)
    else vm_fault_scan faultaddress rest found_region

/-- Function `vm_fault`; `as` is the address space `proc_getas()` returns. -/
def vm_fault (s : Kernel) (as : addrspace) (faulttype : Int) (faultaddress : Nat) :
    Option (Nat × Kernel) :=
  if as.ptr = 0 then none
  else if as.regions = [] then some (EFAULT, s)
  else if faulttype = VM_FAULT_READONLY then some (EFAULT, s)
  else if ¬ (faulttype = VM_FAULT_READ ∨ faulttype = VM_FAULT_WRITE) then some (EINVAL, s)
  else
    let faultaddress := faultaddress &&& PAGE_FRAME
    match vm_fault_scan faultaddress as.regions none with
    | none => none
    | some none => some (EFAULT, s)
    | some (some found_region) =>
      if faulttype = VM_FAULT_READ ∧ found_region.permissions &&& READ = 0 then some (EFAULT, s)
      else if (faulttype = VM_FAULT_WRITE ∨ faulttype = VM_FAULT_READONLY) ∧
          found_region.permissions &&& WRITE = 0 then some (EFAULT, s)
      else
        match hpt_get s.hpt as.ptr faultaddress with
        | none => none
        | some (none, _) => hpt_add s as.ptr faultaddress found_region.permissions true
        | some (some ei, _) =>
          match s.hpt[ei]? with
          | none => none
          | some entry =>
            some (0, { s with tlb := tlb_op.random entry.entryhi entry.entrylo :: s.tlb })

/-! ## Address spaces (`addrspace.c`) -/

/-- Function `as_create`: the new address space (`ptr = 0` when `kmalloc` fails). -/
def as_create (s : Kernel) : addrspace × Kernel :=
  ({ ptr := (kmalloc s.kheap).1, regions := [] }, { s with kheap := (kmalloc s.kheap).2 })

/-- The overlap scan of `as_define_region`: true when some region meets the test. -/
def as_define_region_overlap (vaddr memsize : Nat) : List as_regions → Bool
  | [] => false
  | curr :: rest =>
    if vaddr ≤ region_end curr ∧ u32 (vaddr + memsize) ≥ curr.base then true
    else as_define_region_overlap vaddr memsize rest

/-- The base `as_define_region` stores: `vaddr &= PAGE_FRAME`. -/
def region_base (vaddr : Nat) : Nat := vaddr &&& PAGE_FRAME

/-- The size `as_define_region` stores: `memsize += vaddr & ~PAGE_FRAME`, then
`memsize = (memsize + PAGE_SIZE - 1) & PAGE_FRAME`, on 32 bits. -/
def region_size (vaddr memsize : Nat) : Nat :=
  u32 (u32 (memsize + (vaddr &&& (2 ^ 32 - 1 - PAGE_FRAME))) + PAGE_SIZE - 1) &&& PAGE_FRAME

/-- The permission set `as_define_region` stores for the three flags. -/
def region_permissions (readable writeable executable : Int) : Nat :=
  let permissions := 0
  let permissions := if readable ≠ 0 then permissions ||| READ else permissions
  let permissions := if writeable ≠ 0 then permissions ||| WRITE else permissions
  if executable ≠ 0 then permissions ||| EXECUTE else permissions

/-- Function `as_define_region`: result code, the address space afterwards, new state. -/
def as_define_region (s : Kernel) (as : addrspace) (vaddr memsize : Nat)
    (readable writeable executable : Int) : Nat × addrspace × Kernel :=
  if as.ptr = 0 then (EINVAL, as, s)
  else
    let memsize := region_size vaddr memsize
    let vaddr := region_base vaddr
    if u32 (vaddr + memsize) > MIPS_KSEG0 then (EFAULT, as, s)
    else if as_define_region_overlap vaddr memsize as.regions then (EINVAL, as, s)
    else
      let s1 := { s with kheap := (kmalloc s.kheap).2 }
      if (kmalloc s.kheap).1 = 0 then (ENOMEM, as, s1)
      else
        (0, { as with regions :=
            ⟨vaddr, memsize, region_permissions readable writeable executable, false⟩ ::
              as.regions }, s1)

/-- Function `as_activate`; `cur` is the address `proc_getas()` returns. -/
def as_activate (s : Kernel) (cur : Nat) : Kernel :=
  if cur = 0 then s
  else { s with tlb := ((List.range NUM_TLB).map
      (fun i => tlb_op.write (TLBHI_INVALID i) TLBLO_INVALID i)).reverse ++ s.tlb }

/-- Function `as_deactivate`. -/
def as_deactivate (s : Kernel) (cur : Nat) : Kernel := as_activate s cur

/-- The loop of `as_destroy` over the regions. -/
def as_destroy_loop (as : Nat) : List as_regions → Kernel → Option Kernel
  | [], s => some s
  | region :: rest, s =>
    match hpt_free s as region.base region.size with
    | none => none
    | some s1 => as_destroy_loop as rest s1

/-- Function `as_destroy`. -/
def as_destroy (s : Kernel) (as : addrspace) (cur : Nat) : Option Kernel :=
  match as_destroy_loop as.ptr as.regions s with
  | none => none
  | some s1 => some (as_deactivate s1 cur)

/-- The first loop of `as_copy`: the regions of `old` are defined in `newas`. -/
def as_copy_regions : List as_regions → addrspace → Kernel → Nat × addrspace × Kernel
  | [], newas, s => (0, newas, s)
  | region :: rest, newas, s =>
    match as_define_region s newas region.base region.size
        ((region.permissions ||| READ : Nat) : Int) ((region.permissions ||| WRITE : Nat) : Int)
        ((region.permissions ||| EXECUTE : Nat) : Int) with
    | (ret, newas1, s1) =>
      if ret ≠ 0 then (ret, newas1, s1) else as_copy_regions rest newas1 s1

/-- The second loop of `as_copy`: the pages of every region of `newas` are copied. -/
def as_copy_pages (old newas : Nat) : List as_regions → Kernel → Option (Nat × Kernel)
  | [], s => some (0, s)
  | region :: rest, s =>
    match hpt_copy s region old newas with
    | none => none
    | some (ret, s1) => if ret ≠ 0 then some (ret, s1) else as_copy_pages old newas rest s1

/-- Function `as_copy`: result code, the address space stored through `ret` (if any),
new state. -/
def as_copy (s : Kernel) (old : addrspace) (cur : Nat) :
    Option (Nat × Option addrspace × Kernel) :=
  match as_create s with
  | (newas, s0) =>
    if newas.ptr = 0 then some (ENOMEM, none, s0)
    else
      match as_copy_regions old.regions newas s0 with
      | (ret, newas1, s1) =>
        if ret ≠ 0 then
          match as_destroy s1 newas1 cur with
          | none => none
          | some s2 => some (ret, none, s2)
        else
          match as_copy_pages old.ptr newas1.ptr newas1.regions s1 with
          | none => none
          | some (ret2, s2) =>
            if ret2 ≠ 0 then
              match as_destroy s2 newas1 cur with
              | none => none
              | some s3 => some (ret2, none, s3)
            else some (0, some newas1, as_activate s2 cur)

/-- The loop of `as_prepare_load`: the regions afterwards and the new state. -/
def as_prepare_load_loop (as : Nat) : List as_regions → Kernel → Option (List as_regions × Kernel)
  | [], s => some ([], s)
  | region :: rest, s =>
    if region.permissions &&& READ ≠ 0 ∧ region.permissions &&& WRITE = 0 then
      match set_page_write_permissions s as region.base region.size with
      | none => none
      | some s1 =>
        match as_prepare_load_loop as rest s1 with
        | none => none
        | some (rest1, s2) =>
          some ({ region with permissions := region.permissions ||| WRITE,
                              read_only_change := true } :: rest1, s2)
    else
      match as_prepare_load_loop as rest s with
      | none => none
      | some (rest1, s2) => some (region :: rest1, s2)

/-- Function `as_prepare_load`. -/
def as_prepare_load (s : Kernel) (as : addrspace) : Option (Nat × addrspace × Kernel) :=
  if as.ptr = 0 then some (EINVAL, as, s)
  else
    match as_prepare_load_loop as.ptr as.regions s with
    | none => none
    | some (regions, s1) => some (0, { as with regions := regions }, s1)

/-- The loop of `as_complete_load`. -/
def as_complete_load_loop (as : Nat) : List as_regions → Kernel → Option (List as_regions × Kernel)
  | [], s => some ([], s)
  | region :: rest, s =>
    if region.read_only_change then
      match reset_page_write_permissions s as region.base region.size with
      | none => none
      | some s1 =>
        match as_complete_load_loop as rest s1 with
        | none => none
        | some (rest1, s2) =>
          some ({ region with permissions := region.permissions &&& (2 ^ 32 - 1 - WRITE),
                              read_only_change := false } :: rest1, s2)
    else
      match as_complete_load_loop as rest s with
      | none => none
      | some (rest1, s2) => some (region :: rest1, s2)

/-- Function `as_complete_load`; `cur` is the address `proc_getas()` returns. -/
def as_complete_load (s : Kernel) (as : addrspace) (cur : Nat) :
    Option (Nat × addrspace × Kernel) :=
  if as.ptr = 0 then some (EINVAL, as, s)
  else
    match as_complete_load_loop as.ptr as.regions s with
    | none => none
    | some (regions, s1) => some (0, { as with regions := regions }, as_activate s1 cur)

/-- Function `as_define_stack`: result code, the value stored through `stackptr`
(if any), the address space afterwards, new state. -/
def as_define_stack (s : Kernel) (as : addrspace) (stackptr_null : Bool) :
    Nat × Option Nat × addrspace × Kernel :=
  if as.ptr = 0 ∨ stackptr_null then (EINVAL, none, as, s)
  else
    let stack_size := VM_STACKPAGES * PAGE_SIZE
    let stack_base := USERSTACK - stack_size
    match as_define_region s as stack_base stack_size 1 1 0 with
    | (define_stack, as1, s1) =>
      if define_stack ≠ 0 then (1, none, as1, s1)
      else (0, some USERSTACK, as1, s1)


/-! ## Notions of the specification -/

/-- The first region of the list, in scan order, whose range contains the page address;
the range of a region is `[base, region_end)`, that is `[base, base + size)` with the end
on 32 bits. -/
def first_region (regions : List as_regions) (page : Nat) : Option as_regions :=
  regions.find? (fun r => decide (r.base ≤ page ∧ page < region_end r))

/-- Every link of the table is the index of a slot. -/
def links_in_range (hpt : List hpt_entry) : Prop :=
  ∀ (i : Nat) (e : hpt_entry) (j : Nat), hpt[i]? = some e → e.next = some j → j < hpt.length

/-- The links of the table form no cycle: some rank decreases along every link. -/
def links_acyclic (hpt : List hpt_entry) : Prop :=
  ∃ rank : Nat → Nat, ∀ (i : Nat) (e : hpt_entry) (j : Nat),
    hpt[i]? = some e → e.next = some j → rank j < rank i

/-- Slot `i` of the table is not valid (it is free for a new entry). -/
def slot_free (hpt : List hpt_entry) (i : Nat) : Prop :=
  ∃ e : hpt_entry, hpt[i]? = some e ∧ e.entrylo &&& TLBLO_VALID = 0

/-- Some slot of the table holds a valid entry for the address space `as` and the page
`page` whose dirty (writable) bit is set exactly when `writeable` is non-zero. -/
def has_entry (hpt : List hpt_entry) (as page : Nat) (writeable : Int) : Prop :=
  ∃ (i : Nat) (e : hpt_entry), hpt[i]? = some e ∧ e.pid = as ∧
    e.entryhi &&& TLBHI_VPAGE = page ∧
    e.entrylo &&& TLBLO_VALID ≠ 0 ∧ (e.entrylo &&& TLBLO_DIRTY ≠ 0 ↔ writeable ≠ 0)

/-- Every valid entry of the address space `as` for a page of `[base, base + size)` has
its dirty (writable) bit set exactly when `writeable` is non-zero. -/
def entries_agree (hpt : List hpt_entry) (as base size : Nat) (writeable : Int) : Prop :=
  ∀ (i : Nat) (e : hpt_entry), hpt[i]? = some e → e.entrylo &&& TLBLO_VALID ≠ 0 →
    e.pid = as → base ≤ e.entryhi &&& TLBHI_VPAGE → e.entryhi &&& TLBHI_VPAGE < base + size →
    (e.entrylo &&& TLBLO_DIRTY ≠ 0 ↔ writeable ≠ 0)

/-- A sequence of faults of the address space `as`, each given by its type and address,
taken one after the other; `none` unless every call of `vm_fault` returns success. -/
def vm_fault_all (as : addrspace) : List (Int × Nat) → Kernel → Option Kernel
  | [], s => some s
  | f :: rest, s =>
    match vm_fault s as f.1 f.2 with
    | none => none
    | some (ret, s1) => if ret = 0 then vm_fault_all as rest s1 else none

/-! ## Concrete runs on a small machine -/

/-- A machine with 16 KiB of memory after `vm_bootstrap`: a table of 8 slots, four free
frames, memory filled with the byte 7, and a kernel heap that hands out four objects. -/
def boot8 : Kernel :=
  vm_bootstrap
    ⟨[], [0x80010000, 0x80011000, 0x80012000, 0x80013000], fun _ => 7, [],
      [0x80040000, 0x80040040, 0x80040080, 0x800400c0]⟩ 16384

/-- First address space created on `boot8` (at `0x80040000`), with the region
`[0x3000, 0x4000)` defined readable and writable. -/
def spaceA : addrspace :=
  (as_define_region (as_create (as_create boot8).2).2 (as_create boot8).1 0x3000 0x1000 1 1 0).2.1

/-- Second address space created on `boot8` (at `0x80040040`), with the region
`[0x4000, 0xc000)` defined readable and writable. -/
def spaceB : addrspace :=
  (as_define_region
    (as_define_region (as_create (as_create boot8).2).2 (as_create boot8).1 0x3000 0x1000 1 1 0).2.2
    (as_create (as_create boot8).2).1 0x4000 0x8000 1 1 0).2.1

/-- State after both address spaces and their regions exist. -/
def bootAB : Kernel :=
  (as_define_region
    (as_define_region (as_create (as_create boot8).2).2 (as_create boot8).1 0x3000 0x1000 1 1 0).2.2
    (as_create (as_create boot8).2).1 0x4000 0x8000 1 1 0).2.2

/-- Three resolved faults: page `0x3000` of `spaceA` (slot 3), then pages `0xb000`
(home slot 3, stored in slot 4) and `0x4000` (home slot 4, stored in slot 5) of `spaceB`. -/
def run_faults : Option Kernel :=
  (vm_fault bootAB spaceA VM_FAULT_READ 0x3000).bind fun r1 =>
  (vm_fault r1.2 spaceB VM_FAULT_WRITE 0xb000).bind fun r2 =>
  (vm_fault r2.2 spaceB VM_FAULT_READ 0x4004).bind fun r3 => some r3.2

/-- The run `run_faults`, then `as_destroy` of `spaceA` (with `spaceB` current), then a
further read fault of `spaceB` on page `0x4000`. -/
def run_destroy_refault : Option Kernel :=
  run_faults.bind fun s3 =>
  (as_destroy s3 spaceA spaceB.ptr).bind fun s4 =>
  (vm_fault s4 spaceB VM_FAULT_READ 0x4000).bind fun r5 => some r5.2

/-- A single address space at `0x80040000` with the region `[0x3000, 0xc000)`. -/
def spaceC : addrspace :=
  (as_define_region (as_create boot8).2 (as_create boot8).1 0x3000 0x9000 1 1 0).2.1

/-- Three resolved faults of `spaceC`: pages `0x3000` (slot 3), `0xb000` (home slot 3,
stored in slot 4) and `0x4000` (home slot 4, stored in slot 5). -/
def run_single : Option Kernel :=
  (vm_fault (as_define_region (as_create boot8).2 (as_create boot8).1 0x3000 0x9000 1 1 0).2.2
      spaceC VM_FAULT_WRITE 0x3000).bind fun r1 =>
  (vm_fault r1.2 spaceC VM_FAULT_WRITE 0xb000).bind fun r2 =>
  (vm_fault r2.2 spaceC VM_FAULT_WRITE 0x4000).bind fun r3 => some r3.2

/-- A table of two slots, both valid, with one free frame. -/
def full2 : Kernel :=
  ⟨[⟨0x80040000, 0x11200, 0x1000, none⟩, ⟨0x80040000, 0x12200, 0x2000, none⟩],
    [0x80010000], fun _ => 7, [], []⟩

/-! ## Further concrete runs -/

/-- The empty address space created on `boot8` (at `0x80040000`). -/
def space0 : addrspace := (as_create boot8).1

/-- State after `space0` has been created. -/
def boot0 : Kernel := (as_create boot8).2

/-- On `space0`: a read-only region is defined at `0x1000` with size `0xFFFFF000`, then a
readable and writable region at `0x2000` with size `0x1000`. -/
def run_two_regions : Nat × addrspace × Kernel :=
  as_define_region (as_define_region boot0 space0 0x1000 0xFFFFF000 1 0 0).2.2
    (as_define_region boot0 space0 0x1000 0xFFFFF000 1 0 0).2.1 0x2000 0x1000 1 1 0

/-- The address space `space0` after `as_define_region` of a read-only region at `0x1000`
with size `0xFFFFF000`. -/
def spaceW : addrspace := (as_define_region boot0 space0 0x1000 0xFFFFF000 1 0 0).2.1

/-- State after `spaceW` has been set up. -/
def bootW : Kernel := (as_define_region boot0 space0 0x1000 0xFFFFF000 1 0 0).2.2

/-- An address space with the one read-only region `[0x3000, 0x4000)`. -/
def spaceR : addrspace := (as_define_region boot0 space0 0x3000 0x1000 1 0 0).2.1

/-- State after `spaceR` has been set up. -/
def bootR : Kernel := (as_define_region boot0 space0 0x3000 0x1000 1 0 0).2.2

/-- The state `boot0` with the kernel heap exhausted. -/
def boot0_noheap : Kernel := { boot0 with kheap := [] }

/-- State after a read fault at `0x3000` of `spaceR` has been resolved in `bootR`. -/
def bootR_faulted : Kernel :=
  ((vm_fault bootR spaceR VM_FAULT_READ 0x3000).map Prod.snd).getD bootR

/-- The machine `boot8` with a kernel heap that hands out eight objects. -/
def boot8h : Kernel :=
  { boot8 with kheap := [0x80040000, 0x80040040, 0x80040080, 0x800400c0,
                         0x80040100, 0x80040140, 0x80040180, 0x800401c0] }

/-- Address space at `0x80040000` created on `boot8h`, with the readable and writable
region `[0x3000, 0xd000)`. -/
def spaceX : addrspace :=
  (as_define_region (as_create boot8h).2 (as_create boot8h).1 0x3000 0xa000 1 1 0).2.1

/-- Address space at `0x80040080`, created after `spaceX`, with the readable and writable
region `[0xb000, 0xc000)`. -/
def spaceY : addrspace :=
  (as_define_region
    (as_create (as_define_region (as_create boot8h).2 (as_create boot8h).1
      0x3000 0xa000 1 1 0).2.2).2
    (as_create (as_define_region (as_create boot8h).2 (as_create boot8h).1
      0x3000 0xa000 1 1 0).2.2).1 0xb000 0x1000 1 1 0).2.1

/-- State in which `spaceX` and `spaceY` have been set up. -/
def bootXY : Kernel :=
  (as_define_region
    (as_create (as_define_region (as_create boot8h).2 (as_create boot8h).1
      0x3000 0xa000 1 1 0).2.2).2
    (as_create (as_define_region (as_create boot8h).2 (as_create boot8h).1
      0x3000 0xa000 1 1 0).2.2).1 0xb000 0x1000 1 1 0).2.2

/-- Four resolved faults, page `0x3000` of `spaceX` (slot 3), page `0xb000` of `spaceY`
(home slot 3, stored in slot 4), pages `0x4000` and `0xc000` of `spaceX` (home slot 4,
stored in slots 5 and 6), followed by `as_destroy` of `spaceY`. -/
def run_before_copy : Option Kernel :=
  (vm_fault bootXY spaceX VM_FAULT_WRITE 0x3000).bind fun r1 =>
  (vm_fault r1.2 spaceY VM_FAULT_WRITE 0xb000).bind fun r2 =>
  (vm_fault r2.2 spaceX VM_FAULT_WRITE 0x4000).bind fun r3 =>
  (vm_fault r3.2 spaceX VM_FAULT_WRITE 0xc000).bind fun r4 =>
  as_destroy r4.2 spaceY spaceX.ptr

/-- Address space at `0x80040000` created on `boot8h`, with the readable and writable
region `[0x3000, 0xc000)`. -/
def spaceP : addrspace :=
  (as_define_region (as_create boot8h).2 (as_create boot8h).1 0x3000 0x9000 1 1 0).2.1

/-- Address space at `0x80040080`, created after `spaceP`, with the readable and writable
region `[0x3000, 0x4000)`. -/
def spaceQ : addrspace :=
  (as_define_region
    (as_create (as_define_region (as_create boot8h).2 (as_create boot8h).1
      0x3000 0x9000 1 1 0).2.2).2
    (as_create (as_define_region (as_create boot8h).2 (as_create boot8h).1
      0x3000 0x9000 1 1 0).2.2).1 0x3000 0x1000 1 1 0).2.1

/-- State in which `spaceP` and `spaceQ` have been set up. -/
def bootPQ : Kernel :=
  (as_define_region
    (as_create (as_define_region (as_create boot8h).2 (as_create boot8h).1
      0x3000 0x9000 1 1 0).2.2).2
    (as_create (as_define_region (as_create boot8h).2 (as_create boot8h).1
      0x3000 0x9000 1 1 0).2.2).1 0x3000 0x1000 1 1 0).2.2

/-- Four resolved faults, page `0xb000` of `spaceP` (slot 3), page `0x3000` of `spaceQ`
(home slot 3, stored in slot 4), pages `0x4000` and `0x5000` of `spaceP` (slots 5 and 6),
followed by `as_destroy` of `spaceQ`; one frame is free afterwards. -/
def run_before_failed_copy : Option Kernel :=
  (vm_fault bootPQ spaceP VM_FAULT_WRITE 0xb000).bind fun r1 =>
  (vm_fault r1.2 spaceQ VM_FAULT_WRITE 0x3000).bind fun r2 =>
  (vm_fault r2.2 spaceP VM_FAULT_WRITE 0x4000).bind fun r3 =>
  (vm_fault r3.2 spaceP VM_FAULT_WRITE 0x5000).bind fun r4 =>
  as_destroy r4.2 spaceQ spaceP.ptr

/-- On the empty address space `space0`: the readable and writable region
`[0x2000, 0x3000)` is defined and its page is faulted in by a write; then a read-only
region is defined at `0xFFFFF000` with size `0x4000`. -/
def run_wrapped_region : Option (Nat × addrspace × Kernel) :=
  (vm_fault (as_define_region boot0 space0 0x2000 0x1000 1 1 0).2.2
      (as_define_region boot0 space0 0x2000 0x1000 1 1 0).2.1 VM_FAULT_WRITE 0x2000).bind
    fun r1 =>
      some (as_define_region r1.2 (as_define_region boot0 space0 0x2000 0x1000 1 1 0).2.1
        0xFFFFF000 0x4000 1 0 0)

/-- After `run_wrapped_region`: `as_prepare_load` and then `as_complete_load`. -/
def run_wrapped_load : Option (Nat × addrspace × Kernel) :=
  run_wrapped_region.bind fun r1 =>
  (as_prepare_load r1.2.2 r1.2.1).bind fun r2 =>
  as_complete_load r2.2.2 r2.2.1 r2.2.1.ptr

/-- An address space with the one readable and writable region `[0x7FFE0000, 0x7FFF0000)`,
which ends where the top `VM_STACKPAGES` pages of user space begin. -/
def spaceS : addrspace := (as_define_region boot0 space0 0x7FFE0000 0x10000 1 1 0).2.1

/-- State after `spaceS` has been set up. -/
def bootS : Kernel := (as_define_region boot0 space0 0x7FFE0000 0x10000 1 1 0).2.2

/-- On `boot8`, for the one address space `0x80040000`: `hpt_add` of the pages `0x3000`
(slot 3), `0xb000` (home slot 3, stored in slot 4) and `0x4000` (home slot 4, stored in
slot 5), then `hpt_free` of the page `0xb000`. -/
def run_adds_free : Option Kernel :=
  (hpt_add boot8 0x80040000 0x3000 (READ ||| WRITE) true).bind fun r1 =>
  (hpt_add r1.2 0x80040000 0xb000 (READ ||| WRITE) true).bind fun r2 =>
  (hpt_add r2.2 0x80040000 0x4000 (READ ||| WRITE) true).bind fun r3 =>
  hpt_free r3.2 0x80040000 0xb000 0x1000

/-! ## Sequences of page-table calls -/

/-- One call of the page-table interface with its arguments. -/
inductive hpt_call where
  | add (as vaddr permissions : Nat) (write_to_tlb : Bool)
  | free (as vaddr memsize : Nat)
deriving DecidableEq, Repr

/-- The state after a sequence of calls of `hpt_add` and `hpt_free`, each on the state the
call before it has left (whatever code `hpt_add` returned); `none` when a call does not
return. -/
def run_calls : List hpt_call → Kernel → Option Kernel
  | [], s => some s
  | hpt_call.add as vaddr permissions w :: rest, s =>
    match hpt_add s as vaddr permissions w with
    | none => none
    | some (_, s1) => run_calls rest s1
  | hpt_call.free as vaddr memsize :: rest, s =>
    match hpt_free s as vaddr memsize with
    | none => none
    | some s1 => run_calls rest s1

/-! ## File table and file descriptors (asst2: `kern/syscall/file.c`, `kern/include/file.h`)

The sizes `FT_SIZE` (`__OPEN_MAX`, from the absent `limits.h`) and `FD_SIZE` (from the
absent `proc.h`) are the lengths of the two tables of the state. An access to a table
outside its bounds is the result `none`. The calls into the VFS layer are external: what
they return is an argument of the system call that makes them, and the calls that have an
effect are recorded in a log. -/

/-- Marker of an unused file-table entry (`FT_UNUSED` of `file.h`), kept in `offset`. -/
def FT_UNUSED : Int := -1

/-- Offset of a freshly opened file (`FT_USED` of `file.h`). -/
def FT_USED : Int := 0

/-- Modelled from the spec: `FD_UNUSED` of `proc.h` (header absent), the marker of a free
descriptor slot; like `FT_UNUSED` it is no index of the file table. -/
def FD_UNUSED : Int := -1

/-- Modelled from the spec: `EMFILE` of `kern/errno.h` (header absent). -/
def EMFILE : Nat := 28

/-- Modelled from the spec: `ENFILE` of `kern/errno.h` (header absent). -/
def ENFILE : Nat := 29

/-- Modelled from the spec: `EBADF` of `kern/errno.h` (header absent). -/
def EBADF : Nat := 30

/-- Modelled from the spec: `ESPIPE` of `kern/errno.h` (header absent). -/
def ESPIPE : Nat := 33

/-- Modelled from the spec: `SEEK_SET` of `kern/seek.h` (header absent). -/
def SEEK_SET : Int := 0

/-- Modelled from the spec: `SEEK_CUR` of `kern/seek.h` (header absent). -/
def SEEK_CUR : Int := 1

/-- Modelled from the spec: `SEEK_END` of `kern/seek.h` (header absent). -/
def SEEK_END : Int := 2

/-- Modelled from the spec: `O_RDONLY` of `kern/fcntl.h` (header absent). -/
def O_RDONLY : Nat := 0

/-- Modelled from the spec: `O_WRONLY` of `kern/fcntl.h` (header absent). -/
def O_WRONLY : Nat := 1

/-- Modelled from the spec: `O_RDWR` of `kern/fcntl.h` (header absent). -/
def O_RDWR : Nat := 2

/-- Modelled from the spec: `O_ACCMODE` of `kern/fcntl.h` (header absent), mask of the access mode. -/
def O_ACCMODE : Nat := 3

/-- Modelled from the spec: `O_CREAT` of `kern/fcntl.h` (header absent). -/
def O_CREAT : Nat := 4

/-- Modelled from the spec: `O_EXCL` of `kern/fcntl.h` (header absent). -/
def O_EXCL : Nat := 8

/-- Modelled from the spec: `O_TRUNC` of `kern/fcntl.h` (header absent). -/
def O_TRUNC : Nat := 16

/-- Modelled from the spec: `O_APPEND` of `kern/fcntl.h` (header absent). -/
def O_APPEND : Nat := 32

/-- Modelled from the spec: `O_NOCTTY` of `kern/fcntl.h` (header absent). -/
def O_NOCTTY : Nat := 64

/-- Reduction to a signed 64-bit value (`off_t`). -/
def i64 (x : Int) : Int := (x + 2 ^ 63) % 2 ^ 64 - 2 ^ 63

/-- Reduction to a signed 32-bit value (`int32_t`). -/
def i32 (x : Int) : Int := (x + 2 ^ 31) % 2 ^ 32 - 2 ^ 31

/-- Conversion of an `int` to `size_t` (32 bits, unsigned). -/
def size_of_int (x : Int) : Nat := (x % 2 ^ 32).toNat

/-- A file handle (`FH` of `file.h`); `flag` is the bit pattern of the open flags. -/
structure FH where
  flag : Nat
  count : Int
  offset : Int
deriving DecidableEq, Repr

/-- One entry of the file table (`struct fnode`); `vnode` is the address of the vnode. -/
structure fnode where
  fh : FH
  vnode : Nat
deriving DecidableEq, Repr

/-- A call into the VFS layer that has an effect, as issued by the system calls. -/
inductive vfs_op where
  | vfs_open (flags vnode : Nat)
  | vfs_close (vnode : Nat)
  | incref (vnode : Nat)
  | read (vnode : Nat) (offset : Int) (len : Nat)
  | write (vnode : Nat) (offset : Int) (len : Nat)
deriving DecidableEq, Repr

/-- The state of the file layer: the global `file_table` (`FT_SIZE` entries), the
descriptor table `fd_table` of the current process (`FD_SIZE` entries), and the calls
issued to the VFS layer, latest first. -/
structure Files where
  file_table : List fnode
  fd_table : List Int
  vfs : List vfs_op
deriving DecidableEq, Repr

/-- The element `table[i]` of a C array for an `int` index; `none` outside the bounds. -/
def at_index {α : Type} (table : List α) (i : Int) : Option α :=
  if i < 0 then none else table[i.toNat]?

/-- Function `initialise_file_handle`. -/
def initialise_file_handle (file_table : List fnode) (ft_index : Nat) : List fnode :=
  file_table.set ft_index ⟨⟨0, 0, FT_UNUSED⟩, 0⟩

/-- The loop of `initialise_file_table` from index `i` on, for `n` rounds. -/
def initialise_file_table_loop (file_table : List fnode) : Nat → Nat → List fnode
  | 0, _ => file_table
  | n + 1, i => initialise_file_table_loop (initialise_file_handle file_table i) n (i + 1)

/-- Function `initialise_file_table`. -/
def initialise_file_table (s : Files) : Files :=
  { s with file_table := initialise_file_table_loop s.file_table s.file_table.length 0 }

/-- Function `decrement_fh_count`. -/
def decrement_fh_count (s : Files) (ft_index : Nat) : Option Files :=
  match s.file_table[ft_index]? with
  | none => none
  | some f =>
    let count := f.fh.count - 1
    if count ≤ 0 then
      some { s with
        file_table := initialise_file_handle
          (s.file_table.set ft_index ⟨{ f.fh with count := count }, f.vnode⟩) ft_index
        vfs := vfs_op.vfs_close f.vnode :: s.vfs }
    else
      some { s with
        file_table := s.file_table.set ft_index ⟨{ f.fh with count := count }, f.vnode⟩ }

/-- The loop of `get_ft_index` from index `i` on: the first entry marked unused. -/
def get_ft_index_loop (file_table : List fnode) : Nat → Nat → Option Nat
  | 0, _ => none
  | n + 1, i =>
    match file_table[i]? with
    | none => none
    | some f => if f.fh.offset = FT_UNUSED then some i else get_ft_index_loop file_table n (i + 1)

/-- Function `get_ft_index`: the index found, `none` for the result `ENFILE`. -/
def get_ft_index (s : Files) : Option Nat :=
  get_ft_index_loop s.file_table s.file_table.length 0

/-- The loop of `get_fd` from descriptor `i` on: the first free descriptor. -/
def get_fd_loop (fd_table : List Int) : Nat → Nat → Option Nat
  | 0, _ => none
  | n + 1, i =>
    match fd_table[i]? with
    | none => none
    | some x => if x = FD_UNUSED then some i else get_fd_loop fd_table n (i + 1)

/-- Function `get_fd`: the descriptor found (from 3 on), `none` for the result `EMFILE`. -/
def get_fd (s : Files) : Option Nat :=
  get_fd_loop s.fd_table (s.fd_table.length - 3) 3

/-- Function `sys_open_ft`: result code, the index stored through `ftindex` (if any), new
state. `vfs_open` is what the call of `vfs_open` returns: its code and the vnode. -/
def sys_open_ft (s : Files) (filename_null : Bool) (flags : Nat) (vfs_open : Nat × Nat) :
    Option (Nat × Option Nat × Files) :=
  if filename_null then some (EFAULT, none, s)
  else
    let allflags := O_ACCMODE ||| O_CREAT ||| O_EXCL ||| O_TRUNC ||| O_APPEND ||| O_NOCTTY
    if flags &&& allflags ≠ flags then some (EINVAL, none, s)
    else if vfs_open.1 ≠ 0 then some (vfs_open.1, none, s)
    else
      let s1 := { s with vfs := vfs_op.vfs_open flags vfs_open.2 :: s.vfs }
      match get_ft_index s1 with
      | none => some (ENFILE, none, s1)
      | some ft_ind =>
        match s1.file_table[ft_ind]? with
        | none => none
        | some f =>
          some (0, some ft_ind,
            { s1 with
              file_table := s1.file_table.set ft_ind
                ⟨⟨flags, f.fh.count + 1, FT_USED⟩, vfs_open.2⟩
              vfs := vfs_op.incref vfs_open.2 :: s1.vfs })

/-- Function `sys_open`: result code, the descriptor stored through `ret` (if any), new
state. `copyinstr` is the code the copy of the file name returns. -/
def sys_open (s : Files) (copyinstr : Nat) (flags : Nat) (vfs_open : Nat × Nat) :
    Option (Nat × Option Int × Files) :=
  if copyinstr ≠ 0 then some (copyinstr, none, s)
  else
    match get_fd s with
    | none => some (EMFILE, none, s)
    | some fd =>
      match sys_open_ft s false flags vfs_open with
      | none => none
      | some (err, ft_index, s1) =>
        if err ≠ 0 then some (err, none, s1)
        else
          match ft_index with
          | none => none
          | some ft_index =>
            some (0, some (fd : Int),
              { s1 with fd_table := s1.fd_table.set fd (ft_index : Int) })

/-- Function `sys_close`: result code and new state. The descriptor is bounded by
`FT_SIZE`, the length of the file table. -/
def sys_close (s : Files) (fd : Int) : Option (Nat × Files) :=
  if fd < 0 ∨ fd ≥ (s.file_table.length : Int) then some (EBADF, s)
  else
    match at_index s.fd_table fd with
    | none => none
    | some ft_index =>
      if ft_index = FD_UNUSED then some (EBADF, s)
      else
        match at_index s.file_table ft_index with
        | none => none
        | some f =>
          if f.fh.offset = FT_UNUSED then some (EBADF, s)
          else
            match decrement_fh_count s ft_index.toNat with
            | none => none
            | some s1 =>
              some (0, { s1 with fd_table := s1.fd_table.set fd.toNat FD_UNUSED })

/-- Function `sys_read`: result code, the count stored through `ret` (if any), new state.
`vop_read` is what `VOP_READ` returns: its code and the `uio_resid` it leaves. -/
def sys_read (s : Files) (a0 a2 : Int) (vop_read : Nat × Nat) :
    Option (Nat × Option Int × Files) :=
  let fd := a0
  let buflen := size_of_int a2
  if fd < 0 ∨ fd ≥ (s.fd_table.length : Int) then some (EBADF, none, s)
  else
    match at_index s.fd_table fd with
    | none => none
    | some ft_index =>
      if ft_index = FD_UNUSED then some (EBADF, none, s)
      else
        match at_index s.file_table ft_index with
        | none => none
        | some f =>
          if f.fh.offset = FT_UNUSED then some (EBADF, none, s)
          else if f.fh.flag &&& O_ACCMODE = O_WRONLY then some (EBADF, none, s)
          else
            let s1 := { s with vfs := vfs_op.read f.vnode f.fh.offset buflen :: s.vfs }
            if vop_read.1 ≠ 0 then some (vop_read.1, none, s1)
            else
              let ret := i32 (u32 (buflen + (2 ^ 32 - vop_read.2 % 2 ^ 32)))
              some (0, some ret,
                { s1 with
                  file_table := s1.file_table.set (ft_index.toNat)
                    ⟨{ f.fh with offset := i64 (f.fh.offset + ret) }, f.vnode⟩ })

/-- Function `sys_write`: result code, the count stored through `ret` (if any), new state.
`vop_write` is what `VOP_WRITE` returns: its code and the `uio_resid` it leaves. -/
def sys_write (s : Files) (a0 a2 : Int) (vop_write : Nat × Nat) :
    Option (Nat × Option Int × Files) :=
  let fd := a0
  let nbytes := size_of_int a2
  if fd < 0 ∨ fd ≥ (s.fd_table.length : Int) then some (EBADF, none, s)
  else
    match at_index s.fd_table fd with
    | none => none
    | some ft_index =>
      if ft_index = FD_UNUSED then some (EBADF, none, s)
      else
        match at_index s.file_table ft_index with
        | none => none
        | some f =>
          if f.fh.offset = FT_UNUSED then some (EBADF, none, s)
          else if f.fh.flag &&& O_ACCMODE = O_RDONLY then some (EBADF, none, s)
          else
            let s1 := { s with vfs := vfs_op.write f.vnode f.fh.offset nbytes :: s.vfs }
            if vop_write.1 ≠ 0 then some (vop_write.1, none, s1)
            else
              let ret := i32 (u32 (nbytes + (2 ^ 32 - vop_write.2 % 2 ^ 32)))
              some (0, some ret,
                { s1 with
                  file_table := s1.file_table.set (ft_index.toNat)
                    ⟨{ f.fh with offset := i64 (f.fh.offset + ret) }, f.vnode⟩ })

/-- Function `sys_dup2`: the value returned, the descriptor stored through `retval` (if
any), new state. For `oldfd == newfd` the value returned is `newfd` itself. -/
def sys_dup2 (s : Files) (oldfd newfd : Int) : Option (Nat × Option Int × Files) :=
  if oldfd < 0 ∨ oldfd ≥ (s.fd_table.length : Int) ∨ newfd < 0 ∨
      newfd ≥ (s.fd_table.length : Int) then some (EBADF, none, s)
  else
    match at_index s.fd_table oldfd with
    | none => none
    | some old_ft_index =>
      if old_ft_index = FD_UNUSED then some (EBADF, none, s)
      else if oldfd = newfd then some (newfd.toNat, none, s)
      else
        match at_index s.fd_table newfd with
        | none => none
        | some new_ft_index =>
          let closed : Option (Nat × Files) :=
            if new_ft_index ≠ FD_UNUSED then sys_close s newfd else some (0, s)
          match closed with
          | none => none
          | some (err, s1) =>
            if err ≠ 0 then some (err, none, s1)
            else
              match at_index s1.file_table old_ft_index with
              | none => none
              | some f =>
                some (0, some newfd,
                  { s1 with
                    fd_table := s1.fd_table.set newfd.toNat old_ft_index
                    file_table := s1.file_table.set (old_ft_index.toNat)
                      ⟨{ f.fh with count := f.fh.count + 1 }, f.vnode⟩ })

/-- Function `sys_lseek`: result code, the offset stored through `ret` (if any), new state.
`isseekable` is what `VOP_ISSEEKABLE` returns, `vop_stat` what `VOP_STAT` returns: its
code and the file size `st_size`. -/
def sys_lseek (s : Files) (fd pos whence : Int) (isseekable : Bool) (vop_stat : Nat × Int) :
    Option (Nat × Option Int × Files) :=
  if fd < 0 ∨ fd ≥ (s.fd_table.length : Int) then some (EBADF, none, s)
  else
    match at_index s.fd_table fd with
    | none => none
    | some ft_index =>
      if ft_index = FD_UNUSED then some (EBADF, none, s)
      else
        match at_index s.file_table ft_index with
        | none => none
        | some f =>
          if f.fh.offset = FT_UNUSED then some (EBADF, none, s)
          else if ¬ isseekable then some (ESPIPE, none, s)
          else
            let set_offset (offset : Int) : Option (Nat × Option Int × Files) :=
              some (0, some offset,
                { s with
                  file_table := s.file_table.set (ft_index.toNat)
                    ⟨{ f.fh with offset := offset }, f.vnode⟩ })
            if whence = SEEK_SET then
              if pos < 0 then some (EINVAL, none, s) else set_offset pos
            else if whence = SEEK_CUR then
              let offset := i64 (f.fh.offset + pos)
              if offset < 0 then some (EINVAL, none, s) else set_offset offset
            else if whence = SEEK_END then
              if vop_stat.1 ≠ 0 then some (vop_stat.1, none, s)
              else
                let offset := i64 (vop_stat.2 + pos)
                if offset < 0 then some (EINVAL, none, s) else set_offset offset
            else some (EINVAL, none, s)

/-! ### Notions for the descriptors -/

/-- The descriptor `fd` is not open in the current process: it is negative, beyond the
descriptor table, or its slot is marked free (never opened, or closed). -/
def fd_closed (s : Files) (fd : Int) : Prop :=
  fd < 0 ∨ fd ≥ (s.fd_table.length : Int) ∨ at_index s.fd_table fd = some FD_UNUSED

/-- The descriptor `fd` is open: it is a slot of the descriptor table that refers to the
entry `i` of the file table, which holds `f` and is in use. -/
def fd_open (s : Files) (fd : Int) (i : Nat) (f : fnode) : Prop :=
  0 ≤ fd ∧ fd < (s.fd_table.length : Int) ∧ at_index s.fd_table fd = some (i : Int) ∧
    s.file_table[i]? = some f ∧ f.fh.offset ≠ FT_UNUSED

/-- The target offset of a seek as the interface describes it: `pos` for `SEEK_SET`,
`o + pos` for `SEEK_CUR`, `size + pos` for `SEEK_END`, as exact integers; `none` for any
other `whence`. -/
def lseek_target (whence o size pos : Int) : Option Int :=
  if whence = SEEK_SET then some pos
  else if whence = SEEK_CUR then some (o + pos)
  else if whence = SEEK_END then some (size + pos)
  else none

/-! ### Concrete runs of the file layer -/

/-- A process with 128 descriptors, all free, and a file table of 128 entries after
`initialise_file_table`. -/
def files0 : Files :=
  initialise_file_table
    ⟨List.replicate 128 ⟨⟨7, 7, 7⟩, 7⟩, List.replicate 128 FD_UNUSED, []⟩

/-- State after `sys_open` of a file for reading and writing (`O_RDWR | O_CREAT`) on
`files0`; the VFS layer returns the vnode `0x80050000`. The descriptor is 3. -/
def files_open : Option Files :=
  (sys_open files0 0 (O_RDWR ||| O_CREAT) (0, 0x80050000)).map fun r => r.2.2

/-- After `files_open`: `sys_dup2(3, 5)`. -/
def files_dup : Option Files :=
  files_open.bind fun s => (sys_dup2 s 3 5).map fun r => r.2.2

/-- After `files_dup`: `sys_close(5)`. -/
def files_dup_closed : Option Files :=
  files_dup.bind fun s => (sys_close s 5).map fun r => r.2

/-- The number of descriptor slots that refer to the entry `i` of the file table. -/
def fd_refs (s : Files) (i : Nat) : Nat := s.fd_table.count (i : Int)

/-- State after `sys_open` of a file for writing (`O_WRONLY`) on `files0`; the VFS layer
returns the vnode `0x80050000`. The descriptor is 3, the entry of the file table 0. -/
def files_wronly : Option Files :=
  (sys_open files0 0 O_WRONLY (0, 0x80050000)).map fun r => r.2.2

/-- After `files_wronly`: `sys_write` on descriptor 3 with the byte count `(size_t)-1`
(`a2 = -1`), where `VOP_WRITE` returns 0 and leaves `uio_resid = 0`: the whole request is
consumed, as by a device that discards what is written to it. -/
def files_written : Option Files :=
  files_wronly.bind fun s => (sys_write s 3 (-1) (0, 0)).map fun r => r.2.2

/-- The reference count of every entry of the file table is the number of descriptor
slots that refer to it. -/
def counts_match (s : Files) : Prop :=
  ∀ (i : Nat) (f : fnode), s.file_table[i]? = some f → f.fh.count = (fd_refs s i : Int)

/-- One system call of the file layer, with its arguments and with what the VFS layer
returns to it. -/
inductive file_call where
  | sys_open (copyinstr flags : Nat) (vfs_open : Nat × Nat)
  | sys_close (fd : Int)
  | sys_dup2 (oldfd newfd : Int)
  | sys_read (a0 a2 : Int) (vop_read : Nat × Nat)
  | sys_write (a0 a2 : Int) (vop_write : Nat × Nat)
  | sys_lseek (fd pos whence : Int) (isseekable : Bool) (vop_stat : Nat × Int)
deriving DecidableEq, Repr

/-- The state after a sequence of system calls of one process, each on the state the call
before it has left (whatever it returned); `none` when a call does not return. -/
def run_file_calls : List file_call → Files → Option Files
  | [], s => some s
  | file_call.sys_open copyinstr flags vfs_open :: rest, s =>
    match sys_open s copyinstr flags vfs_open with
    | none => none
    | some r => run_file_calls rest r.2.2
  | file_call.sys_close fd :: rest, s =>
    match sys_close s fd with
    | none => none
    | some r => run_file_calls rest r.2
  | file_call.sys_dup2 oldfd newfd :: rest, s =>
    match sys_dup2 s oldfd newfd with
    | none => none
    | some r => run_file_calls rest r.2.2
  | file_call.sys_read a0 a2 vop_read :: rest, s =>
    match sys_read s a0 a2 vop_read with
    | none => none
    | some r => run_file_calls rest r.2.2
  | file_call.sys_write a0 a2 vop_write :: rest, s =>
    match sys_write s a0 a2 vop_write with
    | none => none
    | some r => run_file_calls rest r.2.2
  | file_call.sys_lseek fd pos whence isseekable vop_stat :: rest, s =>
    match sys_lseek s fd pos whence isseekable vop_stat with
    | none => none
    | some r => run_file_calls rest r.2.2

/-! ## Theorems -/

/-- C1 (evaluation at the failing input): after the three faults of `run_faults` the page
`0x4000` of `spaceB` is found by `hpt_get` in slot 5; after `hpt_free` of the one page
`0x3000` of `spaceA` (the call `as_destroy` makes) the entry of `spaceB` has been moved
into slot 3 and `hpt_get` for page `0x4000` of `spaceB` finds nothing. -/
theorem hpt_free_loses_other_page :
    spaceA.ptr = 0x80040000 ∧ spaceB.ptr = 0x80040040 ∧
    run_faults.map (fun s => hpt_get s.hpt spaceB.ptr 0x4000) = some (some (some 5, some 4)) ∧
    (run_faults.bind fun s => hpt_free s spaceA.ptr 0x3000 0x1000).map
      (fun s => (hpt_get s.hpt spaceB.ptr 0x4000, s.hpt[3]?, s.hpt[5]?)) =
      some (some (none, some 4), some ⟨0x80040040, 0x12600, 0x4000, some 4⟩,
        some ⟨0, 0, 0, none⟩) := by
  set_option maxRecDepth 100000 in decide

/-- C2 (evaluation at the failing input): after `run_destroy_refault` the slots 3 and 5 of
the table both hold a valid entry for page `0x4000` of the address space `0x80040040`. -/
theorem two_valid_entries_for_one_page :
    run_destroy_refault.map (fun s =>
      (s.hpt[3]?.map (fun e => (e.pid, e.entryhi &&& TLBHI_VPAGE, e.entrylo &&& TLBLO_VALID)),
       s.hpt[5]?.map (fun e => (e.pid, e.entryhi &&& TLBHI_VPAGE, e.entrylo &&& TLBLO_VALID)))) =
      some (some (0x80040040, 0x4000, TLBLO_VALID), some (0x80040040, 0x4000, TLBLO_VALID)) := by
  set_option maxRecDepth 100000 in decide

/-- C5 (evaluation at the failing input): after the three faults of `run_single` every
page has one entry and page `0x4000` is found in slot 5 with the frame `0x80012000`;
after `hpt_free` of the whole region `[0x3000, 0xc000)` that frame is not among the free
frames and slot 3 still holds the valid entry of page `0x4000`. -/
theorem hpt_free_keeps_entry_and_frame :
    run_single.map (fun s => (s.hpt, s.frames, hpt_get s.hpt spaceC.ptr 0x4000)) =
      some ([⟨0, 0, 0, none⟩, ⟨0, 0, 0, none⟩, ⟨0, 0, 0, none⟩,
          ⟨0x80040000, 0x10600, 0x3000, some 4⟩, ⟨0x80040000, 0x11600, 0xb000, some 5⟩,
          ⟨0x80040000, 0x12600, 0x4000, none⟩, ⟨0, 0, 0, none⟩, ⟨0, 0, 0, none⟩],
        [0x80013000], some (some 5, some 4)) ∧
    (run_single.bind fun s => hpt_free s spaceC.ptr 0x3000 0x9000).map
      (fun s => (s.hpt, s.frames)) =
      some ([⟨0, 0, 0, none⟩, ⟨0, 0, 0, none⟩, ⟨0, 0, 0, none⟩,
          ⟨0x80040000, 0x12600, 0x4000, none⟩, ⟨0, 0, 0, none⟩,
          ⟨0, 0, 0, none⟩, ⟨0, 0, 0, none⟩, ⟨0, 0, 0, none⟩],
        [0x80011000, 0x80010000, 0x80013000]) := by
  set_option maxRecDepth 100000 in decide


/-! ### Fault types (C8) -/

/-- C8 (counterexample): on the address space just created on `boot8`, which has no
region, a fault of type 7 (neither Read, Write nor read-only violation) is answered with
`EFAULT`, not with `EINVAL`. -/
theorem vm_fault_bad_type_empty_space :
    (as_create boot8).1.ptr ≠ 0 ∧ (as_create boot8).1.regions = [] ∧
    (7 : Int) ≠ VM_FAULT_READ ∧ (7 : Int) ≠ VM_FAULT_WRITE ∧ (7 : Int) ≠ VM_FAULT_READONLY ∧
    (vm_fault boot8 (as_create boot8).1 7 0x3000).map (fun r => r.1) = some EFAULT ∧
    EFAULT ≠ EINVAL := by
  decide

/-- C8 (amended): for a non-null current address space `vm_fault` answers the
read-only-violation type with `EFAULT` whatever the region set is; it answers a type that
is neither Read, Write nor read-only violation with `EINVAL` when the space has at least
one region and with `EFAULT` when it has none; in all three cases the state is returned
as it was. -/
theorem vm_fault_rejects_fault_type (s : Kernel) (as : addrspace) (faulttype : Int)
    (faultaddress : Nat) (has : as.ptr ≠ 0) :
    (faulttype = VM_FAULT_READONLY →
      vm_fault s as faulttype faultaddress = some (EFAULT, s)) ∧
    (faulttype ≠ VM_FAULT_READ → faulttype ≠ VM_FAULT_WRITE →
      faulttype ≠ VM_FAULT_READONLY → as.regions ≠ [] →
      vm_fault s as faulttype faultaddress = some (EINVAL, s)) ∧
    (faulttype ≠ VM_FAULT_READ → faulttype ≠ VM_FAULT_WRITE →
      faulttype ≠ VM_FAULT_READONLY → as.regions = [] →
      vm_fault s as faulttype faultaddress = some (EFAULT, s)) := by
  refine ⟨?_, ?_, ?_⟩
  · intro h
    unfold vm_fault
    by_cases hr : as.regions = [] <;> simp [has, hr, h]
  · intro h1 h2 h3 hr
    unfold vm_fault
    simp [has, hr, h1, h2, h3]
  · intro _ _ _ hr
    unfold vm_fault
    simp [has, hr]

/-- Witness of C8 (amended) on `spaceA` (one region) and on the empty space of `boot8`. -/
theorem vm_fault_rejects_fault_type_witness :
    spaceA.ptr ≠ 0 ∧
    vm_fault boot8 spaceA VM_FAULT_READONLY 0x3000 = some (EFAULT, boot8) ∧
    vm_fault boot8 spaceA 7 0x3000 = some (EINVAL, boot8) ∧
    vm_fault boot8 (as_create boot8).1 7 0x3000 = some (EFAULT, boot8) :=
  ⟨by decide,
   (vm_fault_rejects_fault_type boot8 spaceA VM_FAULT_READONLY 0x3000 (by decide)).1 rfl,
   (vm_fault_rejects_fault_type boot8 spaceA 7 0x3000 (by decide)).2.1
     (by decide) (by decide) (by decide) (by decide),
   (vm_fault_rejects_fault_type boot8 (as_create boot8).1 7 0x3000 (by decide)).2.2
     (by decide) (by decide) (by decide) (by decide)⟩

/-! ### Access faults -/

/-- Result codes of `hpt_add`: success or `ENOMEM`. -/
theorem hpt_add_code (s s1 : Kernel) (as vaddr permissions ret : Nat) (w : Bool)
    (h : hpt_add s as vaddr permissions w = some (ret, s1)) : ret = 0 ∨ ret = ENOMEM := by
  unfold hpt_add at h
  split at h
  · simp at h
  · simp only at h
    split at h
    · simp at h; exact Or.inr h.1.symm
    · split at h
      · simp at h
      · split at h
        · simp at h
        · split at h
          · simp at h
          · simp at h; exact Or.inr h.1.symm
          · split at h
            · simp at h; exact Or.inl h.1.symm
            · simp at h

/-- The end of a region is the exact sum `base + size` when that is below `2 ^ 32`. -/
theorem region_end_exact (r : as_regions) (h : r.base + r.size < 2 ^ 32) :
    region_end r = r.base + r.size :=
  Nat.mod_eq_of_lt h

/-- The region scan of `vm_fault` on page-aligned regions is the search for the first
region that contains the page. -/
theorem vm_fault_scan_eq (page : Nat) (regions : List as_regions)
    (hal : ∀ r ∈ regions, r.base &&& PAGE_FRAME = r.base) :
    vm_fault_scan page regions none = some (first_region regions page) ∧
    ∀ r0, vm_fault_scan page regions (some r0) = some (some r0) := by
  induction regions with
  | nil => simp [vm_fault_scan, first_region]
  | cons r rest ih =>
    have hr := hal r (List.mem_cons_self _ _)
    have ih1 := ih (fun x hx => hal x (List.mem_cons_of_mem _ hx))
    constructor
    · unfold vm_fault_scan first_region
      by_cases hc : r.base ≤ page ∧ page < region_end r
      · simp [hr, hc, ih1.2, List.find?]
      · simp only [hr, ne_eq, not_true_eq_false, if_false, ge_iff_le, true_and, hc,
          List.find?, decide_False]
        exact ih1.1
    · intro r0
      unfold vm_fault_scan
      simp [hr, ih1.2]

/-- The body of `vm_fault` once the region is found and permits the access: the lookup,
then the refresh of the translation cache or the new entry. -/
theorem vm_fault_permitted (s : Kernel) (as : addrspace) (faulttype : Int)
    (faultaddress : Nat) (r : as_regions) (has : as.ptr ≠ 0)
    (hscan : vm_fault_scan (faultaddress &&& PAGE_FRAME) as.regions none = some (some r))
    (hperm : (faulttype = VM_FAULT_READ ∧ r.permissions &&& READ ≠ 0) ∨
      (faulttype = VM_FAULT_WRITE ∧ r.permissions &&& WRITE ≠ 0)) :
    vm_fault s as faulttype faultaddress =
      match hpt_get s.hpt as.ptr (faultaddress &&& PAGE_FRAME) with
      | none => none
      | some (none, _) => hpt_add s as.ptr (faultaddress &&& PAGE_FRAME) r.permissions true
      | some (some ei, _) =>
        match s.hpt[ei]? with
        | none => none
        | some entry =>
          some (0, { s with tlb := tlb_op.random entry.entryhi entry.entrylo :: s.tlb }) := by
  have hr : as.regions ≠ [] := by
    intro h; rw [h] at hscan; simp [vm_fault_scan] at hscan
  unfold vm_fault
  rcases hperm with ⟨h1, h2⟩ | ⟨h1, h2⟩
  · subst h1
    simp [has, hr, hscan, h2, VM_FAULT_READ, VM_FAULT_WRITE, VM_FAULT_READONLY]
  · subst h1
    simp [has, hr, hscan, h2, VM_FAULT_READ, VM_FAULT_WRITE, VM_FAULT_READONLY]

/-- Access faults with the end of a region taken on 32 bits: for a Read or Write fault on a
non-null address space whose regions are page aligned, `vm_fault` returns `EFAULT` exactly
when the space has no regions, or `first_region` finds no region for the page of the fault
address, or the region it finds lacks `READ` for a Read fault or `WRITE` for a Write fault;
and whenever it returns `EFAULT` the state (page table, frame allocator, memory) is the one
before the call. The range of a region is `[base, region_end)` here: it is
`[base, base + size)` only when `base + size` is below `2 ^ 32` (`region_end_exact`). -/
theorem vm_fault_efault_iff (s : Kernel) (as : addrspace) (faulttype : Int)
    (faultaddress : Nat) (has : as.ptr ≠ 0)
    (hft : faulttype = VM_FAULT_READ ∨ faulttype = VM_FAULT_WRITE)
    (hal : ∀ r ∈ as.regions, r.base &&& PAGE_FRAME = r.base) :
    ((∃ s1, vm_fault s as faulttype faultaddress = some (EFAULT, s1)) ↔
      (as.regions = [] ∨
       first_region as.regions (faultaddress &&& PAGE_FRAME) = none ∨
       ∃ r, first_region as.regions (faultaddress &&& PAGE_FRAME) = some r ∧
         ((faulttype = VM_FAULT_READ ∧ r.permissions &&& READ = 0) ∨
          (faulttype = VM_FAULT_WRITE ∧ r.permissions &&& WRITE = 0)))) ∧
    (∀ s1, vm_fault s as faulttype faultaddress = some (EFAULT, s1) → s1 = s) := by
  have hro : faulttype ≠ VM_FAULT_READONLY := by
    rcases hft with h | h <;> rw [h] <;> decide
  have hscan := (vm_fault_scan_eq (faultaddress &&& PAGE_FRAME) as.regions hal).1
  by_cases hr : as.regions = []
  · have hv : vm_fault s as faulttype faultaddress = some (EFAULT, s) := by
      unfold vm_fault; simp [has, hr]
    rw [hv]
    exact ⟨⟨fun _ => Or.inl hr, fun _ => ⟨s, rfl⟩⟩, fun s1 h => by simp at h; exact h.symm⟩
  · cases hfr : first_region as.regions (faultaddress &&& PAGE_FRAME) with
    | none =>
      have hv : vm_fault s as faulttype faultaddress = some (EFAULT, s) := by
        unfold vm_fault; simp [has, hr, hro, hft, hscan, hfr]
      rw [hv]
      exact ⟨⟨fun _ => Or.inr (Or.inl rfl), fun _ => ⟨s, rfl⟩⟩,
        fun s1 h => by simp at h; exact h.symm⟩
    | some r =>
      by_cases hp : (faulttype = VM_FAULT_READ ∧ r.permissions &&& READ = 0) ∨
          (faulttype = VM_FAULT_WRITE ∧ r.permissions &&& WRITE = 0)
      · have hv : vm_fault s as faulttype faultaddress = some (EFAULT, s) := by
          unfold vm_fault
          rcases hp with hp | hp
          · simp [has, hr, hro, hft, hscan, hfr, hp]
          · simp [has, hr, hro, hft, hscan, hfr, hp]
        rw [hv]
        exact ⟨⟨fun _ => Or.inr (Or.inr ⟨r, rfl, hp⟩), fun _ => ⟨s, rfl⟩⟩,
          fun s1 h => by simp at h; exact h.symm⟩
      · have hne : ∀ s1, vm_fault s as faulttype faultaddress ≠ some (EFAULT, s1) := by
          intro s1 hv
          have hperm : (faulttype = VM_FAULT_READ ∧ r.permissions &&& READ ≠ 0) ∨
              (faulttype = VM_FAULT_WRITE ∧ r.permissions &&& WRITE ≠ 0) := by
            rcases hft with h | h
            · exact Or.inl ⟨h, fun h0 => hp (Or.inl ⟨h, h0⟩)⟩
            · exact Or.inr ⟨h, fun h0 => hp (Or.inr ⟨h, h0⟩)⟩
          rw [vm_fault_permitted s as faulttype faultaddress r has (by rw [hscan, hfr]) hperm]
            at hv
          split at hv
          · simp at hv
          · have := hpt_add_code _ _ _ _ _ _ _ hv
            rcases this with h | h <;> revert h <;> decide
          · split at hv
            · simp at hv
            · simp at hv; exact absurd hv.1 (by decide)
        constructor
        · constructor
          · rintro ⟨s1, h⟩; exact absurd h (hne s1)
          · rintro (h | h | ⟨r1, h1, h2⟩)
            · exact absurd h hr
            · simp at h
            · simp at h1; subst h1; exact absurd h2 hp
        · intro s1 h; exact absurd h (hne s1)


/-- Example of `vm_fault_efault_iff`: a write fault of `spaceA` at `0x5123`, outside its one
region. -/
theorem vm_fault_efault_iff_witness :
    spaceA.ptr ≠ 0 ∧ first_region spaceA.regions (0x5123 &&& PAGE_FRAME) = none ∧
    vm_fault bootAB spaceA VM_FAULT_WRITE 0x5123 = some (EFAULT, bootAB) := by
  have h := vm_fault_efault_iff bootAB spaceA VM_FAULT_WRITE 0x5123 (by decide)
    (Or.inr rfl) (by decide)
  obtain ⟨s1, hs1⟩ := h.1.mpr (Or.inr (Or.inl (by decide)))
  have h2 := h.2 s1 hs1
  subst h2
  exact ⟨by decide, by decide, hs1⟩

/-! ### Overlap rejection -/

/-- The overlap scan of `as_define_region` is true exactly when some region meets the
test of the scan. -/
theorem as_define_region_overlap_iff (vaddr memsize : Nat) (regions : List as_regions) :
    as_define_region_overlap vaddr memsize regions = true ↔
      ∃ curr ∈ regions, vaddr ≤ region_end curr ∧
        u32 (vaddr + memsize) ≥ curr.base := by
  induction regions with
  | nil => simp [as_define_region_overlap]
  | cons c rest ih =>
    unfold as_define_region_overlap
    by_cases hc : vaddr ≤ region_end c ∧ u32 (vaddr + memsize) ≥ c.base
    · simp only [hc, and_self, if_true, true_iff]
      exact ⟨c, List.mem_cons_self _ _, hc⟩
    · simp only [hc, if_false, ih, List.mem_cons]
      constructor
      · rintro ⟨o, ho, h⟩; exact ⟨o, Or.inr ho, h⟩
      · rintro ⟨o, ho | ho, h⟩
        · subst ho; exact absurd h hc
        · exact ⟨o, ho, h⟩

/-- The result of `as_define_region` on a non-null address space whose aligned range
passes the user-space check. -/
theorem as_define_region_in_user (s : Kernel) (as : addrspace) (vaddr memsize : Nat)
    (readable writeable executable : Int) (has : as.ptr ≠ 0)
    (huser : ¬ u32 (region_base vaddr + region_size vaddr memsize) > MIPS_KSEG0) :
    as_define_region s as vaddr memsize readable writeable executable =
      if as_define_region_overlap (region_base vaddr) (region_size vaddr memsize) as.regions
      then (EINVAL, as, s)
      else if (kmalloc s.kheap).1 = 0 then (ENOMEM, as, { s with kheap := (kmalloc s.kheap).2 })
      else (0, { as with regions :=
          ⟨region_base vaddr, region_size vaddr memsize,
            region_permissions readable writeable executable, false⟩ :: as.regions },
        { s with kheap := (kmalloc s.kheap).2 }) := by
  unfold as_define_region
  simp only [has, if_false]
  rw [if_neg huser]

/-- Overlap rejection with the end of a region taken on 32 bits: for a non-null address
space and a request whose page-aligned range lies within user space, `as_define_region`
returns `EINVAL` exactly when some existing region `other` satisfies
`alignedBase ≤ region_end other` and `alignedBase + alignedSize ≥ other.base`; in
particular it does whenever the aligned range shares an address with `[base, region_end)`
of a region; and when it returns `EINVAL` the address space (its region list) and the state
are unchanged. The end `region_end other` is the sum `other.base + other.size` on 32 bits,
the exact sum only when that is below `2 ^ 32` (`region_end_exact`). -/
theorem as_define_region_einval_iff (s : Kernel) (as : addrspace) (vaddr memsize : Nat)
    (readable writeable executable : Int) (has : as.ptr ≠ 0)
    (huser : region_base vaddr + region_size vaddr memsize ≤ MIPS_KSEG0) :
    ((as_define_region s as vaddr memsize readable writeable executable).1 = EINVAL ↔
      ∃ other ∈ as.regions, region_base vaddr ≤ region_end other ∧
        region_base vaddr + region_size vaddr memsize ≥ other.base) ∧
    (∀ other ∈ as.regions, ∀ a, region_base vaddr ≤ a →
      a < region_base vaddr + region_size vaddr memsize →
      other.base ≤ a → a < region_end other →
      (as_define_region s as vaddr memsize readable writeable executable).1 = EINVAL) ∧
    ((as_define_region s as vaddr memsize readable writeable executable).1 = EINVAL →
      (as_define_region s as vaddr memsize readable writeable executable).2 = (as, s)) := by
  have hsum : u32 (region_base vaddr + region_size vaddr memsize) =
      region_base vaddr + region_size vaddr memsize := by
    unfold u32; apply Nat.mod_eq_of_lt
    have : MIPS_KSEG0 < 2 ^ 32 := by decide
    omega
  have huser1 : ¬ u32 (region_base vaddr + region_size vaddr memsize) > MIPS_KSEG0 := by
    rw [hsum]; omega
  have hov : as_define_region_overlap (region_base vaddr) (region_size vaddr memsize)
      as.regions = true ↔
      ∃ other ∈ as.regions, region_base vaddr ≤ region_end other ∧
        region_base vaddr + region_size vaddr memsize ≥ other.base := by
    rw [as_define_region_overlap_iff, hsum]
  have hret : (as_define_region s as vaddr memsize readable writeable executable).1 = EINVAL ↔
      as_define_region_overlap (region_base vaddr) (region_size vaddr memsize)
        as.regions = true := by
    rw [as_define_region_in_user s as vaddr memsize readable writeable executable has huser1]
    by_cases ho : as_define_region_overlap (region_base vaddr) (region_size vaddr memsize)
        as.regions = true
    · simp [ho]
    · by_cases hk : (kmalloc s.kheap).1 = 0
      · simp [ho, hk]; decide
      · simp [ho, hk]; decide
  refine ⟨hret.trans hov, ?_, ?_⟩
  · intro o ho a h1 h2 h3 h4
    exact (hret.trans hov).mpr ⟨o, ho, by omega, by omega⟩
  · intro h
    have ho := hret.mp h
    rw [as_define_region_in_user s as vaddr memsize readable writeable executable has huser1]
    simp [ho]

/-- Example of `as_define_region_einval_iff`: defining `[0x3800, 0x4800)` in `spaceA`, which
holds `[0x3000, 0x4000)`. -/
theorem as_define_region_einval_iff_witness :
    spaceA.ptr ≠ 0 ∧ region_base 0x3800 + region_size 0x3800 0x1000 ≤ MIPS_KSEG0 ∧
    (as_define_region bootAB spaceA 0x3800 0x1000 1 0 0).1 = EINVAL ∧
    (as_define_region bootAB spaceA 0x3800 0x1000 1 0 0).2 = (spaceA, bootAB) := by
  have h := as_define_region_einval_iff bootAB spaceA 0x3800 0x1000 1 0 0 (by decide)
    (by decide)
  have h1 := h.1.mpr ⟨⟨0x3000, 0x1000, 6, false⟩, by decide, by decide, by decide⟩
  exact ⟨by decide, by decide, h1, h.2.2 h1⟩

/-! ### Machine words and masks -/

/-- The page mask keeps the bits 12 to 31. -/
theorem and_frame_mask (x : Nat) : x &&& 0xfffff000 = x / 4096 % 1048576 * 4096 := by
  apply Nat.eq_of_testBit_eq
  intro i
  have h1 : (0xfffff000 : Nat) = 2 ^ 12 * (2 ^ 20 - 1) := by norm_num
  have h2 : x / 4096 % 1048576 * 4096 = 2 ^ 12 * (x / 2 ^ 12 % 2 ^ 20) := by
    norm_num [Nat.mul_comm]
  rw [h2, Nat.testBit_and, h1, Nat.testBit_mul_pow_two, Nat.testBit_mul_pow_two,
    Nat.testBit_two_pow_sub_one, Nat.testBit_mod_two_pow, ← Nat.shiftRight_eq_div_pow,
    Nat.testBit_shiftRight]
  by_cases hi : 12 ≤ i
  · have : 12 + (i - 12) = i := by omega
    simp [hi, this, Bool.and_comm]
  · simp [hi]

/-- A one-bit mask selects that bit. -/
theorem and_bit_mask (x k : Nat) : x &&& 2 ^ k = x / 2 ^ k % 2 * 2 ^ k := by
  apply Nat.eq_of_testBit_eq
  intro i
  have h2 : x / 2 ^ k % 2 * 2 ^ k = 2 ^ k * (x / 2 ^ k % 2 ^ 1) := by
    rw [Nat.mul_comm]; simp
  rw [h2, Nat.testBit_and, Nat.testBit_two_pow, Nat.testBit_mul_pow_two,
    Nat.testBit_mod_two_pow, ← Nat.shiftRight_eq_div_pow, Nat.testBit_shiftRight]
  by_cases hi : k = i
  · subst hi; simp
  · by_cases h3 : k ≤ i
    · have : ¬ (i - k < 1) := by omega
      simp [hi, this]
    · simp [hi, h3]

/-- Or-ing flag bits into a page-aligned word adds them. -/
theorem or_of_aligned (x b : Nat) (hx : x % 4096 = 0) (hb : b < 4096) : x ||| b = x + b := by
  have h : x = 2 ^ 12 * (x / 4096) := by
    have := Nat.div_add_mod x 4096
    omega
  rw [h]
  exact (Nat.mul_add_lt_is_or (by simpa using hb) _).symm

/-- The valid bit of a word. -/
theorem and_valid (x : Nat) : x &&& TLBLO_VALID = x / 512 % 2 * 512 := by
  have := and_bit_mask x 9
  simpa [TLBLO_VALID] using this

/-- The dirty bit of a word. -/
theorem and_dirty (x : Nat) : x &&& TLBLO_DIRTY = x / 1024 % 2 * 1024 := by
  have := and_bit_mask x 10
  simpa [TLBLO_DIRTY] using this

/-- Masking with `PAGE_FRAME` twice is masking once. -/
theorem and_page_frame_idem (x : Nat) : (x &&& PAGE_FRAME) &&& PAGE_FRAME = x &&& PAGE_FRAME := by
  rw [Nat.and_assoc, Nat.and_self]

/-- The entry word `hpt_add` builds from a frame: its frame field, valid and dirty bits. -/
theorem entrylo_fields (paddr : Nat) (dirty : Bool) (h32 : paddr < 2 ^ 32)
    (hal : paddr % PAGE_SIZE = 0) :
    let lo := KVADDR_TO_PADDR paddr ||| TLBLO_VALID
    let lo1 := if dirty then lo ||| TLBLO_DIRTY else lo
    PADDR_TO_KVADDR (lo1 &&& TLBLO_PPAGE) = paddr ∧ lo1 &&& TLBLO_VALID ≠ 0 ∧
      (lo1 &&& TLBLO_DIRTY ≠ 0 ↔ dirty = true) := by
  intro lo lo1
  have hk : KVADDR_TO_PADDR paddr % 4096 = 0 ∧ KVADDR_TO_PADDR paddr < 2 ^ 32 ∧
      (KVADDR_TO_PADDR paddr + 2147483648) % 4294967296 = paddr := by
    unfold KVADDR_TO_PADDR u32 MIPS_KSEG0
    unfold PAGE_SIZE at hal
    norm_num at h32 ⊢
    omega
  have hlo : lo = KVADDR_TO_PADDR paddr + 512 := by
    show KVADDR_TO_PADDR paddr ||| TLBLO_VALID = _
    rw [or_of_aligned _ _ hk.1 (by decide)]; rfl
  have hlo1 : lo1 = KVADDR_TO_PADDR paddr + (if dirty then 1536 else 512) := by
    show (if dirty then lo ||| TLBLO_DIRTY else lo) = _
    cases dirty
    · simp [hlo]
    · simp only [if_true]
      show (KVADDR_TO_PADDR paddr ||| TLBLO_VALID) ||| TLBLO_DIRTY = _
      rw [Nat.or_assoc, or_of_aligned _ _ hk.1 (by decide)]; rfl
  have hP : lo1 &&& TLBLO_PPAGE = lo1 / 4096 % 1048576 * 4096 := and_frame_mask lo1
  rw [hP, and_valid, and_dirty, hlo1]
  unfold PADDR_TO_KVADDR u32 MIPS_KSEG0
  norm_num at hk ⊢
  cases dirty <;> simp <;> omega

/-! ### The probe loop of `hpt_add` -/

/-- A slot the probe returns is a slot of the table that is not valid. -/
theorem hpt_add_probe_some (hpt : List hpt_entry) (index ei : Nat) :
    ∀ fuel curr, hpt_add_probe hpt index fuel curr = some (some ei) →
      ∃ e, hpt[ei]? = some e ∧ e.entrylo &&& TLBLO_VALID = 0 := by
  intro fuel
  induction fuel with
  | zero => intro curr h; simp [hpt_add_probe] at h
  | succ f ih =>
    intro curr h
    unfold hpt_add_probe at h
    split at h
    · simp at h
    · rename_i e he
      split at h
      · split at h
        · simp at h
        · exact ih _ h
      · rename_i hv
        simp at h; subst h
        exact ⟨e, he, by simpa using hv⟩

/-- When the home slot is not valid the probe returns it. -/
theorem hpt_add_probe_home (hpt : List hpt_entry) (index fuel : Nat) (e : hpt_entry)
    (he : hpt[index]? = some e) (hinv : e.entrylo &&& TLBLO_VALID = 0) :
    hpt_add_probe hpt index (fuel + 1) index = some (some index) := by
  unfold hpt_add_probe
  simp [he, hinv]

/-- When the home slot is valid the probe returns another slot. -/
theorem hpt_add_probe_ne_home (hpt : List hpt_entry) (index ei : Nat) (e : hpt_entry)
    (he : hpt[index]? = some e) (hval : e.entrylo &&& TLBLO_VALID ≠ 0) (fuel curr : Nat)
    (h : hpt_add_probe hpt index fuel curr = some (some ei)) : ei ≠ index := by
  obtain ⟨e1, he1, hinv⟩ := hpt_add_probe_some hpt index ei fuel curr h
  intro hc
  subst hc
  rw [he] at he1
  simp at he1
  subst he1
  exact hval hinv

/-- The probe over a table whose slots are all valid ends at the home slot again. -/
theorem hpt_add_probe_full (hpt : List hpt_entry) (index : Nat) (hidx : index < hpt.length)
    (hall : ∀ e ∈ hpt, e.entrylo &&& TLBLO_VALID ≠ 0) :
    ∀ fuel k, k + fuel = hpt.length → 0 < fuel →
      hpt_add_probe hpt index fuel ((index + k) % hpt.length) = some none := by
  intro fuel
  induction fuel with
  | zero => intro k _ h; omega
  | succ f ih =>
    intro k hk _
    have hn : 0 < hpt.length := by omega
    have hlt : (index + k) % hpt.length < hpt.length := Nat.mod_lt _ hn
    unfold hpt_add_probe
    rw [List.getElem?_eq_getElem hlt]
    have hv := hall _ (List.getElem_mem hlt)
    simp only [hv, ne_eq, not_false_eq_true, if_true]
    have hstep : ((index + k) % hpt.length + 1) % hpt.length = (index + (k + 1)) % hpt.length := by
      rw [Nat.add_mod, Nat.mod_mod, ← Nat.add_mod, Nat.add_assoc]
    rw [hstep]
    by_cases hlast : k + 1 = hpt.length
    · have : (index + (k + 1)) % hpt.length = index := by
        rw [hlast, Nat.add_mod_right, Nat.mod_eq_of_lt hidx]
      simp [this]
    · have hne : (index + (k + 1)) % hpt.length ≠ index := by
        intro hc
        by_cases hw : index + (k + 1) < hpt.length
        · rw [Nat.mod_eq_of_lt hw] at hc; omega
        · have h2 : index + (k + 1) = hpt.length + (index + (k + 1) - hpt.length) := by omega
          rw [h2, Nat.add_mod_left, Nat.mod_eq_of_lt (by omega)] at hc
          omega
      simp only [hne, if_false]
      exact ih (k + 1) (by omega) (by omega)

/-- Every slot is met by the probe: it is `(index + k) % n` for some `k < n`. -/
theorem probe_covers (n index i : Nat) (hidx : index < n) (hi : i < n) :
    ∃ k, k < n ∧ (index + k) % n = i := by
  by_cases h : index ≤ i
  · exact ⟨i - index, by omega, by rw [show index + (i - index) = i by omega]; exact Nat.mod_eq_of_lt hi⟩
  · refine ⟨i + n - index, by omega, ?_⟩
    rw [show index + (i + n - index) = i + n by omega, Nat.add_mod_right]
    exact Nat.mod_eq_of_lt hi

/-- A probe that ends at the home slot again has met valid slots only. -/
theorem hpt_add_probe_none (hpt : List hpt_entry) (index : Nat) (hidx : index < hpt.length) :
    ∀ fuel k, k + fuel = hpt.length →
      (∀ j, j < k → ∀ e, hpt[(index + j) % hpt.length]? = some e → e.entrylo &&& TLBLO_VALID ≠ 0) →
      hpt_add_probe hpt index fuel ((index + k) % hpt.length) = some none →
      ∀ j, j < hpt.length → ∀ e, hpt[(index + j) % hpt.length]? = some e →
        e.entrylo &&& TLBLO_VALID ≠ 0 := by
  intro fuel
  induction fuel with
  | zero => intro k _ _ h; simp [hpt_add_probe] at h
  | succ f ih =>
    intro k hk hprev h
    have hn : 0 < hpt.length := by omega
    have hlt : (index + k) % hpt.length < hpt.length := Nat.mod_lt _ hn
    unfold hpt_add_probe at h
    rw [List.getElem?_eq_getElem hlt] at h
    have hstep : ((index + k) % hpt.length + 1) % hpt.length = (index + (k + 1)) % hpt.length := by
      rw [Nat.add_mod, Nat.mod_mod, ← Nat.add_mod, Nat.add_assoc]
    rw [hstep] at h
    by_cases hv : hpt[(index + k) % hpt.length].entrylo &&& TLBLO_VALID ≠ 0
    · have hprev1 : ∀ j, j < k + 1 → ∀ e, hpt[(index + j) % hpt.length]? = some e →
          e.entrylo &&& TLBLO_VALID ≠ 0 := by
        intro j hj e he
        by_cases hjk : j = k
        · subst hjk
          rw [List.getElem?_eq_getElem hlt] at he
          simp at he; subst he; exact hv
        · exact hprev j (by omega) e he
      simp only [hv, ne_eq, not_false_eq_true, if_true] at h
      by_cases hlast : k + 1 = hpt.length
      · intro j hj; exact hprev1 j (by omega)
      · have hne : (index + (k + 1)) % hpt.length ≠ index := by
          intro hc
          by_cases hw : index + (k + 1) < hpt.length
          · rw [Nat.mod_eq_of_lt hw] at hc; omega
          · have h2 : index + (k + 1) = hpt.length + (index + (k + 1) - hpt.length) := by omega
            rw [h2, Nat.add_mod_left, Nat.mod_eq_of_lt (by omega)] at hc
            omega
        simp only [hne, if_false] at h
        exact ih (k + 1) (by omega) hprev1 h
    · simp [hv] at h

/-- The probe from the home slot returns "table full" exactly when every slot is valid. -/
theorem hpt_add_probe_full_iff (hpt : List hpt_entry) (index : Nat) (hidx : index < hpt.length) :
    hpt_add_probe hpt index hpt.length index = some none ↔
      ∀ e ∈ hpt, e.entrylo &&& TLBLO_VALID ≠ 0 := by
  have h0 : (index + 0) % hpt.length = index := by simp [Nat.mod_eq_of_lt hidx]
  constructor
  · intro h e he
    obtain ⟨i, hi⟩ := List.mem_iff_getElem?.mp he
    have hil : i < hpt.length := by
      rcases List.getElem?_eq_some.mp hi with ⟨h1, _⟩; exact h1
    obtain ⟨k, hk, hki⟩ := probe_covers hpt.length index i hidx hil
    have := hpt_add_probe_none hpt index hidx hpt.length 0 (by omega)
      (fun j hj => by omega) (by rw [h0]; exact h) k hk e (by rw [hki]; exact hi)
    exact this
  · intro hall
    have := hpt_add_probe_full hpt index hidx hall hpt.length 0 (by omega) (by omega)
    rw [h0] at this; exact this

/-- The probe from the home slot of a non-empty table always gives an answer. -/
theorem hpt_add_probe_total (hpt : List hpt_entry) (index : Nat) (hidx : index < hpt.length) :
    ∀ fuel k, k + fuel = hpt.length → 0 < fuel →
      hpt_add_probe hpt index fuel ((index + k) % hpt.length) ≠ none := by
  intro fuel
  induction fuel with
  | zero => intro k _ h; omega
  | succ f ih =>
    intro k hk _
    have hn : 0 < hpt.length := by omega
    have hlt : (index + k) % hpt.length < hpt.length := Nat.mod_lt _ hn
    unfold hpt_add_probe
    rw [List.getElem?_eq_getElem hlt]
    have hstep : ((index + k) % hpt.length + 1) % hpt.length = (index + (k + 1)) % hpt.length := by
      rw [Nat.add_mod, Nat.mod_mod, ← Nat.add_mod, Nat.add_assoc]
    rw [hstep]
    simp only
    split
    · split
      · simp
      · rename_i hne
        by_cases hlast : k + 1 = hpt.length
        · exfalso; apply hne
          rw [hlast, Nat.add_mod_right, Nat.mod_eq_of_lt hidx]
        · exact ih (k + 1) (by omega) (by omega)
    · simp

/-! ### Tables after an assignment -/

/-- Slots of the table after an assignment to a `next` field. -/
theorem getElem?_set_next (hpt : List hpt_entry) (t i : Nat) (nx : Option Nat) :
    (set_next hpt t nx)[i]? =
      if i = t then (hpt[t]?).map (fun e => { e with next := nx }) else hpt[i]? := by
  unfold set_next
  cases ht : hpt[t]? with
  | none =>
    by_cases hi : i = t
    · subst hi; simp [ht]
    · simp [hi]
  | some e =>
    have hlt : t < hpt.length := (List.getElem?_eq_some.mp ht).1
    by_cases hi : i = t
    · subst hi; simp [List.getElem?_set, hlt]
    · have : t ≠ i := fun h => hi h.symm
      simp [List.getElem?_set, hi, this]

/-- An assignment to a `next` field keeps the size of the table. -/
theorem length_set_next (hpt : List hpt_entry) (t : Nat) (nx : Option Nat) :
    (set_next hpt t nx).length = hpt.length := by
  unfold set_next
  cases hpt[t]? <;> simp

/-! ### Function `hpt_add` case by case -/

/-- The frame allocator: a failed call leaves the free list, a successful call takes
its head. -/
theorem alloc_kpages_cases (frames : List Nat) :
    ((alloc_kpages frames).1 = 0 ∧ (alloc_kpages frames).2 = frames) ∨
    ((alloc_kpages frames).1 ≠ 0 ∧ frames = (alloc_kpages frames).1 :: (alloc_kpages frames).2) := by
  cases frames with
  | nil => left; simp [alloc_kpages]
  | cons f fs =>
    by_cases hf : f = 0
    · left; simp [alloc_kpages, hf]
    · right; simp [alloc_kpages, hf]

/-- What holds when `hpt_add` returns success. -/
theorem hpt_add_success (s s1 : Kernel) (as vaddr permissions : Nat) (w : Bool)
    (h : hpt_add s as vaddr permissions w = some (0, s1)) :
    as ≠ 0 ∧ vaddr ≠ 0 ∧ (alloc_kpages s.frames).1 ≠ 0 ∧
    (alloc_kpages s.frames).1 % PAGE_SIZE = 0 ∧
    ∃ index ei hpt1,
      hpt_hash s.hpt.length as (vaddr &&& PAGE_FRAME) = some index ∧
      hpt_add_probe s.hpt index s.hpt.length index = some (some ei) ∧
      hpt_add_link s.hpt index ei = some hpt1 ∧
      s1 = { s with
        hpt := hpt1.set ei ⟨as, hpt_add_entrylo (alloc_kpages s.frames).1 permissions,
          vaddr &&& PAGE_FRAME, none⟩
        frames := (alloc_kpages s.frames).2
        mem := bzero s.mem (alloc_kpages s.frames).1 (1 * PAGE_SIZE)
        tlb := if w then tlb_op.random (vaddr &&& PAGE_FRAME)
            (hpt_add_entrylo (alloc_kpages s.frames).1 permissions) :: s.tlb else s.tlb } := by
  unfold hpt_add at h
  split at h
  · simp at h
  · rename_i hz
    simp only at h
    split at h
    · simp at h; exact absurd h.1 (by decide)
    · rename_i hp
      split at h
      · simp at h
      · rename_i hal
        split at h
        · simp at h
        · rename_i index hidx
          split at h
          · simp at h
          · simp at h; exact absurd h.1 (by decide)
          · rename_i ei hprobe
            split at h
            · rename_i hpt1 mem1 hlink hzero
              have hm : mem1 = bzero s.mem (alloc_kpages s.frames).1 (1 * PAGE_SIZE) := by
                unfold zero_pad at hzero
                simp [hp] at hzero
                exact hzero.symm
              simp only [Option.some.injEq, Prod.mk.injEq, true_and] at h
              refine ⟨fun h0 => hz (Or.inl h0), fun h0 => hz (Or.inr h0), hp,
                by simpa using hal, index, ei, hpt1, hidx, hprobe, hlink, ?_⟩
              rw [← h, hm]
            · simp at h

/-- What holds when `hpt_add` returns a failure code. -/
theorem hpt_add_failure (s s1 : Kernel) (as vaddr permissions ret : Nat) (w : Bool)
    (h : hpt_add s as vaddr permissions w = some (ret, s1)) (hret : ret ≠ 0) :
    ret = ENOMEM ∧ s1 = s ∧
    ((alloc_kpages s.frames).1 = 0 ∨
      ∃ index, hpt_hash s.hpt.length as (vaddr &&& PAGE_FRAME) = some index ∧
        hpt_add_probe s.hpt index s.hpt.length index = some none) := by
  rcases alloc_kpages_cases s.frames with ⟨ha1, ha2⟩ | ⟨ha1, ha2⟩
  · unfold hpt_add at h
    split at h
    · simp at h
    · simp only [ha1, if_true, ha2, Option.some.injEq, Prod.mk.injEq] at h
      exact ⟨h.1.symm, h.2.symm, Or.inl ha1⟩
  · unfold hpt_add at h
    split at h
    · simp at h
    · simp only [ha1, if_false] at h
      split at h
      · simp at h
      · split at h
        · simp at h
        · rename_i index hidx
          split at h
          · simp at h
          · rename_i hprobe
            simp only [Option.some.injEq, Prod.mk.injEq, free_kpages] at h
            rw [← ha2] at h
            exact ⟨h.1.symm, h.2.symm, Or.inr ⟨index, hidx, hprobe⟩⟩
          · split at h
            · simp at h; exact absurd h.1.symm hret
            · simp at h

/-! ### Chain walks -/

/-- The slot the tail walk returns has no successor. -/
theorem hpt_add_tail_next (hpt : List hpt_entry) (t : Nat) :
    ∀ fuel curr, hpt_add_tail hpt fuel curr = some t →
      ∃ e, hpt[t]? = some e ∧ e.next = none := by
  intro fuel
  induction fuel with
  | zero => intro curr h; simp [hpt_add_tail] at h
  | succ f ih =>
    intro curr h
    unfold hpt_add_tail at h
    split at h
    · simp at h
    · rename_i e he
      split at h
      · rename_i hnx
        simp at h; subst h
        exact ⟨e, he, hnx⟩
      · exact ih _ h

/-- The hash index is a slot of the table. -/
theorem hpt_hash_lt (n as address index : Nat) (h : hpt_hash n as address = some index) :
    index < n ∧ (address &&& PAGE_FRAME) = address := by
  unfold hpt_hash at h
  split at h
  · simp at h
  · rename_i hal
    split at h
    · simp at h
    · rename_i hn
      simp at h
      subst h
      exact ⟨Nat.mod_lt _ (Nat.pos_of_ne_zero hn), by simpa using hal⟩

/-- The hash index of an aligned address in a non-empty table. -/
theorem hpt_hash_some (n as address : Nat) (hn : 0 < n)
    (hal : (address &&& PAGE_FRAME) = address) :
    hpt_hash n as address = some ((as ^^^ (address >>> 12)) % n) := by
  unfold hpt_hash
  simp [hal, Nat.ne_of_gt hn]

/-- After `hpt_add` has linked the tail `t` of a chain to slot `ei` and written a matching
entry there, the walk of `hpt_get` along that chain ends at `ei`, provided it found no
match before. -/
theorem hpt_get_walk_after_link (hpt : List hpt_entry) (pid vaddr ei t : Nat)
    (entry : hpt_entry) (hei : ei < hpt.length)
    (hm : (entry.entryhi &&& TLBHI_VPAGE) = vaddr ∧ pid = entry.pid ∧
      entry.entrylo &&& TLBLO_VALID ≠ 0) :
    ∀ fuel curr prev, hpt_add_tail hpt fuel curr = some t →
      (∀ i q, hpt_get_walk hpt pid vaddr (fuel + 1) (some curr) prev ≠ some (some i, q)) →
      ∃ q, hpt_get_walk ((set_next hpt t (some ei)).set ei entry) pid vaddr (fuel + 1)
        (some curr) prev = some (some ei, q) := by
  have hlen : ei < (set_next hpt t (some ei)).length := by rw [length_set_next]; exact hei
  have hnew : ((set_next hpt t (some ei)).set ei entry)[ei]? = some entry := by
    simp [List.getElem?_set, hlen]
  intro fuel
  induction fuel with
  | zero => intro curr prev h; simp [hpt_add_tail] at h
  | succ f ih =>
    intro curr prev htail hnf
    by_cases hce : curr = ei
    · subst hce
      refine ⟨prev, ?_⟩
      unfold hpt_get_walk
      simp [hnew, hm]
    · have htail0 := htail
      unfold hpt_add_tail at htail
      split at htail
      · simp at htail
      · rename_i e he
        have hnomatch : ¬ ((e.entryhi &&& TLBHI_VPAGE) = vaddr ∧ pid = e.pid ∧
            e.entrylo &&& TLBLO_VALID ≠ 0) := by
          intro hmatch
          apply hnf curr prev
          unfold hpt_get_walk
          simp [he, hmatch]
        have hwalk : ∀ i q, hpt_get_walk hpt pid vaddr (f + 1) e.next (some curr) ≠
            some (some i, q) := by
          intro i q hw
          apply hnf i q
          rw [hpt_get_walk]
          simp only [he, hnomatch, if_false]
          exact hw
        have hcur : ((set_next hpt t (some ei)).set ei entry)[curr]? =
            some (if curr = t then { e with next := some ei } else e) := by
          have hne : ei ≠ curr := fun h => hce h.symm
          rw [List.getElem?_set_ne hne, getElem?_set_next]
          by_cases hct : curr = t
          · subst hct; simp [he]
          · simp [hct, he]
        split at htail
        · rename_i hnx
          simp at htail
          subst htail
          refine ⟨some curr, ?_⟩
          rw [hpt_get_walk]
          simp only [hcur, if_true]
          rw [if_neg hnomatch]
          show hpt_get_walk _ pid vaddr (f + 1) (some ei) (some curr) = _
          unfold hpt_get_walk
          simp [hnew, hm]
        · rename_i nx hnx
          have hct : curr ≠ t := by
            intro hc
            obtain ⟨et, het, hnone⟩ := hpt_add_tail_next hpt t (f + 1) curr htail0
            rw [← hc, he] at het
            simp at het
            rw [het, hnone] at hnx
            simp at hnx
          rw [hnx] at hwalk
          cases f with
          | zero => simp [hpt_add_tail] at htail
          | succ f1 =>
            obtain ⟨q, hq⟩ := ih nx (some curr) htail hwalk
            refine ⟨q, ?_⟩
            rw [hpt_get_walk]
            simp only [hcur, hct, if_false]
            rw [if_neg hnomatch, hnx]
            exact hq

/-- After a successful `hpt_add` that followed a lookup without a match, the lookup for
the same address space and page ends at the slot the new entry is in. -/
theorem hpt_get_after_add (s s1 : Kernel) (as vaddr permissions : Nat) (w : Bool)
    (hnone : ∀ i q, hpt_get s.hpt as (vaddr &&& PAGE_FRAME) ≠ some (some i, q))
    (hadd : hpt_add s as vaddr permissions w = some (0, s1)) :
    ∃ ei q, hpt_get s1.hpt as (vaddr &&& PAGE_FRAME) = some (some ei, q) ∧
      s1.hpt[ei]? = some ⟨as, hpt_add_entrylo (alloc_kpages s.frames).1 permissions,
        vaddr &&& PAGE_FRAME, none⟩ ∧
      s1.frames = (alloc_kpages s.frames).2 ∧
      s1.mem = bzero s.mem (alloc_kpages s.frames).1 (1 * PAGE_SIZE) ∧
      (alloc_kpages s.frames).1 ≠ 0 ∧ (alloc_kpages s.frames).1 % PAGE_SIZE = 0 := by
  obtain ⟨has, hv, hp, hal, index, ei, hpt1, hhash, hprobe, hlink, hs1⟩ :=
    hpt_add_success s s1 as vaddr permissions w hadd
  obtain ⟨hidx, _⟩ := hpt_hash_lt _ _ _ _ hhash
  obtain ⟨e0, he0, hinv0⟩ := hpt_add_probe_some _ _ _ _ _ hprobe
  have hei : ei < s.hpt.length := (List.getElem?_eq_some.mp he0).1
  have hvalid : hpt_add_entrylo (alloc_kpages s.frames).1 permissions &&& TLBLO_VALID ≠ 0 := by
    unfold hpt_add_entrylo
    split
    · rw [Nat.and_distrib_right, Nat.and_distrib_right]
      have : TLBLO_VALID &&& TLBLO_VALID = TLBLO_VALID := Nat.and_self _
      rw [this]
      intro h0
      have : TLBLO_VALID ≤ (KVADDR_TO_PADDR (alloc_kpages s.frames).1 &&& TLBLO_VALID |||
          TLBLO_VALID ||| TLBLO_DIRTY &&& TLBLO_VALID) := by
        apply Nat.le_of_testBit
        intro i hi
        simp [Nat.testBit_or, hi]
      rw [h0] at this
      revert this; decide
    · rw [Nat.and_distrib_right]
      have : TLBLO_VALID &&& TLBLO_VALID = TLBLO_VALID := Nat.and_self _
      rw [this]
      intro h0
      have : TLBLO_VALID ≤ (KVADDR_TO_PADDR (alloc_kpages s.frames).1 &&& TLBLO_VALID |||
          TLBLO_VALID) := by
        apply Nat.le_of_testBit
        intro i hi
        simp [Nat.testBit_or, hi]
      rw [h0] at this
      revert this; decide
  have hm : ((vaddr &&& PAGE_FRAME) &&& TLBHI_VPAGE) = vaddr &&& PAGE_FRAME ∧ as = as ∧
      hpt_add_entrylo (alloc_kpages s.frames).1 permissions &&& TLBLO_VALID ≠ 0 :=
    ⟨and_page_frame_idem vaddr, rfl, hvalid⟩
  have hlen1 : hpt1.length = s.hpt.length := by
    unfold hpt_add_link at hlink
    split at hlink
    · simp at hlink
    · split at hlink
      · split at hlink
        · simp at hlink
        · simp at hlink; rw [← hlink, length_set_next]
      · simp at hlink; rw [hlink]
  have hs1hpt : s1.hpt = hpt1.set ei ⟨as, hpt_add_entrylo (alloc_kpages s.frames).1 permissions,
      vaddr &&& PAGE_FRAME, none⟩ := by rw [hs1]
  have hget : s1.hpt[ei]? = some ⟨as, hpt_add_entrylo (alloc_kpages s.frames).1 permissions,
      vaddr &&& PAGE_FRAME, none⟩ := by
    rw [hs1hpt]; simp [List.getElem?_set, hlen1, hei]
  have hlen : s1.hpt.length = s.hpt.length := by rw [hs1hpt, List.length_set, hlen1]
  have hwalk : ∃ q, hpt_get_walk s1.hpt as (vaddr &&& PAGE_FRAME) (s.hpt.length + 1)
      (some index) none = some (some ei, q) := by
    unfold hpt_add_link at hlink
    split at hlink
    · simp at hlink
    · rename_i home hhome
      split at hlink
      · rename_i hval
        split at hlink
        · simp at hlink
        · rename_i t ht
          simp at hlink
          have hnf : ∀ i q, hpt_get_walk s.hpt as (vaddr &&& PAGE_FRAME) (s.hpt.length + 1)
              (some index) none ≠ some (some i, q) := by
            intro i q hw
            apply hnone i q
            unfold hpt_get
            rw [hhash]
            exact hw
          obtain ⟨q, hq⟩ := hpt_get_walk_after_link s.hpt as (vaddr &&& PAGE_FRAME) ei t
            ⟨as, hpt_add_entrylo (alloc_kpages s.frames).1 permissions, vaddr &&& PAGE_FRAME, none⟩
            hei hm s.hpt.length index none ht hnf
          refine ⟨q, ?_⟩
          rw [hs1hpt, ← hlink]
          exact hq
      · rename_i hinv
        simp at hlink
        have hinv1 : home.entrylo &&& TLBLO_VALID = 0 := by simpa using hinv
        have hpr := hpt_add_probe_home s.hpt index (s.hpt.length - 1) home hhome hinv1
        rw [show s.hpt.length - 1 + 1 = s.hpt.length by omega, hprobe] at hpr
        simp at hpr
        subst hpr
        refine ⟨none, ?_⟩
        unfold hpt_get_walk
        simp [hget, hm.1, hvalid]
  obtain ⟨q, hq⟩ := hwalk
  refine ⟨ei, q, ?_, hget, by rw [hs1], by rw [hs1], hp, hal⟩
  unfold hpt_get
  rw [hlen, hhash]
  exact hq

/-! ### A new entry is found and zero filled (C3) -/

/-- C3: for every state whose free frames are 32-bit addresses, every non-null address
space `as`, every non-zero address `vaddr` for whose page the lookup finds no entry and
every permission set: if `hpt_add` returns success, then `hpt_get` for `as` and the page of
`vaddr` returns a slot whose entry is owned by `as`, is for that page, has the valid bit
set, has the dirty bit set exactly when the permissions contain `WRITE`, and whose frame
holds `PAGE_SIZE` zero bytes. -/
theorem hpt_add_then_get (s s1 : Kernel) (as vaddr permissions : Nat) (w : Bool)
    (has : as ≠ 0) (hv : vaddr ≠ 0) (h32 : ∀ f ∈ s.frames, f < 2 ^ 32)
    (hnone : ∀ i q, hpt_get s.hpt as (vaddr &&& PAGE_FRAME) ≠ some (some i, q))
    (hadd : hpt_add s as vaddr permissions w = some (0, s1)) :
    ∃ i q e, hpt_get s1.hpt as (vaddr &&& PAGE_FRAME) = some (some i, q) ∧
      s1.hpt[i]? = some e ∧ e.pid = as ∧
      e.entryhi &&& TLBHI_VPAGE = vaddr &&& PAGE_FRAME ∧
      e.entrylo &&& TLBLO_VALID ≠ 0 ∧
      (e.entrylo &&& TLBLO_DIRTY ≠ 0 ↔ permissions &&& WRITE ≠ 0) ∧
      ∀ off, off < PAGE_SIZE → s1.mem (PADDR_TO_KVADDR (e.entrylo &&& TLBLO_PPAGE) + off) = 0 := by
  obtain ⟨ei, q, hget, hentry, _, hmem, hp, hal⟩ :=
    hpt_get_after_add s s1 as vaddr permissions w hnone hadd
  have hin : (alloc_kpages s.frames).1 ∈ s.frames := by
    rcases alloc_kpages_cases s.frames with ⟨h0, _⟩ | ⟨_, h1⟩
    · exact absurd h0 hp
    · have hm : (alloc_kpages s.frames).1 ∈
          (alloc_kpages s.frames).1 :: (alloc_kpages s.frames).2 := List.mem_cons_self _ _
      rw [← h1] at hm
      exact hm
  have hf := entrylo_fields (alloc_kpages s.frames).1 (decide (permissions &&& WRITE ≠ 0))
    (h32 _ hin) hal
  simp only at hf
  have hlo : hpt_add_entrylo (alloc_kpages s.frames).1 permissions =
      if decide (permissions &&& WRITE ≠ 0) = true then
        (KVADDR_TO_PADDR (alloc_kpages s.frames).1 ||| TLBLO_VALID) ||| TLBLO_DIRTY
      else KVADDR_TO_PADDR (alloc_kpages s.frames).1 ||| TLBLO_VALID := by
    unfold hpt_add_entrylo
    by_cases hw : permissions &&& WRITE ≠ 0 <;> simp [hw]
  rw [← hlo] at hf
  refine ⟨ei, q, _, hget, hentry, rfl, and_page_frame_idem vaddr, hf.2.1, ?_, ?_⟩
  · rw [hf.2.2]; simp
  · intro off hoff
    show s1.mem (PADDR_TO_KVADDR (hpt_add_entrylo (alloc_kpages s.frames).1 permissions &&&
      TLBLO_PPAGE) + off) = 0
    rw [hf.1, hmem]
    unfold bzero
    have : (alloc_kpages s.frames).1 ≤ (alloc_kpages s.frames).1 + off ∧
        (alloc_kpages s.frames).1 + off < (alloc_kpages s.frames).1 + 1 * PAGE_SIZE := by
      constructor <;> omega
    rw [if_pos this]

/-- Witness of C3: the first `hpt_add` on `boot8`, for address `0x3004` with read and
write permission. -/
theorem hpt_add_then_get_witness :
    ∃ s1, hpt_add boot8 0x80040000 0x3004 6 true = some (0, s1) ∧
      ∃ i q e, hpt_get s1.hpt 0x80040000 (0x3004 &&& PAGE_FRAME) = some (some i, q) ∧
        s1.hpt[i]? = some e ∧ e.pid = 0x80040000 ∧
        e.entryhi &&& TLBHI_VPAGE = 0x3004 &&& PAGE_FRAME ∧
        e.entrylo &&& TLBLO_VALID ≠ 0 ∧
        (e.entrylo &&& TLBLO_DIRTY ≠ 0 ↔ 6 &&& WRITE ≠ 0) ∧
        ∀ off, off < PAGE_SIZE →
          s1.mem (PADDR_TO_KVADDR (e.entrylo &&& TLBLO_PPAGE) + off) = 0 :=
  ⟨_, rfl, hpt_add_then_get boot8 _ 0x80040000 0x3004 6 true (by decide) (by decide)
    (by decide)
    (fun i q h => by
      have h0 : hpt_get boot8.hpt 0x80040000 (0x3004 &&& PAGE_FRAME) = some (none, some 3) := by
        decide
      rw [h0] at h
      simp at h)
    rfl⟩

/-! ### Failure of `hpt_add` (C4) -/

/-- C4: `hpt_add`, called with a non-null address space and a non-zero address on a table
of positive size and with page-aligned free frames, returns a failure code exactly when
the frame allocator returns no frame or every slot of the table is valid; the code is then
`ENOMEM` and the state afterwards is the state before: every slot is unchanged and the
free frames are the same (a frame taken before a full-table probe has been given back). -/
theorem hpt_add_fails_iff (s : Kernel) (as vaddr permissions : Nat) (w : Bool)
    (has : as ≠ 0) (hv : vaddr ≠ 0) (hn : 0 < s.hpt.length)
    (hal : ∀ f ∈ s.frames, f % PAGE_SIZE = 0) :
    ((∃ ret s1, hpt_add s as vaddr permissions w = some (ret, s1) ∧ ret ≠ 0) ↔
      ((alloc_kpages s.frames).1 = 0 ∨ ∀ e ∈ s.hpt, e.entrylo &&& TLBLO_VALID ≠ 0)) ∧
    (∀ ret s1, hpt_add s as vaddr permissions w = some (ret, s1) → ret ≠ 0 →
      ret = ENOMEM ∧ s1 = s ∧ s1.hpt = s.hpt ∧ s1.frames = s.frames) := by
  constructor
  · constructor
    · rintro ⟨ret, s1, h, hret⟩
      obtain ⟨_, _, h3⟩ := hpt_add_failure s s1 as vaddr permissions ret w h hret
      rcases h3 with h3 | ⟨index, hhash, hprobe⟩
      · exact Or.inl h3
      · right
        exact (hpt_add_probe_full_iff s.hpt index (hpt_hash_lt _ _ _ _ hhash).1).mp hprobe
    · intro hc
      have hz : ¬ (as = 0 ∨ vaddr = 0) := by
        rintro (h | h)
        · exact has h
        · exact hv h
      rcases alloc_kpages_cases s.frames with ⟨ha1, ha2⟩ | ⟨ha1, ha2⟩
      · refine ⟨ENOMEM, s, ?_, by decide⟩
        unfold hpt_add
        simp only [hz, if_false, ha1, if_true, ha2]
      · have hall : ∀ e ∈ s.hpt, e.entrylo &&& TLBLO_VALID ≠ 0 := by
          rcases hc with h | h
          · exact absurd h ha1
          · exact h
        have halp : (alloc_kpages s.frames).1 % PAGE_SIZE = 0 := by
          apply hal
          have hm : (alloc_kpages s.frames).1 ∈
              (alloc_kpages s.frames).1 :: (alloc_kpages s.frames).2 := List.mem_cons_self _ _
          rw [← ha2] at hm
          exact hm
        have hhash := hpt_hash_some s.hpt.length as (vaddr &&& PAGE_FRAME) hn
          (and_page_frame_idem vaddr)
        have hidx : (as ^^^ ((vaddr &&& PAGE_FRAME) >>> 12)) % s.hpt.length < s.hpt.length :=
          Nat.mod_lt _ hn
        have hprobe := (hpt_add_probe_full_iff s.hpt _ hidx).mpr hall
        refine ⟨ENOMEM, s, ?_, by decide⟩
        unfold hpt_add
        simp only [hz, if_false, ha1, halp, ne_eq, not_true_eq_false, hhash, hprobe,
          free_kpages]
        rw [← ha2]
  · intro ret s1 h hret
    obtain ⟨h1, h2, _⟩ := hpt_add_failure s s1 as vaddr permissions ret w h hret
    exact ⟨h1, h2, by rw [h2], by rw [h2]⟩

/-- Witness of C4: `hpt_add` on the full table `full2`, which has a frame to hand out. -/
theorem hpt_add_fails_iff_witness :
    (0x80040000 : Nat) ≠ 0 ∧ (alloc_kpages full2.frames).1 = 0x80010000 ∧
    (∀ e ∈ full2.hpt, e.entrylo &&& TLBLO_VALID ≠ 0) ∧
    hpt_add full2 0x80040000 0x5000 6 true = some (ENOMEM, full2) := by
  have h := hpt_add_fails_iff full2 0x80040000 0x5000 6 true (by decide) (by decide)
    (by decide) (by decide)
  obtain ⟨ret, s1, h1, hret⟩ := h.1.mpr (Or.inr (by decide))
  obtain ⟨h2, h3, _⟩ := h.2 ret s1 h1 hret
  subst h2 h3
  exact ⟨by decide, by decide, by decide, h1⟩

/-! ### Idempotent refresh (C9) -/

/-- In a table whose links are in range and acyclic the tail walk from a slot ends within
as many steps as the table has slots not yet visited. -/
theorem hpt_add_tail_terminates (hpt : List hpt_entry) (rank : Nat → Nat)
    (hr : links_in_range hpt)
    (hrank : ∀ i e j, hpt[i]? = some e → e.next = some j → rank j < rank i) :
    ∀ fuel c (V : Finset Nat), c < hpt.length →
      (∀ v ∈ V, v < hpt.length ∧ rank c < rank v) → hpt.length ≤ fuel + V.card →
      ∃ t, hpt_add_tail hpt fuel c = some t := by
  intro fuel
  induction fuel with
  | zero =>
    intro c V hc hV hcard
    exfalso
    have hsub : V ⊆ (Finset.range hpt.length).erase c := by
      intro v hv
      rw [Finset.mem_erase, Finset.mem_range]
      refine ⟨?_, (hV v hv).1⟩
      intro h; subst h
      exact Nat.lt_irrefl _ (hV v hv).2
    have h1 := Finset.card_le_card hsub
    rw [Finset.card_erase_of_mem (Finset.mem_range.mpr hc), Finset.card_range] at h1
    omega
  | succ f ih =>
    intro c V hc hV hcard
    unfold hpt_add_tail
    rw [List.getElem?_eq_getElem hc]
    simp only
    cases hnx : hpt[c].next with
    | none => exact ⟨c, rfl⟩
    | some j =>
      simp only
      have hget : hpt[c]? = some hpt[c] := List.getElem?_eq_getElem hc
      have hj : j < hpt.length := hr c _ j hget hnx
      have hrj : rank j < rank c := hrank c _ j hget hnx
      have hcV : c ∉ V := fun h => Nat.lt_irrefl _ (hV c h).2
      apply ih j (insert c V) hj
      · intro v hv
        rw [Finset.mem_insert] at hv
        rcases hv with h | h
        · subst h; exact ⟨hc, hrj⟩
        · exact ⟨(hV v h).1, Nat.lt_trans hrj (hV v h).2⟩
      · rw [Finset.card_insert_of_not_mem hcV]; omega

/-- When the tail walk from a slot ends, the walk of `hpt_get` from that slot returns, and
a slot it returns holds a matching entry. -/
theorem hpt_get_walk_returns (hpt : List hpt_entry) (pid vaddr : Nat) :
    ∀ fuel c prev t, hpt_add_tail hpt fuel c = some t →
      ∃ res, hpt_get_walk hpt pid vaddr (fuel + 1) (some c) prev = some res ∧
        ∀ i, res.1 = some i → ∃ e, hpt[i]? = some e ∧
          ((e.entryhi &&& TLBHI_VPAGE) = vaddr ∧ pid = e.pid ∧ e.entrylo &&& TLBLO_VALID ≠ 0) := by
  intro fuel
  induction fuel with
  | zero => intro c prev t h; simp [hpt_add_tail] at h
  | succ f ih =>
    intro c prev t h
    unfold hpt_add_tail at h
    split at h
    · simp at h
    · rename_i e he
      rw [hpt_get_walk]
      simp only [he]
      by_cases hm : (e.entryhi &&& TLBHI_VPAGE) = vaddr ∧ pid = e.pid ∧
          e.entrylo &&& TLBLO_VALID ≠ 0
      · rw [if_pos hm]
        refine ⟨_, rfl, ?_⟩
        intro i hi
        simp at hi; subst hi
        exact ⟨e, he, hm⟩
      · rw [if_neg hm]
        split at h
        · rename_i hnx
          rw [hnx]
          refine ⟨(none, some c), by unfold hpt_get_walk; rfl, ?_⟩
          intro i hi; simp at hi
        · rename_i nx hnx
          rw [hnx]
          cases f with
          | zero => simp [hpt_add_tail] at h
          | succ f1 => exact ih nx (some c) t h

/-- In a table whose links are in range and acyclic `hpt_get` returns for every aligned
address, and a slot it returns holds a matching entry. -/
theorem hpt_get_returns (hpt : List hpt_entry) (as vaddr : Nat) (hn : 0 < hpt.length)
    (hal : (vaddr &&& PAGE_FRAME) = vaddr) (hr : links_in_range hpt) (hac : links_acyclic hpt) :
    ∃ res, hpt_get hpt as vaddr = some res ∧
      ∀ i, res.1 = some i → ∃ e, hpt[i]? = some e ∧
        ((e.entryhi &&& TLBHI_VPAGE) = vaddr ∧ as = e.pid ∧ e.entrylo &&& TLBLO_VALID ≠ 0) := by
  obtain ⟨rank, hrank⟩ := hac
  unfold hpt_get
  rw [hpt_hash_some hpt.length as vaddr hn hal]
  simp only
  have hidx : (as ^^^ (vaddr >>> 12)) % hpt.length < hpt.length := Nat.mod_lt _ hn
  obtain ⟨t, ht⟩ := hpt_add_tail_terminates hpt rank hr hrank hpt.length _ ∅ hidx
    (by simp) (by simp)
  exact hpt_get_walk_returns hpt as vaddr hpt.length _ none t ht

/-! ### The table after a successful `hpt_add` -/

/-- Valid and dirty bit of the word `hpt_add` stores, for a page-aligned frame. -/
theorem hpt_add_entrylo_flags (paddr permissions : Nat) (hal : paddr % PAGE_SIZE = 0) :
    hpt_add_entrylo paddr permissions &&& TLBLO_VALID ≠ 0 ∧
    (hpt_add_entrylo paddr permissions &&& TLBLO_DIRTY ≠ 0 ↔ permissions &&& WRITE ≠ 0) := by
  have hk : KVADDR_TO_PADDR paddr % 4096 = 0 := by
    unfold KVADDR_TO_PADDR u32 MIPS_KSEG0
    unfold PAGE_SIZE at hal
    norm_num
    omega
  unfold hpt_add_entrylo
  by_cases hw : permissions &&& WRITE ≠ 0
  · rw [if_pos hw, Nat.or_assoc, or_of_aligned _ _ hk (by decide), and_valid, and_dirty]
    have : TLBLO_VALID ||| TLBLO_DIRTY = 1536 := by decide
    rw [this]
    simp only [hw, ne_eq, not_false_eq_true, iff_true]
    omega
  · rw [if_neg hw, or_of_aligned _ _ hk (by decide), and_valid, and_dirty]
    have : TLBLO_VALID = 512 := by decide
    rw [this]
    simp only [hw, ne_eq, iff_false, not_not]
    omega

/-- The slots after a successful `hpt_add`: the new entry is in a slot `ei` that was not
valid; every other slot keeps its owner, page and frame word, and its link is the old one
or points to `ei`. -/
theorem hpt_add_slots (s s1 : Kernel) (as vaddr permissions : Nat) (w : Bool)
    (h : hpt_add s as vaddr permissions w = some (0, s1)) :
    ∃ ei, slot_free s.hpt ei ∧ s1.hpt.length = s.hpt.length ∧
      s1.hpt[ei]? = some ⟨as, hpt_add_entrylo (alloc_kpages s.frames).1 permissions,
        vaddr &&& PAGE_FRAME, none⟩ ∧
      (∀ (i : Nat) (e : hpt_entry), i ≠ ei → s.hpt[i]? = some e →
        ∃ e1 : hpt_entry, s1.hpt[i]? = some e1 ∧ e1.pid = e.pid ∧
        e1.entrylo = e.entrylo ∧ e1.entryhi = e.entryhi ∧
        (e1.next = e.next ∨ e1.next = some ei)) ∧
      s1.frames = (alloc_kpages s.frames).2 ∧
      (alloc_kpages s.frames).1 % PAGE_SIZE = 0 := by
  obtain ⟨_, _, _, hal, index, ei, hpt1, _, hprobe, hlink, hs1⟩ :=
    hpt_add_success s s1 as vaddr permissions w h
  obtain ⟨e0, he0, hinv0⟩ := hpt_add_probe_some _ _ _ _ _ hprobe
  have hei : ei < s.hpt.length := (List.getElem?_eq_some.mp he0).1
  have hs1hpt : s1.hpt = hpt1.set ei ⟨as, hpt_add_entrylo (alloc_kpages s.frames).1 permissions,
      vaddr &&& PAGE_FRAME, none⟩ := by rw [hs1]
  have hold : hpt1.length = s.hpt.length ∧ ∀ (i : Nat) (e : hpt_entry), s.hpt[i]? = some e →
      ∃ e1 : hpt_entry, hpt1[i]? = some e1 ∧ e1.pid = e.pid ∧ e1.entrylo = e.entrylo ∧
        e1.entryhi = e.entryhi ∧ (e1.next = e.next ∨ e1.next = some ei) := by
    unfold hpt_add_link at hlink
    split at hlink
    · simp at hlink
    · split at hlink
      · split at hlink
        · simp at hlink
        · rename_i t _
          simp at hlink
          rw [← hlink]
          refine ⟨length_set_next _ _ _, ?_⟩
          intro i e he
          rw [getElem?_set_next]
          by_cases hit : i = t
          · subst hit
            simp only [if_true, he, Option.map_some']
            exact ⟨_, rfl, rfl, rfl, rfl, Or.inr rfl⟩
          · simp only [hit, if_false]
            exact ⟨e, he, rfl, rfl, rfl, Or.inl rfl⟩
      · simp at hlink
        rw [← hlink]
        exact ⟨rfl, fun i e he => ⟨e, he, rfl, rfl, rfl, Or.inl rfl⟩⟩
  refine ⟨ei, ⟨e0, he0, hinv0⟩, ?_, ?_, ?_, by rw [hs1], hal⟩
  · rw [hs1hpt, List.length_set, hold.1]
  · rw [hs1hpt]; simp [List.getElem?_set, hold.1, hei]
  · intro i e hne he
    obtain ⟨e1, h1, h2⟩ := hold.2 i e he
    refine ⟨e1, ?_, h2⟩
    rw [hs1hpt, List.getElem?_set_ne (fun hc => hne hc.symm)]
    exact h1

/-- Links stay in range and acyclic when one slot `ei` gets an entry without a link and
the other slots keep their link or are linked to `ei`. -/
theorem links_after_add (hpt hpt1 : List hpt_entry) (ei : Nat) (entry : hpt_entry)
    (hnext : entry.next = none) (hei : ei < hpt.length) (hlen : hpt1.length = hpt.length)
    (hnew : hpt1[ei]? = some entry)
    (hold : ∀ (i : Nat) (e : hpt_entry), i ≠ ei → hpt[i]? = some e →
      ∃ e1 : hpt_entry, hpt1[i]? = some e1 ∧ e1.pid = e.pid ∧
      e1.entrylo = e.entrylo ∧ e1.entryhi = e.entryhi ∧
      (e1.next = e.next ∨ e1.next = some ei))
    (hr : links_in_range hpt) (hac : links_acyclic hpt) :
    links_in_range hpt1 ∧ links_acyclic hpt1 := by
  have hback : ∀ (i : Nat) (e1 : hpt_entry) (j : Nat), hpt1[i]? = some e1 →
      e1.next = some j →
      i ≠ ei ∧ (j = ei ∨ ∃ e : hpt_entry, hpt[i]? = some e ∧ e.next = some j) := by
    intro i e1 j h1 h2
    have hi : i ≠ ei := by
      intro hc; subst hc
      rw [hnew] at h1; simp at h1
      rw [← h1, hnext] at h2; simp at h2
    refine ⟨hi, ?_⟩
    have hil : i < hpt.length := by
      rw [← hlen]; exact (List.getElem?_eq_some.mp h1).1
    obtain ⟨e1', h3, _, _, _, h4⟩ := hold i hpt[i] hi (List.getElem?_eq_getElem hil)
    rw [h1] at h3
    simp at h3
    subst h3
    rcases h4 with h4 | h4
    · right
      exact ⟨hpt[i], List.getElem?_eq_getElem hil, by rw [← h4]; exact h2⟩
    · left
      rw [h2] at h4; simpa using h4
  constructor
  · intro i e1 j h1 h2
    rw [hlen]
    rcases (hback i e1 j h1 h2).2 with h | ⟨e, h3, h4⟩
    · rw [h]; exact hei
    · exact hr i e j h3 h4
  · obtain ⟨rank, hrank⟩ := hac
    refine ⟨fun i => if i = ei then 0 else rank i + 1, ?_⟩
    intro i e1 j h1 h2
    obtain ⟨hi, h3⟩ := hback i e1 j h1 h2
    simp only [hi, if_false]
    rcases h3 with h | ⟨e, h3, h4⟩
    · simp [h]
    · have := hrank i e j h3 h4
      by_cases hj : j = ei
      · simp [hj]
      · simp only [hj, if_false]; omega

/-- When `hpt_add` has what it needs it returns success: a non-null address space, a
non-zero aligned address, a free frame that is non-zero and page aligned, a free slot,
and links that are in range and acyclic. -/
theorem hpt_add_succeeds (s : Kernel) (as page permissions : Nat) (w : Bool)
    (has : as ≠ 0) (hpage : page ≠ 0) (hal : (page &&& PAGE_FRAME) = page)
    (f : Nat) (fs : List Nat) (hfr : s.frames = f :: fs) (hf0 : f ≠ 0)
    (hfal : f % PAGE_SIZE = 0) (i0 : Nat) (hfree : slot_free s.hpt i0)
    (hr : links_in_range s.hpt) (hac : links_acyclic s.hpt) :
    ∃ s1, hpt_add s as page permissions w = some (0, s1) := by
  obtain ⟨e0, he0, hinv0⟩ := hfree
  have hn : 0 < s.hpt.length := by
    have := (List.getElem?_eq_some.mp he0).1
    omega
  have hz : ¬ (as = 0 ∨ page = 0) := by
    rintro (h | h)
    · exact has h
    · exact hpage h
  have halloc : alloc_kpages s.frames = (f, fs) := by
    rw [hfr]; simp [alloc_kpages, hf0]
  have hhash := hpt_hash_some s.hpt.length as page hn hal
  have hidx : (as ^^^ (page >>> 12)) % s.hpt.length < s.hpt.length := Nat.mod_lt _ hn
  have hprobe : ∃ ei, hpt_add_probe s.hpt ((as ^^^ (page >>> 12)) % s.hpt.length)
      s.hpt.length ((as ^^^ (page >>> 12)) % s.hpt.length) = some (some ei) := by
    have h0 : ((as ^^^ (page >>> 12)) % s.hpt.length + 0) % s.hpt.length =
        (as ^^^ (page >>> 12)) % s.hpt.length := by simp [Nat.mod_eq_of_lt hidx]
    have hnn := hpt_add_probe_total s.hpt _ hidx s.hpt.length 0 (by omega) hn
    rw [h0] at hnn
    cases hp : hpt_add_probe s.hpt ((as ^^^ (page >>> 12)) % s.hpt.length)
        s.hpt.length ((as ^^^ (page >>> 12)) % s.hpt.length) with
    | none => exact absurd hp hnn
    | some r =>
      cases r with
      | none =>
        exfalso
        have hall := (hpt_add_probe_full_iff s.hpt _ hidx).mp hp
        exact hall e0 (List.mem_iff_getElem?.mpr ⟨i0, he0⟩) hinv0
      | some ei => exact ⟨ei, rfl⟩
  obtain ⟨ei, hprobe⟩ := hprobe
  have hlink : ∃ hpt1, hpt_add_link s.hpt ((as ^^^ (page >>> 12)) % s.hpt.length) ei =
      some hpt1 := by
    unfold hpt_add_link
    rw [List.getElem?_eq_getElem hidx]
    simp only
    split
    · obtain ⟨rank, hrank⟩ := hac
      obtain ⟨t, ht⟩ := hpt_add_tail_terminates s.hpt rank hr hrank s.hpt.length _ ∅ hidx
        (by simp) (by simp)
      rw [ht]
      exact ⟨_, rfl⟩
    · exact ⟨_, rfl⟩
  obtain ⟨hpt1, hlink⟩ := hlink
  have hzero : zero_pad s.mem f 1 = some (bzero s.mem f (1 * PAGE_SIZE)) := by
    unfold zero_pad; simp [hf0]
  have hres : hpt_add s as page permissions w = some (0, { s with
      hpt := hpt1.set ei ⟨as, hpt_add_entrylo f permissions, page, none⟩
      frames := fs
      mem := bzero s.mem f (1 * PAGE_SIZE)
      tlb := if w then tlb_op.random page (hpt_add_entrylo f permissions) :: s.tlb
        else s.tlb }) := by
    unfold hpt_add
    simp only [hz, if_false, halloc, hf0, hfal, ne_eq, not_true_eq_false, hal, hhash, hprobe,
      hlink, hzero]
  exact ⟨_, hres⟩

/-! ### Faults on the pages of a region (C6) -/

/-- Once a region is found the scan of `vm_fault` keeps it, provided the other regions
pass the alignment assertion. -/
theorem vm_fault_scan_found (page : Nat) (regions : List as_regions)
    (hal : ∀ r ∈ regions, r.base &&& PAGE_FRAME = r.base) (r0 : as_regions) :
    vm_fault_scan page regions (some r0) = some (some r0) := by
  induction regions with
  | nil => simp [vm_fault_scan]
  | cons r rest ih =>
    unfold vm_fault_scan
    simp only [hal r (List.mem_cons_self _ _), ne_eq, not_true_eq_false, if_false]
    have : ¬ ((some r0 = none) ∧ page ≥ r.base ∧ page < region_end r) := by simp
    rw [if_neg this]
    exact ih (fun x hx => hal x (List.mem_cons_of_mem _ hx))

/-- The scan of `vm_fault` finds the head region when it contains the page. -/
theorem vm_fault_scan_head (page : Nat) (r : as_regions) (rest : List as_regions)
    (hr : r.base &&& PAGE_FRAME = r.base) (hlo : r.base ≤ page)
    (hhi : page < region_end r)
    (hal : ∀ x ∈ rest, x.base &&& PAGE_FRAME = x.base) :
    vm_fault_scan page (r :: rest) none = some (some r) := by
  unfold vm_fault_scan
  simp only [hr, ne_eq, not_true_eq_false, if_false]
  have : True ∧ page ≥ r.base ∧ page < region_end r := ⟨trivial, hlo, hhi⟩
  rw [if_pos this]
  exact vm_fault_scan_found page rest hal r

/-- One permitted fault on a page of the region, in a state that has a frame and a slot for
it: it returns success, it keeps what the next fault needs, it keeps the entries there
are, and it leaves an entry for the page. -/
theorem vm_fault_step (s : Kernel) (as : addrspace) (r : as_regions) (writeable : Int)
    (base size : Nat) (faulttype : Int) (a : Nat) (has : as.ptr ≠ 0)
    (hscan : vm_fault_scan (a &&& PAGE_FRAME) as.regions none = some (some r))
    (hperm : (faulttype = VM_FAULT_READ ∧ r.permissions &&& READ ≠ 0) ∨
      (faulttype = VM_FAULT_WRITE ∧ r.permissions &&& WRITE ≠ 0))
    (hp0 : a &&& PAGE_FRAME ≠ 0) (hw : r.permissions &&& WRITE ≠ 0 ↔ writeable ≠ 0)
    (hlo : base ≤ a &&& PAGE_FRAME) (hhi : a &&& PAGE_FRAME < base + size)
    (hr : links_in_range s.hpt) (hac : links_acyclic s.hpt)
    (hagree : entries_agree s.hpt as.ptr base size writeable)
    (f : Nat) (fs : List Nat) (hfr : s.frames = f :: fs) (hf0 : f ≠ 0)
    (hfal : f % PAGE_SIZE = 0)
    (L : List Nat) (hL : L.Nodup) (hLne : L ≠ []) (hLfree : ∀ i ∈ L, slot_free s.hpt i) :
    ∃ s1, vm_fault s as faulttype a = some (0, s1) ∧
      links_in_range s1.hpt ∧ links_acyclic s1.hpt ∧
      entries_agree s1.hpt as.ptr base size writeable ∧
      (s1.frames = s.frames ∨ s1.frames = fs) ∧
      (∃ L1 : List Nat, L1.Nodup ∧ L.length ≤ L1.length + 1 ∧ ∀ i ∈ L1, slot_free s1.hpt i) ∧
      (∀ page, has_entry s.hpt as.ptr page writeable →
        has_entry s1.hpt as.ptr page writeable) ∧
      has_entry s1.hpt as.ptr (a &&& PAGE_FRAME) writeable := by
  obtain ⟨i0, hi0⟩ := List.exists_mem_of_ne_nil L hLne
  have hfree0 := hLfree i0 hi0
  have hn : 0 < s.hpt.length := by
    obtain ⟨e0, he0, _⟩ := hfree0
    have := (List.getElem?_eq_some.mp he0).1
    omega
  have hpal : ((a &&& PAGE_FRAME) &&& PAGE_FRAME) = a &&& PAGE_FRAME := and_page_frame_idem a
  obtain ⟨res, hget, hres⟩ := hpt_get_returns s.hpt as.ptr (a &&& PAGE_FRAME) hn hpal hr hac
  rw [vm_fault_permitted s as faulttype a r has hscan hperm, hget]
  rcases res with ⟨found, q⟩
  cases found with
  | none =>
    simp only
    obtain ⟨s1, hadd⟩ := hpt_add_succeeds s as.ptr (a &&& PAGE_FRAME) r.permissions true has hp0
      hpal f fs hfr hf0 hfal i0 hfree0 hr hac
    obtain ⟨ei, hfreei, hlen, hnew, hold, hframes, halp⟩ :=
      hpt_add_slots s s1 as.ptr (a &&& PAGE_FRAME) r.permissions true hadd
    have halloc : alloc_kpages s.frames = (f, fs) := by
      rw [hfr]; simp [alloc_kpages, hf0]
    rw [halloc] at hnew hframes
    rw [hpal] at hnew
    obtain ⟨e0, he0, hinv0⟩ := hfreei
    have hei : ei < s.hpt.length := (List.getElem?_eq_some.mp he0).1
    have hflags := hpt_add_entrylo_flags f r.permissions hfal
    have hwf := links_after_add s.hpt s1.hpt ei _ rfl hei hlen hnew hold hr hac
    have hback : ∀ (i : Nat) (e1 : hpt_entry), i ≠ ei → s1.hpt[i]? = some e1 →
        ∃ e : hpt_entry, s.hpt[i]? = some e ∧ e1.pid = e.pid ∧ e1.entrylo = e.entrylo ∧
          e1.entryhi = e.entryhi := by
      intro i e1 hi h1
      have hil : i < s.hpt.length := by
        rw [← hlen]; exact (List.getElem?_eq_some.mp h1).1
      obtain ⟨e1', h3, h4, h5, h6, _⟩ := hold i s.hpt[i] hi (List.getElem?_eq_getElem hil)
      rw [h1] at h3
      simp at h3
      subst h3
      exact ⟨s.hpt[i], List.getElem?_eq_getElem hil, h4, h5, h6⟩
    refine ⟨s1, hadd, hwf.1, hwf.2, ?_, Or.inr hframes, ?_, ?_, ?_⟩
    · intro i e1 h1 hv hpid hb1 hb2
      by_cases hi : i = ei
      · subst hi
        rw [hnew] at h1
        simp at h1
        subst h1
        exact hflags.2.trans hw
      · obtain ⟨e, h2, h3, h4, h5⟩ := hback i e1 hi h1
        rw [h4] at hv ⊢
        rw [h5] at hb1 hb2
        exact hagree i e h2 hv (by rw [← h3]; exact hpid) hb1 hb2
    · refine ⟨L.erase ei, hL.erase ei, ?_, ?_⟩
      · have := List.length_erase_add_one (a := ei) (l := L)
        by_cases hmem : ei ∈ L
        · rw [List.length_erase_of_mem hmem]; omega
        · rw [List.erase_of_not_mem hmem]; omega
      · intro i hi
        have hne : i ≠ ei := by
          intro hc; subst hc
          exact (List.Nodup.not_mem_erase hL) hi
        obtain ⟨e, he, hinv⟩ := hLfree i (List.mem_of_mem_erase hi)
        obtain ⟨e1, h1, _, h2, _⟩ := hold i e hne he
        exact ⟨e1, h1, by rw [h2]; exact hinv⟩
    · rintro page ⟨i, e, he, h1, h2, h3, h4⟩
      have hne : i ≠ ei := by
        intro hc; subst hc
        rw [he0] at he
        simp at he
        subst he
        exact h3 hinv0
      obtain ⟨e1, h5, h6, h7, h8, _⟩ := hold i e hne he
      exact ⟨i, e1, h5, by rw [h6]; exact h1, by rw [h8]; exact h2,
        by rw [h7]; exact h3, by rw [h7]; exact h4⟩
    · exact ⟨ei, _, hnew, rfl, hpal, hflags.1, hflags.2.trans hw⟩
  | some ei =>
    obtain ⟨e, he, hm1, hm2, hm3⟩ := hres ei rfl
    simp only [he]
    refine ⟨_, rfl, hr, hac, hagree, Or.inl rfl, ⟨L, hL, by omega, hLfree⟩, fun _ h => h, ?_⟩
    refine ⟨ei, e, he, hm2.symm, hm1, hm3, ?_⟩
    exact hagree ei e he hm3 hm2.symm (by rw [hm1]; exact hlo) (by rw [hm1]; exact hhi)

/-- A sequence of permitted faults on pages of the head region, in a state that has a
frame and a slot for each: every fault returns success and every faulted page has an
entry with the dirty bit of the region afterwards. -/
theorem vm_fault_all_resolves (as : addrspace) (r : as_regions) (rest : List as_regions)
    (writeable : Int) (has : as.ptr ≠ 0) (hregs : as.regions = r :: rest)
    (hral : r.base &&& PAGE_FRAME = r.base) (hrsz : r.base + r.size < 2 ^ 32)
    (hrest : ∀ x ∈ rest, x.base &&& PAGE_FRAME = x.base)
    (hw : r.permissions &&& WRITE ≠ 0 ↔ writeable ≠ 0) (hbase : r.base ≠ 0) :
    ∀ (faults : List (Int × Nat)) (s : Kernel),
      (∀ f ∈ faults, r.base ≤ f.2 &&& PAGE_FRAME ∧ f.2 &&& PAGE_FRAME < r.base + r.size ∧
        ((f.1 = VM_FAULT_READ ∧ r.permissions &&& READ ≠ 0) ∨
         (f.1 = VM_FAULT_WRITE ∧ r.permissions &&& WRITE ≠ 0))) →
      links_in_range s.hpt → links_acyclic s.hpt →
      entries_agree s.hpt as.ptr r.base r.size writeable →
      faults.length ≤ s.frames.length → (∀ f ∈ s.frames, f ≠ 0 ∧ f % PAGE_SIZE = 0) →
      (∃ L : List Nat, L.Nodup ∧ faults.length ≤ L.length ∧ ∀ i ∈ L, slot_free s.hpt i) →
      ∃ s1, vm_fault_all as faults s = some s1 ∧
        (∀ page, has_entry s.hpt as.ptr page writeable →
          has_entry s1.hpt as.ptr page writeable) ∧
        ∀ f ∈ faults, has_entry s1.hpt as.ptr (f.2 &&& PAGE_FRAME) writeable := by
  intro faults
  induction faults with
  | nil =>
    intro s _ _ _ _ _ _ _
    exact ⟨s, rfl, fun _ h => h, fun f hf => by simp at hf⟩
  | cons f0 tail ih =>
    intro s hfaults hr hac hagree hlen hfr hslots
    obtain ⟨hlo, hhi, hperm⟩ := hfaults f0 (List.mem_cons_self _ _)
    obtain ⟨L, hL, hLlen, hLfree⟩ := hslots
    have hLne : L ≠ [] := by
      intro hc; rw [hc] at hLlen; simp at hLlen
    have hu : region_end r = r.base + r.size := region_end_exact r hrsz
    have hscan : vm_fault_scan (f0.2 &&& PAGE_FRAME) as.regions none = some (some r) := by
      rw [hregs]
      exact vm_fault_scan_head _ r rest hral hlo (by rw [hu]; exact hhi) hrest
    have hp0 : f0.2 &&& PAGE_FRAME ≠ 0 := by
      intro hc; rw [hc] at hlo; omega
    cases hframes : s.frames with
    | nil => rw [hframes] at hlen; simp at hlen
    | cons f fs =>
      have hfok := hfr f (by rw [hframes]; exact List.mem_cons_self _ _)
      obtain ⟨s1, hv, hr1, hac1, hagree1, hfr1, ⟨L1, hL1, hL1len, hL1free⟩, hkeep, hnew⟩ :=
        vm_fault_step s as r writeable r.base r.size f0.1 f0.2 has hscan hperm hp0 hw hlo hhi
          hr hac hagree f fs hframes hfok.1 hfok.2 L hL hLne hLfree
      have hlen1 : tail.length ≤ s1.frames.length := by
        rw [hframes] at hlen
        simp at hlen
        rcases hfr1 with h | h
        · rw [h, hframes]; simp; omega
        · rw [h]; exact hlen
      have hfrok1 : ∀ x ∈ s1.frames, x ≠ 0 ∧ x % PAGE_SIZE = 0 := by
        intro x hx
        rcases hfr1 with h | h
        · rw [h] at hx; exact hfr x hx
        · rw [h] at hx
          exact hfr x (by rw [hframes]; exact List.mem_cons_of_mem _ hx)
      have hslots1 : ∃ L : List Nat, L.Nodup ∧ tail.length ≤ L.length ∧
          ∀ i ∈ L, slot_free s1.hpt i := by
        refine ⟨L1, hL1, ?_, hL1free⟩
        simp at hLlen
        omega
      obtain ⟨s2, hall, hkeep2, hnew2⟩ := ih s1
        (fun x hx => hfaults x (List.mem_cons_of_mem _ hx)) hr1 hac1 hagree1 hlen1 hfrok1 hslots1
      refine ⟨s2, ?_, fun page h => hkeep2 page (hkeep page h), ?_⟩
      · rw [vm_fault_all]
        simp only [hv, if_true]
        exact hall
      · intro x hx
        rw [List.mem_cons] at hx
        rcases hx with h | h
        · subst h; exact hkeep2 _ hnew
        · exact hnew2 x h

/-- The write bit of the permission set `as_define_region` stores is the `writeable`
flag, its read bit the `readable` flag. -/
theorem region_permissions_bits (readable writeable executable : Int) :
    (region_permissions readable writeable executable &&& WRITE ≠ 0 ↔ writeable ≠ 0) ∧
    (region_permissions readable writeable executable &&& READ ≠ 0 ↔ readable ≠ 0) := by
  unfold region_permissions
  by_cases h1 : readable = 0 <;> by_cases h2 : writeable = 0 <;>
    by_cases h3 : executable = 0 <;> simp [h1, h2, h3] <;> decide

/-- C6 (counterexample): on the empty address space of `boot8`, which has frames and slots:
a region defined at page 0 is accepted, and the fault on its page ends in the assertion
of `hpt_add` instead of success; a region defined with neither `READ` nor `WRITE` is
accepted, and both a Read and a Write fault on its page return `EFAULT`. -/
theorem define_region_then_fault_fails :
    (as_define_region (as_create boot8).2 (as_create boot8).1 0 0x1000 1 1 0).1 = 0 ∧
    (vm_fault (as_define_region (as_create boot8).2 (as_create boot8).1 0 0x1000 1 1 0).2.2
      (as_define_region (as_create boot8).2 (as_create boot8).1 0 0x1000 1 1 0).2.1
      VM_FAULT_READ 0x10).map (fun r => r.1) = none ∧
    (as_define_region (as_create boot8).2 (as_create boot8).1 0x3000 0x1000 0 0 1).1 = 0 ∧
    (vm_fault (as_define_region (as_create boot8).2 (as_create boot8).1 0x3000 0x1000 0 0 1).2.2
      (as_define_region (as_create boot8).2 (as_create boot8).1 0x3000 0x1000 0 0 1).2.1
      VM_FAULT_READ 0x3000).map (fun r => r.1) = some EFAULT ∧
    (vm_fault (as_define_region (as_create boot8).2 (as_create boot8).1 0x3000 0x1000 0 0 1).2.2
      (as_define_region (as_create boot8).2 (as_create boot8).1 0x3000 0x1000 0 0 1).2.1
      VM_FAULT_WRITE 0x3000).map (fun r => r.1) = some EFAULT := by
  decide

/-- C6 (amended): let `as_define_region` succeed for a request whose page-aligned range
lies in user space and does not start at page 0, on an address space whose regions are
page aligned, in a state whose table links are in range and acyclic and in which every
valid entry of the address space for a page of the range already has its dirty bit equal
to the `writeable` flag (as when there is none). Then every sequence of faults on
addresses of the range, each of a type (Read or Write) the region grants, with a non-zero
page-aligned free frame and a free slot available for each, returns success fault by
fault and leaves, for every faulted page, a valid entry for the address space and the
page whose dirty bit is set exactly when the region has `WRITE`. -/
theorem define_region_then_fault (s s0 : Kernel) (as as1 : addrspace) (vaddr memsize : Nat)
    (readable writeable executable : Int) (faults : List (Int × Nat))
    (hdef : as_define_region s as vaddr memsize readable writeable executable = (0, as1, s0))
    (huser : region_base vaddr + region_size vaddr memsize ≤ MIPS_KSEG0)
    (hbase : region_base vaddr ≠ 0)
    (hal : ∀ r ∈ as.regions, r.base &&& PAGE_FRAME = r.base)
    (hfaults : ∀ f ∈ faults, region_base vaddr ≤ f.2 &&& PAGE_FRAME ∧
      f.2 &&& PAGE_FRAME < region_base vaddr + region_size vaddr memsize ∧
      ((f.1 = VM_FAULT_READ ∧ readable ≠ 0) ∨ (f.1 = VM_FAULT_WRITE ∧ writeable ≠ 0)))
    (hr : links_in_range s.hpt) (hac : links_acyclic s.hpt)
    (hagree : entries_agree s.hpt as.ptr (region_base vaddr) (region_size vaddr memsize)
      writeable)
    (hframes : faults.length ≤ s.frames.length)
    (hfrok : ∀ f ∈ s.frames, f ≠ 0 ∧ f % PAGE_SIZE = 0)
    (hslots : ∃ L : List Nat, L.Nodup ∧ faults.length ≤ L.length ∧
      ∀ i ∈ L, slot_free s.hpt i) :
    ∃ s1, vm_fault_all as1 faults s0 = some s1 ∧
      ∀ f ∈ faults, has_entry s1.hpt as.ptr (f.2 &&& PAGE_FRAME) writeable := by
  have has : as.ptr ≠ 0 := by
    intro h0
    unfold as_define_region at hdef
    simp only [h0, if_true, Prod.mk.injEq] at hdef
    exact absurd hdef.1 (by decide)
  have hlt : MIPS_KSEG0 < 2 ^ 32 := by decide
  have hsum : u32 (region_base vaddr + region_size vaddr memsize) =
      region_base vaddr + region_size vaddr memsize := Nat.mod_eq_of_lt (by omega)
  have huser1 : ¬ u32 (region_base vaddr + region_size vaddr memsize) > MIPS_KSEG0 := by
    rw [hsum]; omega
  rw [as_define_region_in_user s as vaddr memsize readable writeable executable has huser1]
    at hdef
  split at hdef
  · simp only [Prod.mk.injEq] at hdef
    exact absurd hdef.1 (by decide)
  · split at hdef
    · simp only [Prod.mk.injEq] at hdef
      exact absurd hdef.1 (by decide)
    · simp only [Prod.mk.injEq, true_and] at hdef
      obtain ⟨has1, hs0⟩ := hdef
      have hbits := region_permissions_bits readable writeable executable
      have hptr : as1.ptr = as.ptr := by rw [← has1]
      have hhpt : s0.hpt = s.hpt := by rw [← hs0]
      have hfr0 : s0.frames = s.frames := by rw [← hs0]
      have hres := vm_fault_all_resolves as1
        ⟨region_base vaddr, region_size vaddr memsize,
          region_permissions readable writeable executable, false⟩ as.regions writeable
        (by rw [hptr]; exact has) (by rw [← has1])
        (and_page_frame_idem vaddr)
        (by show region_base vaddr + region_size vaddr memsize < 2 ^ 32; omega) hal hbits.1 hbase faults s0
        (by
          intro f hf
          obtain ⟨h1, h2, h3⟩ := hfaults f hf
          refine ⟨h1, h2, ?_⟩
          rcases h3 with ⟨h4, h5⟩ | ⟨h4, h5⟩
          · exact Or.inl ⟨h4, hbits.2.mpr h5⟩
          · exact Or.inr ⟨h4, hbits.1.mpr h5⟩)
        (by rw [hhpt]; exact hr) (by rw [hhpt]; exact hac)
        (by rw [hhpt, hptr]; exact hagree)
        (by rw [hfr0]; exact hframes) (by rw [hfr0]; exact hfrok)
        (by rw [hhpt]; exact hslots)
      obtain ⟨s1, h1, _, h3⟩ := hres
      refine ⟨s1, h1, ?_⟩
      intro f hf
      rw [← hptr]
      exact h3 f hf

/-- Witness of C6 (amended): on the empty address space of `boot8` the region
`[0x3000, 0x5000)` is defined readable and writable, then its two pages are faulted, the
first by a read at `0x3000`, the second by a write at `0x4008`. -/
theorem define_region_then_fault_witness :
    ∃ as1 s0, as_define_region (as_create boot8).2 (as_create boot8).1 0x3000 0x2000 1 1 0 =
        (0, as1, s0) ∧
      ∃ s1, vm_fault_all as1 [(VM_FAULT_READ, 0x3000), (VM_FAULT_WRITE, 0x4008)] s0 = some s1 ∧
        ∀ f ∈ [(VM_FAULT_READ, 0x3000), (VM_FAULT_WRITE, 0x4008)],
          has_entry s1.hpt (as_create boot8).1.ptr (f.2 &&& PAGE_FRAME) 1 := by
  have hnext : ∀ e ∈ (as_create boot8).2.hpt, e.next = none := by decide
  have hinv : ∀ e ∈ (as_create boot8).2.hpt, e.entrylo &&& TLBLO_VALID = 0 := by decide
  exact ⟨_, _, rfl,
    define_region_then_fault (as_create boot8).2 _ (as_create boot8).1 _ 0x3000 0x2000 1 1 0
      [(VM_FAULT_READ, 0x3000), (VM_FAULT_WRITE, 0x4008)] rfl (by decide) (by decide)
      (by decide) (by decide)
      (fun i e j h1 h2 => by
        rw [hnext e (List.mem_iff_getElem?.mpr ⟨i, h1⟩)] at h2; simp at h2)
      ⟨fun _ => 0, fun i e j h1 h2 => by
        rw [hnext e (List.mem_iff_getElem?.mpr ⟨i, h1⟩)] at h2; simp at h2⟩
      (fun i e h1 hv => absurd (hinv e (List.mem_iff_getElem?.mpr ⟨i, h1⟩)) hv)
      (by decide) (by decide)
      ⟨[0, 1], by decide, by decide, fun i hi => by
        simp at hi
        rcases hi with h | h <;> subst h <;> exact ⟨⟨0, 0, 0, none⟩, by decide, by decide⟩⟩⟩

/-! ## Regions: `as_define_region`, `as_copy`, `as_destroy`, `as_define_stack` -/

/-- C11: on the empty address space `space0`, `as_define_region` accepts a read-only
region at `0x1000` of size `0xFFFFF000` (the sum `vaddr + memsize` wraps to 0 on 32 bits)
and then a readable and writable region at `0x2000` of size `0x1000`; both calls return 0,
and the address `0x2000` lies in the range `[base, base + size)` of two distinct regions
of the resulting address space. -/
theorem as_define_region_accepts_overlap :
    (as_define_region boot0 space0 0x1000 0xFFFFF000 1 0 0).1 = 0 ∧
    run_two_regions.1 = 0 ∧
    run_two_regions.2.1.regions =
      [⟨0x2000, 0x1000, READ ||| WRITE, false⟩, ⟨0x1000, 0xFFFFF000, READ, false⟩] ∧
    ∃ r1 ∈ run_two_regions.2.1.regions, ∃ r2 ∈ run_two_regions.2.1.regions, r1 ≠ r2 ∧
      (r1.base ≤ 0x2000 ∧ 0x2000 < r1.base + r1.size) ∧
      (r2.base ≤ 0x2000 ∧ 0x2000 < r2.base + r2.size) := by
  refine ⟨?_, ?_, ?_, ?_⟩ <;> set_option maxRecDepth 100000 in decide

/-- C12: on the empty address space `space0`, `as_define_region` at `vaddr = 0x1000` with
`memsize = 0xFFFFF001` returns 0 and adds a region of size 0: the rounding
`memsize + PAGE_SIZE - 1` wraps on 32 bits. The size rounded up to a page multiple is
`0x100000000`, and the byte at `0x1000` is not covered by the new region. -/
theorem as_define_region_size_wraps :
    space0.ptr ≠ 0 ∧
    (as_define_region boot0 space0 0x1000 0xFFFFF001 1 1 0).1 = 0 ∧
    (as_define_region boot0 space0 0x1000 0xFFFFF001 1 1 0).2.1.regions =
      [⟨0x1000, 0, READ ||| WRITE, false⟩] ∧
    (0xFFFFF001 + 0x1000 % PAGE_SIZE + PAGE_SIZE - 1) / PAGE_SIZE * PAGE_SIZE = 0x100000000 ∧
    ¬ (0x1000 < 0x1000 + 0) := by
  set_option maxRecDepth 100000 in decide

/-- C13 (counterexample): on the non-null address space `space0`, the range of
`vaddr = 0x7FFFF000`, `memsize = 0x2000` is page aligned and ends at `0x80001000`, above
`MIPS_KSEG0`; `as_define_region` returns `EFAULT`, which is not `EINVAL`. -/
theorem as_define_region_above_split_not_einval :
    space0.ptr ≠ 0 ∧
    region_base 0x7FFFF000 = 0x7FFFF000 ∧ region_size 0x7FFFF000 0x2000 = 0x2000 ∧
    0x7FFFF000 + 0x2000 > MIPS_KSEG0 ∧
    (as_define_region boot0 space0 0x7FFFF000 0x2000 1 1 0).1 = EFAULT ∧
    (as_define_region boot0 space0 0x7FFFF000 0x2000 1 1 0).1 ≠ EINVAL := by
  set_option maxRecDepth 100000 in decide

/-- C13 (amended): for every non-null address space and every `(vaddr, memsize)` whose
page-aligned range, with its end computed on 32 bits as the code computes it (the exact
end whenever that is below `2 ^ 32`), ends above `MIPS_KSEG0`, `as_define_region` returns
`EFAULT` and leaves the address space and the state unchanged. -/
theorem as_define_region_above_split (s : Kernel) (as : addrspace) (vaddr memsize : Nat)
    (readable writeable executable : Int) (has : as.ptr ≠ 0)
    (hend : u32 (region_base vaddr + region_size vaddr memsize) > MIPS_KSEG0) :
    as_define_region s as vaddr memsize readable writeable executable = (EFAULT, as, s) ∧
    (region_base vaddr + region_size vaddr memsize < 2 ^ 32 →
      u32 (region_base vaddr + region_size vaddr memsize) =
        region_base vaddr + region_size vaddr memsize) := by
  refine ⟨?_, fun h => Nat.mod_eq_of_lt h⟩
  unfold as_define_region
  simp only [has, if_false]
  rw [if_pos hend]

/-- Witness for `as_define_region_above_split` at `vaddr = 0x7FFFF000`, `memsize = 0x2000`
on `space0`. -/
theorem as_define_region_above_split_witness :
    space0.ptr ≠ 0 ∧ u32 (region_base 0x7FFFF000 + region_size 0x7FFFF000 0x2000) > MIPS_KSEG0 ∧
    as_define_region boot0 space0 0x7FFFF000 0x2000 1 1 0 = (EFAULT, space0, boot0) :=
  ⟨by decide, by decide,
    (as_define_region_above_split boot0 space0 0x7FFFF000 0x2000 1 1 0 (by decide)
      (by decide)).1⟩

/-- C14: `as_copy` of the address space `spaceR`, whose one region `[0x3000, 0x4000)` has
the permission set `READ`, succeeds, and the one region of the new address space has the
permission set `READ | WRITE | EXECUTE`. -/
theorem as_copy_widens_permissions :
    spaceR.regions = [⟨0x3000, 0x1000, READ, false⟩] ∧
    ∃ newas s1, as_copy bootR spaceR spaceR.ptr = some (0, some newas, s1) ∧
      newas.regions = [⟨0x3000, 0x1000, READ ||| WRITE ||| EXECUTE, false⟩] := by
  refine ⟨by decide, _, _, rfl, ?_⟩
  set_option maxRecDepth 100000 in decide

/-- C17: after the three resolved faults of `run_single`, `as_destroy` of `spaceC` returns,
and slot 3 of the table still holds a valid entry owned by `spaceC` (for page `0x4000`,
frame `0x12000`); the frame `0x80012000` that backs it is not in the free-frame list. -/
theorem as_destroy_leaves_valid_entry :
    ∃ s1 s2, run_single = some s1 ∧ as_destroy s1 spaceC spaceC.ptr = some s2 ∧
      s1.hpt[5]? = some ⟨spaceC.ptr, 0x12600, 0x4000, none⟩ ∧
      s2.hpt[3]? = some ⟨spaceC.ptr, 0x12600, 0x4000, none⟩ ∧
      0x12600 &&& TLBLO_VALID ≠ 0 ∧
      s2.frames = [0x80011000, 0x80010000, 0x80013000] ∧
      PADDR_TO_KVADDR (0x12600 &&& TLBLO_PPAGE) ∉ s2.frames := by
  refine ⟨_, _, rfl, rfl, ?_⟩
  set_option maxRecDepth 100000 in decide

/-- C20 (counterexample): `space0` is non-null and has no region, and the kernel heap of
`boot0_noheap` is exhausted: `as_define_stack` returns 1, stores no stack pointer and adds
no region. And in `spaceS`, whose one region `[0x7FFE0000, 0x7FFF0000)` ends where the top
`VM_STACKPAGES` pages begin and shares no byte with them, with a region record available,
`as_define_stack` returns 1 as well. -/
theorem as_define_stack_fails :
    space0.ptr ≠ 0 ∧ space0.regions = [] ∧
    (as_define_stack boot0_noheap space0 false).1 = 1 ∧
    (as_define_stack boot0_noheap space0 false).2.1 = none ∧
    (as_define_stack boot0_noheap space0 false).2.2.1.regions = [] ∧
    spaceS.ptr ≠ 0 ∧ spaceS.regions = [⟨0x7FFE0000, 0x10000, READ ||| WRITE, false⟩] ∧
    0x7FFE0000 + 0x10000 = USERSTACK - VM_STACKPAGES * PAGE_SIZE ∧
    (kmalloc bootS.kheap).1 ≠ 0 ∧
    (as_define_stack bootS spaceS false).1 = 1 ∧
    (as_define_stack bootS spaceS false).2.1 = none ∧
    (as_define_stack bootS spaceS false).2.2.1 = spaceS := by
  refine ⟨?_, ?_, ?_, ?_, ?_, ?_, ?_, ?_, ?_, ?_, ?_, ?_⟩ <;>
    set_option maxRecDepth 100000 in decide

/-- C20 (amended): for every non-null address space in which no existing region overlaps
or abuts the top `VM_STACKPAGES` pages of user space (each region ends below them or
starts above `USERSTACK`), when the caller passes a place for the stack pointer and
`kmalloc` returns a region record: `as_define_stack` returns 0, adds exactly the region with base
`USERSTACK - VM_STACKPAGES * PAGE_SIZE` and size `VM_STACKPAGES * PAGE_SIZE` (ending at
`USERSTACK`) with permissions `READ | WRITE` (no `EXECUTE`), and stores `USERSTACK` as the
stack pointer. -/
theorem as_define_stack_succeeds (s : Kernel) (as : addrspace) (has : as.ptr ≠ 0)
    (hk : (kmalloc s.kheap).1 ≠ 0)
    (hfree : ∀ r ∈ as.regions,
      r.base + r.size < USERSTACK - VM_STACKPAGES * PAGE_SIZE ∨ USERSTACK < r.base) :
    as_define_stack s as false =
      (0, some USERSTACK,
        { as with regions :=
            ⟨USERSTACK - VM_STACKPAGES * PAGE_SIZE, VM_STACKPAGES * PAGE_SIZE,
              READ ||| WRITE, false⟩ :: as.regions },
        { s with kheap := (kmalloc s.kheap).2 }) ∧
    USERSTACK - VM_STACKPAGES * PAGE_SIZE + VM_STACKPAGES * PAGE_SIZE = USERSTACK ∧
    (READ ||| WRITE) &&& READ ≠ 0 ∧ (READ ||| WRITE) &&& WRITE ≠ 0 ∧
    (READ ||| WRITE) &&& EXECUTE = 0 := by
  refine ⟨?_, by decide, by decide, by decide, by decide⟩
  have hb : region_base (USERSTACK - VM_STACKPAGES * PAGE_SIZE) =
      USERSTACK - VM_STACKPAGES * PAGE_SIZE := by decide
  have hs : region_size (USERSTACK - VM_STACKPAGES * PAGE_SIZE) (VM_STACKPAGES * PAGE_SIZE) =
      VM_STACKPAGES * PAGE_SIZE := by decide
  have hp : region_permissions 1 1 0 = READ ||| WRITE := by decide
  have hov : as_define_region_overlap (USERSTACK - VM_STACKPAGES * PAGE_SIZE)
      (VM_STACKPAGES * PAGE_SIZE) as.regions = false := by
    rw [Bool.eq_false_iff]
    intro h
    obtain ⟨c, hc, h1, h2⟩ := (as_define_region_overlap_iff _ _ _).mp h
    have hle : region_end c ≤ c.base + c.size := Nat.mod_le _ _
    have h3 : u32 (USERSTACK - VM_STACKPAGES * PAGE_SIZE + VM_STACKPAGES * PAGE_SIZE) =
        USERSTACK := by decide
    rw [h3] at h2
    rcases hfree c hc with h4 | h4
    · omega
    · omega
  have hdef := as_define_region_in_user s as (USERSTACK - VM_STACKPAGES * PAGE_SIZE)
    (VM_STACKPAGES * PAGE_SIZE) 1 1 0 has (by rw [hb, hs]; decide)
  rw [hb, hs, hp, hov] at hdef
  simp only [Bool.false_eq_true, if_false, hk] at hdef
  unfold as_define_stack
  simp [has, hdef]

/-- Witness for `as_define_stack_succeeds` on `spaceR` in the state `bootR`. -/
theorem as_define_stack_succeeds_witness :
    spaceR.ptr ≠ 0 ∧ (kmalloc bootR.kheap).1 ≠ 0 ∧
    (as_define_stack bootR spaceR false).1 = 0 ∧
    (as_define_stack bootR spaceR false).2.1 = some USERSTACK ∧
    (as_define_stack bootR spaceR false).2.2.1.regions =
      [⟨0x7FFF0000, 0x10000, 6, false⟩, ⟨0x3000, 0x1000, 4, false⟩] := by
  have h := (as_define_stack_succeeds bootR spaceR (by decide) (by decide)
    (by decide)).1
  refine ⟨by decide, by decide, by rw [h], by rw [h], ?_⟩
  rw [h]
  decide

/-! ## Loading: `as_prepare_load` and `as_complete_load` -/

/-- Slots of the table after an assignment to an `entrylo` field. -/
theorem getElem?_set_entrylo (hpt : List hpt_entry) (t i lo : Nat) :
    (set_entrylo hpt t lo)[i]? =
      if i = t then (hpt[t]?).map (fun e => { e with entrylo := lo }) else hpt[i]? := by
  unfold set_entrylo
  cases ht : hpt[t]? with
  | none =>
    by_cases hi : i = t
    · subst hi; simp [ht]
    · simp [hi]
  | some e =>
    have hlt : t < hpt.length := (List.getElem?_eq_some.mp ht).1
    by_cases hi : i = t
    · subst hi; simp [List.getElem?_set, hlt]
    · have : t ≠ i := fun h => hi h.symm
      simp [List.getElem?_set, hi, this]

/-- An assignment to an `entrylo` field keeps the size of the table. -/
theorem length_set_entrylo (hpt : List hpt_entry) (t lo : Nat) :
    (set_entrylo hpt t lo).length = hpt.length := by
  unfold set_entrylo
  cases hpt[t]? <;> simp

/-- An assignment to an `entrylo` field keeps every link of the table. -/
theorem next_set_entrylo (hpt : List hpt_entry) (t lo i : Nat) (e1 : hpt_entry)
    (h : (set_entrylo hpt t lo)[i]? = some e1) :
    ∃ e : hpt_entry, hpt[i]? = some e ∧ e1.next = e.next ∧ e1.pid = e.pid ∧
      e1.entryhi = e.entryhi := by
  rw [getElem?_set_entrylo] at h
  by_cases hi : i = t
  · subst hi
    simp only [if_true] at h
    cases he : hpt[i]? with
    | none => rw [he] at h; simp at h
    | some e =>
      rw [he] at h
      simp at h
      subst h
      exact ⟨e, rfl, rfl, rfl, rfl⟩
  · simp only [hi, if_false] at h
    exact ⟨e1, h, rfl, rfl, rfl⟩

/-- An assignment to an `entrylo` field leaves the table non-empty, its links in range
and acyclic. -/
theorem links_set_entrylo (hpt : List hpt_entry) (t lo : Nat)
    (h : 0 < hpt.length ∧ links_in_range hpt ∧ links_acyclic hpt) :
    0 < (set_entrylo hpt t lo).length ∧ links_in_range (set_entrylo hpt t lo) ∧
      links_acyclic (set_entrylo hpt t lo) := by
  obtain ⟨hn, hr, rank, hrank⟩ := h
  refine ⟨by rw [length_set_entrylo]; exact hn, ?_, rank, ?_⟩
  · intro i e1 j h1 h2
    obtain ⟨e, he, hnx, _⟩ := next_set_entrylo hpt t lo i e1 h1
    rw [length_set_entrylo]
    exact hr i e j he (by rw [← hnx]; exact h2)
  · intro i e1 j h1 h2
    obtain ⟨e, he, hnx, _⟩ := next_set_entrylo hpt t lo i e1 h1
    exact hrank i e j he (by rw [← hnx]; exact h2)

/-- An aligned 32-bit address is not changed by the page mask. -/
theorem and_page_frame_aligned (addr : Nat) (h32 : addr < 2 ^ 32) (hal : addr % PAGE_SIZE = 0) :
    addr &&& PAGE_FRAME = addr := by
  unfold PAGE_FRAME
  rw [and_frame_mask]
  unfold PAGE_SIZE at hal
  norm_num at h32
  omega

/-- The loop of `set_page_write_permissions` returns when both ends of the range are page
aligned, the table is non-empty and its links are in range and acyclic; the table keeps
these properties. -/
theorem set_page_write_permissions_loop_returns (as end_addr : Nat)
    (hend : end_addr < 2 ^ 32) (hendal : end_addr % PAGE_SIZE = 0) :
    ∀ fuel (s : Kernel) addr, addr < 2 ^ 32 → addr % PAGE_SIZE = 0 →
      (end_addr + 2 ^ 32 - addr) % 2 ^ 32 / PAGE_SIZE < fuel →
      (0 < s.hpt.length ∧ links_in_range s.hpt ∧ links_acyclic s.hpt) →
      ∃ s1, set_page_write_permissions_loop as end_addr fuel s addr = some s1 ∧
        (0 < s1.hpt.length ∧ links_in_range s1.hpt ∧ links_acyclic s1.hpt) := by
  intro fuel
  induction fuel with
  | zero => intro s addr _ _ h; exact absurd h (Nat.not_lt_zero _)
  | succ f ih =>
    intro s addr h32 hal hcnt hwf
    unfold set_page_write_permissions_loop
    by_cases he : addr = end_addr
    · simp only [he, if_true]
      exact ⟨s, rfl, hwf⟩
    · simp only [he, if_false]
      have hmask := and_page_frame_aligned addr h32 hal
      rw [hmask]
      have hnext32 : u32 (addr + PAGE_SIZE) < 2 ^ 32 := Nat.mod_lt _ (by norm_num)
      have hnextal : u32 (addr + PAGE_SIZE) % PAGE_SIZE = 0 := by
        unfold u32 PAGE_SIZE
        unfold PAGE_SIZE at hal
        omega
      have hnextcnt : (end_addr + 2 ^ 32 - u32 (addr + PAGE_SIZE)) % 2 ^ 32 / PAGE_SIZE < f := by
        unfold u32 PAGE_SIZE
        unfold PAGE_SIZE at hal hendal hcnt
        norm_num at h32 hend hcnt ⊢
        omega
      obtain ⟨res, hres, hslot⟩ := hpt_get_returns s.hpt as addr hwf.1 hmask hwf.2.1 hwf.2.2
      rw [hres]
      rcases res with ⟨_ | ei, q⟩
      · exact ih s _ hnext32 hnextal hnextcnt hwf
      · obtain ⟨e, hei, _⟩ := hslot ei rfl
        simp only [hei]
        exact ih _ _ hnext32 hnextal hnextcnt (links_set_entrylo s.hpt ei _ hwf)

/-- The loop of `reset_page_write_permissions` returns when both ends of the range are
page aligned, the table is non-empty and its links are in range and acyclic; the table
keeps these properties. -/
theorem reset_page_write_permissions_loop_returns (as end_addr : Nat)
    (hend : end_addr < 2 ^ 32) (hendal : end_addr % PAGE_SIZE = 0) :
    ∀ fuel (s : Kernel) addr, addr < 2 ^ 32 → addr % PAGE_SIZE = 0 →
      (end_addr + 2 ^ 32 - addr) % 2 ^ 32 / PAGE_SIZE < fuel →
      (0 < s.hpt.length ∧ links_in_range s.hpt ∧ links_acyclic s.hpt) →
      ∃ s1, reset_page_write_permissions_loop as end_addr fuel s addr = some s1 ∧
        (0 < s1.hpt.length ∧ links_in_range s1.hpt ∧ links_acyclic s1.hpt) := by
  intro fuel
  induction fuel with
  | zero => intro s addr _ _ h; exact absurd h (Nat.not_lt_zero _)
  | succ f ih =>
    intro s addr h32 hal hcnt hwf
    unfold reset_page_write_permissions_loop
    by_cases he : addr = end_addr
    · simp only [he, if_true]
      exact ⟨s, rfl, hwf⟩
    · simp only [he, if_false]
      have hmask := and_page_frame_aligned addr h32 hal
      rw [hmask]
      have hnext32 : u32 (addr + PAGE_SIZE) < 2 ^ 32 := Nat.mod_lt _ (by norm_num)
      have hnextal : u32 (addr + PAGE_SIZE) % PAGE_SIZE = 0 := by
        unfold u32 PAGE_SIZE
        unfold PAGE_SIZE at hal
        omega
      have hnextcnt : (end_addr + 2 ^ 32 - u32 (addr + PAGE_SIZE)) % 2 ^ 32 / PAGE_SIZE < f := by
        unfold u32 PAGE_SIZE
        unfold PAGE_SIZE at hal hendal hcnt
        norm_num at h32 hend hcnt ⊢
        omega
      obtain ⟨res, hres, hslot⟩ := hpt_get_returns s.hpt as addr hwf.1 hmask hwf.2.1 hwf.2.2
      rw [hres]
      rcases res with ⟨_ | ei, q⟩
      · exact ih s _ hnext32 hnextal hnextcnt hwf
      · obtain ⟨e, hei, _⟩ := hslot ei rfl
        simp only [hei]
        exact ih _ _ hnext32 hnextal hnextcnt (links_set_entrylo s.hpt ei _ hwf)

/-- Function `set_page_write_permissions` returns on a page-aligned range. -/
theorem set_page_write_permissions_returns (s : Kernel) (as vaddr memsize : Nat)
    (hb : vaddr < 2 ^ 32) (hbal : vaddr % PAGE_SIZE = 0) (hsal : memsize % PAGE_SIZE = 0)
    (hwf : 0 < s.hpt.length ∧ links_in_range s.hpt ∧ links_acyclic s.hpt) :
    ∃ s1, set_page_write_permissions s as vaddr memsize = some s1 ∧
      (0 < s1.hpt.length ∧ links_in_range s1.hpt ∧ links_acyclic s1.hpt) := by
  unfold set_page_write_permissions
  apply set_page_write_permissions_loop_returns as _ (Nat.mod_lt _ (by norm_num)) _ _ s vaddr
    hb hbal _ hwf
  · unfold PAGE_SIZE
    unfold PAGE_SIZE at hbal hsal
    omega
  · unfold PAGE_SIZE NPAGES
    norm_num
    omega

/-- Function `reset_page_write_permissions` returns on a page-aligned range. -/
theorem reset_page_write_permissions_returns (s : Kernel) (as vaddr memsize : Nat)
    (hb : vaddr < 2 ^ 32) (hbal : vaddr % PAGE_SIZE = 0) (hsal : memsize % PAGE_SIZE = 0)
    (hwf : 0 < s.hpt.length ∧ links_in_range s.hpt ∧ links_acyclic s.hpt) :
    ∃ s1, reset_page_write_permissions s as vaddr memsize = some s1 ∧
      (0 < s1.hpt.length ∧ links_in_range s1.hpt ∧ links_acyclic s1.hpt) := by
  unfold reset_page_write_permissions
  apply reset_page_write_permissions_loop_returns as _ (Nat.mod_lt _ (by norm_num)) _ _ s vaddr
    hb hbal _ hwf
  · unfold PAGE_SIZE
    unfold PAGE_SIZE at hbal hsal
    omega
  · unfold PAGE_SIZE NPAGES
    norm_num
    omega

/-- Setting the `WRITE` bit of a 32-bit permission word that lacks it and clearing it
again gives the word back. -/
theorem or_and_write (p : Nat) (hw : p &&& WRITE = 0) (h32 : p < 2 ^ 32) :
    (p ||| WRITE) &&& (2 ^ 32 - 1 - WRITE) = p := by
  have hc : (2 ^ 32 - 1 - WRITE : Nat) = (2 ^ 32 - 1) ^^^ 2 ^ 1 := by decide
  have hW : WRITE = 2 ^ 1 := rfl
  have hbit : p.testBit 1 = false := by
    have h1 := and_bit_mask p 1
    rw [hW] at hw
    rw [hw] at h1
    rw [Nat.testBit_to_div_mod]
    simp
    omega
  apply Nat.eq_of_testBit_eq
  intro i
  rw [hc, Nat.testBit_and, Nat.testBit_or, Nat.testBit_xor, Nat.testBit_two_pow_sub_one, hW,
    Nat.testBit_two_pow]
  by_cases h1 : 1 = i
  · subst h1; simp [hbit]
  · by_cases h2 : i < 32
    · simp [h1, h2]
    · have : p.testBit i = false := by
        apply Nat.testBit_eq_false_of_lt
        exact Nat.lt_of_lt_of_le h32 (Nat.pow_le_pow_right (by norm_num) (by omega))
      simp [h1, h2, this]

/-- The region lists of the two loops: what `as_complete_load` leaves of the regions that
`as_prepare_load` produced is the region list before, when no flag was set. -/
theorem complete_after_prepare_regions (as : Nat) :
    ∀ (regions res res2 : List as_regions) (s s1 t t1 : Kernel),
      (∀ r ∈ regions, r.read_only_change = false ∧ r.permissions < 2 ^ 32) →
      as_prepare_load_loop as regions s = some (res, s1) →
      as_complete_load_loop as res t = some (res2, t1) → res2 = regions := by
  intro regions
  induction regions with
  | nil =>
    intro res res2 s s1 t t1 _ h1 h2
    simp [as_prepare_load_loop] at h1
    rw [h1.1] at h2
    simp [as_complete_load_loop] at h2
    exact h2.1
  | cons r rest ih =>
    intro res res2 s s1 t t1 hreg h1 h2
    have hr := hreg r (List.mem_cons_self _ _)
    have hrest : ∀ x ∈ rest, x.read_only_change = false ∧ x.permissions < 2 ^ 32 :=
      fun x hx => hreg x (List.mem_cons_of_mem _ hx)
    unfold as_prepare_load_loop at h1
    by_cases hc : r.permissions &&& READ ≠ 0 ∧ r.permissions &&& WRITE = 0
    · rw [if_pos hc] at h1
      cases hs : set_page_write_permissions s as r.base r.size with
      | none => rw [hs] at h1; simp at h1
      | some s0 =>
        rw [hs] at h1
        simp only at h1
        cases hl : as_prepare_load_loop as rest s0 with
        | none => rw [hl] at h1; simp at h1
        | some p =>
          obtain ⟨rest1, s2⟩ := p
          rw [hl] at h1
          simp only [Option.some.injEq, Prod.mk.injEq] at h1
          rw [← h1.1] at h2
          unfold as_complete_load_loop at h2
          simp only [if_true] at h2
          cases hs2 : reset_page_write_permissions t as r.base r.size with
          | none => rw [hs2] at h2; simp at h2
          | some t0 =>
            rw [hs2] at h2
            simp only at h2
            cases hl2 : as_complete_load_loop as rest1 t0 with
            | none => rw [hl2] at h2; simp at h2
            | some p2 =>
              obtain ⟨rest2, t2⟩ := p2
              rw [hl2] at h2
              simp only [Option.some.injEq, Prod.mk.injEq] at h2
              rw [← h2.1, ih rest1 rest2 s0 s2 t0 t2 hrest hl hl2,
                or_and_write r.permissions hc.2 hr.2, ← hr.1]
    · rw [if_neg hc] at h1
      cases hl : as_prepare_load_loop as rest s with
      | none => rw [hl] at h1; simp at h1
      | some p =>
        obtain ⟨rest1, s2⟩ := p
        rw [hl] at h1
        simp only [Option.some.injEq, Prod.mk.injEq] at h1
        rw [← h1.1] at h2
        unfold as_complete_load_loop at h2
        simp only [hr.1, Bool.false_eq_true, if_false] at h2
        cases hl2 : as_complete_load_loop as rest1 t with
        | none => rw [hl2] at h2; simp at h2
        | some p2 =>
          obtain ⟨rest2, t2⟩ := p2
          rw [hl2] at h2
          simp only [Option.some.injEq, Prod.mk.injEq] at h2
          rw [← h2.1, ih rest1 rest2 s s2 t t2 hrest hl hl2]

/-- The loop of `as_prepare_load` returns when the regions are page aligned, the table is
non-empty and its links are in range and acyclic; the regions it returns are page aligned
and the table keeps these properties. -/
theorem as_prepare_load_loop_returns (as : Nat) :
    ∀ (regions : List as_regions) (s : Kernel),
      (∀ r ∈ regions, r.base < 2 ^ 32 ∧ r.base % PAGE_SIZE = 0 ∧ r.size % PAGE_SIZE = 0) →
      (0 < s.hpt.length ∧ links_in_range s.hpt ∧ links_acyclic s.hpt) →
      ∃ res s1, as_prepare_load_loop as regions s = some (res, s1) ∧
        (∀ r ∈ res, r.base < 2 ^ 32 ∧ r.base % PAGE_SIZE = 0 ∧ r.size % PAGE_SIZE = 0) ∧
        (0 < s1.hpt.length ∧ links_in_range s1.hpt ∧ links_acyclic s1.hpt) := by
  intro regions
  induction regions with
  | nil =>
    intro s _ hwf
    exact ⟨[], s, rfl, by simp, hwf⟩
  | cons r rest ih =>
    intro s hal hwf
    have hr := hal r (List.mem_cons_self _ _)
    have hrest := fun x hx => hal x (List.mem_cons_of_mem r hx)
    unfold as_prepare_load_loop
    by_cases hc : r.permissions &&& READ ≠ 0 ∧ r.permissions &&& WRITE = 0
    · rw [if_pos hc]
      obtain ⟨s0, hs0, hwf0⟩ :=
        set_page_write_permissions_returns s as r.base r.size hr.1 hr.2.1 hr.2.2 hwf
      obtain ⟨res, s1, h1, hres, hwf1⟩ := ih s0 hrest hwf0
      rw [hs0]
      simp only [h1]
      refine ⟨_, _, rfl, ?_, hwf1⟩
      intro x hx
      rcases List.mem_cons.mp hx with h | h
      · subst h; exact hr
      · exact hres x h
    · rw [if_neg hc]
      obtain ⟨res, s1, h1, hres, hwf1⟩ := ih s hrest hwf
      simp only [h1]
      refine ⟨_, _, rfl, ?_, hwf1⟩
      intro x hx
      rcases List.mem_cons.mp hx with h | h
      · subst h; exact hr
      · exact hres x h

/-- The loop of `as_complete_load` returns when the regions are page aligned, the table is
non-empty and its links are in range and acyclic. -/
theorem as_complete_load_loop_returns (as : Nat) :
    ∀ (regions : List as_regions) (s : Kernel),
      (∀ r ∈ regions, r.base < 2 ^ 32 ∧ r.base % PAGE_SIZE = 0 ∧ r.size % PAGE_SIZE = 0) →
      (0 < s.hpt.length ∧ links_in_range s.hpt ∧ links_acyclic s.hpt) →
      ∃ res s1, as_complete_load_loop as regions s = some (res, s1) := by
  intro regions
  induction regions with
  | nil =>
    intro s _ _
    exact ⟨[], s, rfl⟩
  | cons r rest ih =>
    intro s hal hwf
    have hr := hal r (List.mem_cons_self _ _)
    have hrest := fun x hx => hal x (List.mem_cons_of_mem r hx)
    unfold as_complete_load_loop
    by_cases hc : r.read_only_change = true
    · rw [if_pos hc]
      obtain ⟨s0, hs0, hwf0⟩ :=
        reset_page_write_permissions_returns s as r.base r.size hr.1 hr.2.1 hr.2.2 hwf
      obtain ⟨res, s1, h1⟩ := ih s0 hrest hwf0
      rw [hs0]
      simp only [h1]
      exact ⟨_, _, rfl⟩
    · rw [if_neg hc]
      obtain ⟨res, s1, h1⟩ := ih s hrest hwf
      simp only [h1]
      exact ⟨_, _, rfl⟩

/-- C18: for every non-null address space in which no region has `read_only_change` set
(permission words being 32-bit), whenever `as_prepare_load` and then `as_complete_load`
return, both return 0 and the address space afterwards is the address space before: every
region has its base, size, permission set and flag back. Both calls do return when the
regions are page aligned (as `as_define_region` makes them) and the page table is
non-empty with links in range and acyclic. -/
theorem prepare_then_complete_load (s : Kernel) (as : addrspace) (cur : Nat)
    (has : as.ptr ≠ 0)
    (hreg : ∀ r ∈ as.regions, r.read_only_change = false ∧ r.permissions < 2 ^ 32) :
    (∀ c1 as1 s1 c2 as2 s2, as_prepare_load s as = some (c1, as1, s1) →
      as_complete_load s1 as1 cur = some (c2, as2, s2) → c1 = 0 ∧ c2 = 0 ∧ as2 = as) ∧
    ((∀ r ∈ as.regions, r.base < 2 ^ 32 ∧ r.base % PAGE_SIZE = 0 ∧ r.size % PAGE_SIZE = 0) →
      0 < s.hpt.length → links_in_range s.hpt → links_acyclic s.hpt →
      ∃ as1 s1 s2, as_prepare_load s as = some (0, as1, s1) ∧
        as_complete_load s1 as1 cur = some (0, as, s2)) := by
  have hpart : ∀ c1 as1 s1 c2 as2 s2, as_prepare_load s as = some (c1, as1, s1) →
      as_complete_load s1 as1 cur = some (c2, as2, s2) → c1 = 0 ∧ c2 = 0 ∧ as2 = as := by
    intro c1 as1 s1 c2 as2 s2 h1 h2
    unfold as_prepare_load at h1
    rw [if_neg has] at h1
    cases hl : as_prepare_load_loop as.ptr as.regions s with
    | none => rw [hl] at h1; simp at h1
    | some p =>
      obtain ⟨res, t1⟩ := p
      rw [hl] at h1
      simp only [Option.some.injEq, Prod.mk.injEq] at h1
      obtain ⟨hc1, has1, hs1⟩ := h1
      subst has1 hs1
      unfold as_complete_load at h2
      simp only [has, if_false] at h2
      cases hl2 : as_complete_load_loop as.ptr res t1 with
      | none => rw [hl2] at h2; simp at h2
      | some p2 =>
        obtain ⟨res2, t2⟩ := p2
        rw [hl2] at h2
        simp only [Option.some.injEq, Prod.mk.injEq] at h2
        have heq := complete_after_prepare_regions as.ptr as.regions res res2 s t1 t1 t2
          hreg hl hl2
        refine ⟨hc1.symm, h2.1.symm, ?_⟩
        rw [← h2.2.1, heq]
  refine ⟨hpart, ?_⟩
  intro hal hn hr hac
  obtain ⟨res, s1, h1, hres, hwf1⟩ :=
    as_prepare_load_loop_returns as.ptr as.regions s hal ⟨hn, hr, hac⟩
  obtain ⟨res2, s2, h2⟩ := as_complete_load_loop_returns as.ptr res s1 hres hwf1
  have hp : as_prepare_load s as = some (0, { as with regions := res }, s1) := by
    unfold as_prepare_load
    rw [if_neg has, h1]
  have hcm : as_complete_load s1 { as with regions := res } cur =
      some (0, { as with regions := res2 }, as_activate s2 cur) := by
    unfold as_complete_load
    simp only [has, if_false, h2]
  have h3 := (hpart _ _ _ _ _ _ hp hcm).2.2
  rw [h3] at hcm
  exact ⟨_, _, _, hp, hcm⟩

/-- Witness for `prepare_then_complete_load`: the address space `spaceR` with its
read-only region `[0x3000, 0x4000)`, after the page `0x3000` has been faulted in. -/
theorem prepare_then_complete_load_witness :
    spaceR.ptr ≠ 0 ∧ spaceR.regions = [⟨0x3000, 0x1000, READ, false⟩] ∧
    (vm_fault bootR spaceR VM_FAULT_READ 0x3000).map (fun r => r.1) = some 0 ∧
    ∃ as1 s1 s2, as_prepare_load bootR_faulted spaceR = some (0, as1, s1) ∧
      as_complete_load s1 as1 spaceR.ptr = some (0, spaceR, s2) := by
  have hnext : ∀ e ∈ bootR_faulted.hpt, e.next = none := by
    set_option maxRecDepth 100000 in decide
  refine ⟨by decide, by decide, by set_option maxRecDepth 100000 in decide, ?_⟩
  exact (prepare_then_complete_load bootR_faulted spaceR spaceR.ptr (by decide)
    (by decide)).2 (by decide) (by set_option maxRecDepth 100000 in decide)
    (fun i e j h1 h2 => by
      rw [hnext e (List.mem_iff_getElem?.mpr ⟨i, h1⟩)] at h2; simp at h2)
    ⟨fun _ => 0, fun i e j h1 h2 => by
      rw [hnext e (List.mem_iff_getElem?.mpr ⟨i, h1⟩)] at h2; simp at h2⟩

/-! ## Copies and loads on damaged chains -/

/-- C15: in the state of `run_before_copy` the pages `0x4000` and `0xc000` of `spaceX` lie
in its region, have valid entries (slots 5 and 6) and are found by `hpt_get`. `as_copy` of
`spaceX` returns 0 and a new address space at `0x80040100`; afterwards the only valid entry
of the new address space is the one for page `0x3000` (slot 4), so it has none for the
pages `0x4000` and `0xc000`, the entries of `spaceX` for these pages are still in slots 5
and 6, and `hpt_get` no longer finds them for `spaceX`. -/
theorem as_copy_misses_pages :
    spaceX.ptr = 0x80040000 ∧ spaceX.regions = [⟨0x3000, 0xa000, READ ||| WRITE, false⟩] ∧
    run_before_copy.map (fun s => s.hpt) =
      some [⟨0, 0, 0, none⟩, ⟨0, 0, 0, none⟩, ⟨0, 0, 0, none⟩,
        ⟨0x80040000, 0x10600, 0x3000, some 5⟩, ⟨0, 0, 0, some 5⟩,
        ⟨0x80040000, 0x12600, 0x4000, some 6⟩, ⟨0x80040000, 0x13600, 0xc000, none⟩,
        ⟨0, 0, 0, none⟩] ∧
    run_before_copy.map (fun s =>
      (hpt_get s.hpt spaceX.ptr 0x4000, hpt_get s.hpt spaceX.ptr 0xc000)) =
      some (some (some 5, some 4), some (some 6, some 5)) ∧
    (run_before_copy.bind fun s => as_copy s spaceX spaceX.ptr).map (fun r =>
      (r.1, r.2.1.map (fun newas => newas.ptr))) = some (0, some 0x80040100) ∧
    (run_before_copy.bind fun s => as_copy s spaceX spaceX.ptr).map (fun r => r.2.2.hpt) =
      some [⟨0, 0, 0, none⟩, ⟨0, 0, 0, none⟩, ⟨0, 0, 0, none⟩,
        ⟨0x80040000, 0x10600, 0x3000, some 5⟩, ⟨0x80040100, 0x11600, 0x3000, none⟩,
        ⟨0x80040000, 0x12600, 0x4000, some 6⟩, ⟨0x80040000, 0x13600, 0xc000, some 4⟩,
        ⟨0, 0, 0, none⟩] ∧
    (run_before_copy.bind fun s => as_copy s spaceX spaceX.ptr).map (fun r =>
      (hpt_get r.2.2.hpt 0x80040100 0x4000, hpt_get r.2.2.hpt 0x80040100 0xc000)) =
      some (some (none, some 4), some (none, some 4)) ∧
    (run_before_copy.bind fun s => as_copy s spaceX spaceX.ptr).map (fun r =>
      (hpt_get r.2.2.hpt spaceX.ptr 0x4000, hpt_get r.2.2.hpt spaceX.ptr 0xc000)) =
      some (some (none, some 4), some (none, some 4)) := by
  refine ⟨?_, ?_, ?_, ?_, ?_, ?_, ?_, ?_⟩ <;> set_option maxRecDepth 100000 in decide

/-- C16: in the state of `run_before_failed_copy` one frame is free and `hpt_get` finds
the entry of page `0x4000` of `spaceP` in slot 5. `as_copy` of `spaceP` runs out of frames
at the second page, returns `ENOMEM` and stores no address space; afterwards `hpt_get`
finds no entry for page `0x4000` of `spaceP` (slot 4, which led to slot 5, has lost its
link), although slot 5 still holds that entry. -/
theorem as_copy_failure_breaks_lookup :
    spaceP.ptr = 0x80040000 ∧ spaceP.regions = [⟨0x3000, 0x9000, READ ||| WRITE, false⟩] ∧
    run_before_failed_copy.map (fun s => (s.hpt, s.frames)) =
      some ([⟨0, 0, 0, none⟩, ⟨0, 0, 0, none⟩, ⟨0, 0, 0, none⟩,
          ⟨0x80040000, 0x10600, 0xb000, some 5⟩, ⟨0, 0, 0, some 5⟩,
          ⟨0x80040000, 0x12600, 0x4000, some 6⟩, ⟨0x80040000, 0x13600, 0x5000, none⟩,
          ⟨0, 0, 0, none⟩],
        [0x80011000]) ∧
    run_before_failed_copy.map (fun s => hpt_get s.hpt spaceP.ptr 0x4000) =
      some (some (some 5, some 4)) ∧
    (run_before_failed_copy.bind fun s => as_copy s spaceP spaceP.ptr).map (fun r =>
      (r.1, r.2.1.map (fun newas => newas.ptr))) = some (ENOMEM, none) ∧
    (run_before_failed_copy.bind fun s => as_copy s spaceP spaceP.ptr).map (fun r =>
      (r.2.2.hpt, r.2.2.frames)) =
      some ([⟨0, 0, 0, none⟩, ⟨0, 0, 0, none⟩, ⟨0, 0, 0, none⟩,
          ⟨0x80040000, 0x10600, 0xb000, some 5⟩, ⟨0, 0, 0, none⟩,
          ⟨0x80040000, 0x12600, 0x4000, some 6⟩, ⟨0x80040000, 0x13600, 0x5000, none⟩,
          ⟨0, 0, 0, none⟩],
        [0x80011000]) ∧
    (run_before_failed_copy.bind fun s => as_copy s spaceP spaceP.ptr).map (fun r =>
      hpt_get r.2.2.hpt spaceP.ptr 0x4000) = some (some (none, some 4)) := by
  refine ⟨?_, ?_, ?_, ?_, ?_, ?_, ?_⟩ <;> set_option maxRecDepth 100000 in decide

/-- C19: on `space0`, after the writable region `[0x2000, 0x3000)` has been defined and
its page faulted in (entry in slot 2, dirty bit set), `as_define_region` accepts a
read-only region at `0xFFFFF000` of size `0x4000` (the sum wraps to `0x3000`). Then
`as_prepare_load` and `as_complete_load` return 0, the region `[0x2000, 0x3000)` still has
`WRITE`, and the valid entry of its page `0x2000` has lost the dirty bit. -/
theorem complete_load_clears_dirty_of_writable :
    run_wrapped_region.map (fun r => (r.1, r.2.1.regions, r.2.2.hpt[2]?)) =
      some (0, [⟨0xFFFFF000, 0x4000, READ, false⟩, ⟨0x2000, 0x1000, READ ||| WRITE, false⟩],
        some ⟨0x80040000, 0x10600, 0x2000, none⟩) ∧
    run_wrapped_load.map (fun r => (r.1, r.2.1.regions, r.2.2.hpt[2]?)) =
      some (0, [⟨0xFFFFF000, 0x4000, READ, false⟩, ⟨0x2000, 0x1000, READ ||| WRITE, false⟩],
        some ⟨0x80040000, 0x10200, 0x2000, none⟩) ∧
    (READ ||| WRITE) &&& WRITE ≠ 0 ∧
    0x10600 &&& TLBLO_DIRTY ≠ 0 ∧
    0x10200 &&& TLBLO_VALID ≠ 0 ∧ 0x10200 &&& TLBLO_DIRTY = 0 := by
  refine ⟨?_, ?_, ?_, ?_, ?_, ?_⟩ <;> set_option maxRecDepth 100000 in decide

/-! ## Error code of `as_define_stack`, the hash, the user/kernel split -/

/-- C21: in `spaceS`, whose region `[0x7FFE0000, 0x7FFF0000)` abuts the stack range, the
call of `as_define_region` that `as_define_stack` makes returns `EINVAL` (8), and
`as_define_stack` returns 1; on `space0` with the kernel heap exhausted the inner call
returns `ENOMEM` (3), and `as_define_stack` returns 1 again. In both cases no stack pointer
is stored and the region set is unchanged. -/
theorem as_define_stack_returns_one :
    (as_define_region bootS spaceS (USERSTACK - VM_STACKPAGES * PAGE_SIZE)
      (VM_STACKPAGES * PAGE_SIZE) 1 1 0).1 = EINVAL ∧
    (as_define_stack bootS spaceS false).1 = 1 ∧
    (as_define_stack bootS spaceS false).2.1 = none ∧
    (as_define_stack bootS spaceS false).2.2.1 = spaceS ∧
    (as_define_region boot0_noheap space0 (USERSTACK - VM_STACKPAGES * PAGE_SIZE)
      (VM_STACKPAGES * PAGE_SIZE) 1 1 0).1 = ENOMEM ∧
    (as_define_stack boot0_noheap space0 false).1 = 1 ∧
    (as_define_stack boot0_noheap space0 false).2.1 = none ∧
    (as_define_stack boot0_noheap space0 false).2.2.1 = space0 ∧
    EINVAL ≠ 1 ∧ ENOMEM ≠ 1 := by
  refine ⟨?_, ?_, ?_, ?_, ?_, ?_, ?_, ?_, ?_, ?_⟩ <;>
    set_option maxRecDepth 100000 in decide

/-- C22: for every address-space identity `a`, every page-aligned 32-bit address `v` and
every table size `n > 0`, `hpt_hash` returns `(a XOR (v >> 12)) mod n`, which is a slot
index below `n`. -/
theorem hpt_hash_index (a v n : Nat) (hn : 0 < n) (h32 : v < 2 ^ 32)
    (hal : v % PAGE_SIZE = 0) :
    hpt_hash n a v = some ((a ^^^ (v >>> 12)) % n) ∧ (a ^^^ (v >>> 12)) % n < n :=
  ⟨hpt_hash_some n a v hn (and_page_frame_aligned v h32 hal), Nat.mod_lt _ hn⟩

/-- Witness for `hpt_hash_index`: the page `0xb000` of the address space `0x80040000` in
a table of 8 slots has the hash index 3. -/
theorem hpt_hash_index_witness :
    hpt_hash 8 0x80040000 0xb000 = some 3 ∧ 3 < 8 := by
  have h := hpt_hash_index 0x80040000 0xb000 8 (by decide) (by decide) (by decide)
  have hv : (0x80040000 ^^^ (0xb000 >>> 12)) % 8 = 3 := by decide
  rw [hv] at h
  exact h

/-- C28: in the state of `run_adds_free`, reached from `boot8` by three successful calls
of `hpt_add` and one of `hpt_free`, `hpt_get` finds the page `0x4000` of the address space
`0x80040000` in slot 5 (through the cleared slot 4). `hpt_add` of the page `0xc000` of the
same address space returns 0 and stores the new entry in slot 4; afterwards `hpt_get`
finds no entry for the page `0x4000`, although slot 5 still holds it. -/
theorem hpt_add_loses_mapping :
    run_adds_free.map (fun s => s.hpt) =
      some [⟨0, 0, 0, none⟩, ⟨0, 0, 0, none⟩, ⟨0, 0, 0, none⟩,
        ⟨0x80040000, 0x10600, 0x3000, some 5⟩, ⟨0, 0, 0, some 5⟩,
        ⟨0x80040000, 0x12600, 0x4000, none⟩, ⟨0, 0, 0, none⟩, ⟨0, 0, 0, none⟩] ∧
    run_adds_free.map (fun s => hpt_get s.hpt 0x80040000 0x4000) =
      some (some (some 5, some 4)) ∧
    (run_adds_free.bind fun s => hpt_add s 0x80040000 0xc000 (READ ||| WRITE) true).map
      (fun r => (r.1, r.2.hpt)) =
      some (0, [⟨0, 0, 0, none⟩, ⟨0, 0, 0, none⟩, ⟨0, 0, 0, none⟩,
        ⟨0x80040000, 0x10600, 0x3000, some 5⟩, ⟨0x80040000, 0x11600, 0xc000, none⟩,
        ⟨0x80040000, 0x12600, 0x4000, none⟩, ⟨0, 0, 0, none⟩, ⟨0, 0, 0, none⟩]) ∧
    (run_adds_free.bind fun s => hpt_add s 0x80040000 0xc000 (READ ||| WRITE) true).map
      (fun r => hpt_get r.2.hpt 0x80040000 0x4000) = some (some (none, some 4)) := by
  refine ⟨?_, ?_, ?_, ?_⟩ <;> set_option maxRecDepth 100000 in decide

/-- C30: on the empty address space `space0`, `as_define_region` at `vaddr = 0x80000000`
(`MIPS_KSEG0`) with `memsize = 0x80000000` returns 0 and stores the region with base
`0x80000000` and size `0x80000000`: the sum `vaddr + memsize` wraps to 0 on 32 bits. As
exact integers `base + size` is `2 ^ 32`, above `MIPS_KSEG0`, and the kernel address
`0x80000000` lies in the region. -/
theorem as_define_region_accepts_kernel_range :
    (as_define_region boot0 space0 0x80000000 0x80000000 1 1 0).1 = 0 ∧
    (as_define_region boot0 space0 0x80000000 0x80000000 1 1 0).2.1.regions =
      [⟨0x80000000, 0x80000000, READ ||| WRITE, false⟩] ∧
    ¬ (0x80000000 + 0x80000000 ≤ MIPS_KSEG0) ∧
    u32 (0x80000000 + 0x80000000) = 0 ∧
    (0x80000000 ≤ MIPS_KSEG0 ∧ MIPS_KSEG0 < 0x80000000 + 0x80000000) := by
  refine ⟨?_, ?_, ?_, ?_, ?_⟩ <;> set_option maxRecDepth 100000 in decide

/-! ## Placement of a new entry by `hpt_add` (C27) -/

/-- A slot the probe returns is the first invalid slot met from the start slot on, going
forward with wrap-around: every slot met before it is valid. -/
theorem hpt_add_probe_first (hpt : List hpt_entry) (index ei : Nat) :
    ∀ fuel curr, curr < hpt.length → hpt_add_probe hpt index fuel curr = some (some ei) →
      ∃ k, k < fuel ∧ ei = (curr + k) % hpt.length ∧
        ∀ j, j < k → ∃ e : hpt_entry, hpt[(curr + j) % hpt.length]? = some e ∧
          e.entrylo &&& TLBLO_VALID ≠ 0 := by
  intro fuel
  induction fuel with
  | zero => intro curr _ h; simp [hpt_add_probe] at h
  | succ f ih =>
    intro curr hcurr h
    have hn : 0 < hpt.length := by omega
    unfold hpt_add_probe at h
    rw [List.getElem?_eq_getElem hcurr] at h
    simp only at h
    by_cases hv : hpt[curr].entrylo &&& TLBLO_VALID ≠ 0
    · rw [if_pos hv] at h
      split at h
      · simp at h
      · obtain ⟨k, hk, hei, hall⟩ := ih ((curr + 1) % hpt.length) (Nat.mod_lt _ hn) h
        refine ⟨k + 1, by omega, ?_, ?_⟩
        · rw [hei, Nat.mod_add_mod]
          congr 1; omega
        · intro j hj
          cases j with
          | zero =>
            refine ⟨hpt[curr], ?_, hv⟩
            rw [Nat.add_zero, Nat.mod_eq_of_lt hcurr, List.getElem?_eq_getElem hcurr]
          | succ j1 =>
            obtain ⟨e, he, hev⟩ := hall j1 (by omega)
            refine ⟨e, ?_, hev⟩
            rw [Nat.mod_add_mod] at he
            rw [← he]
            congr 2; omega
    · rw [if_neg hv] at h
      simp at h
      subst h
      exact ⟨0, by omega, by rw [Nat.add_zero, Nat.mod_eq_of_lt hcurr], fun j hj => by omega⟩

/-- After `hpt_add` has linked the tail `t` of a chain to the slot `ei` and written an
entry without a link there, the chain ends at `ei`. -/
theorem hpt_add_tail_after_link (hpt : List hpt_entry) (ei t : Nat) (entry : hpt_entry)
    (hei : ei < hpt.length) (hnext : entry.next = none) :
    ∀ fuel curr, hpt_add_tail hpt fuel curr = some t →
      hpt_add_tail ((set_next hpt t (some ei)).set ei entry) (fuel + 1) curr = some ei := by
  have hlen : ei < (set_next hpt t (some ei)).length := by rw [length_set_next]; exact hei
  have hnew : ((set_next hpt t (some ei)).set ei entry)[ei]? = some entry := by
    simp [List.getElem?_set, hlen]
  have hend : ∀ fuel, hpt_add_tail ((set_next hpt t (some ei)).set ei entry) (fuel + 1) ei =
      some ei := by
    intro fuel
    unfold hpt_add_tail
    simp [hnew, hnext]
  intro fuel
  induction fuel with
  | zero => intro curr h; simp [hpt_add_tail] at h
  | succ f ih =>
    intro curr htail
    by_cases hce : curr = ei
    · subst hce; exact hend _
    · unfold hpt_add_tail at htail
      split at htail
      · simp at htail
      · rename_i e he
        have hcur : ((set_next hpt t (some ei)).set ei entry)[curr]? =
            some (if curr = t then { e with next := some ei } else e) := by
          have hne : ei ≠ curr := fun h => hce h.symm
          rw [List.getElem?_set_ne hne, getElem?_set_next]
          by_cases hct : curr = t
          · subst hct; simp [he]
          · simp [hct, he]
        rw [hpt_add_tail]
        simp only [hcur]
        split at htail
        · rename_i hnx
          simp at htail
          subst htail
          simp only [if_true]
          exact hend _
        · rename_i nx hnx
          have hct : curr ≠ t := by
            intro hc
            subst hc
            obtain ⟨e1, he1, hn1⟩ := hpt_add_tail_next hpt curr f nx htail
            rw [he] at he1
            simp at he1
            subst he1
            rw [hnx] at hn1
            simp at hn1
          simp only [hct, if_false, hnx]
          exact ih nx htail

/-- C27: whenever `hpt_add` returns success, the new entry (owner, page, frame word, empty
link) is stored in the slot `ei` that is the first invalid slot met when probing forward
from the home slot `index = hpt_hash(as, page)` with wrap-around at the table size (the
`k` slots met before it are valid). If `ei` is the home slot nothing else changes. If
`ei` is not the home slot, the table afterwards is the table before with the last slot `t`
of the chain anchored at the home slot linked to `ei` and then the new entry written into
`ei`: the link of `t` points to `ei` (when `t` is another slot), the link of the new entry
is empty, and the chain anchored at the home slot ends at `ei`. -/
theorem hpt_add_placement (s s1 : Kernel) (as vaddr permissions : Nat) (w : Bool)
    (h : hpt_add s as vaddr permissions w = some (0, s1)) :
    ∃ index ei k entry,
      hpt_hash s.hpt.length as (vaddr &&& PAGE_FRAME) = some index ∧
      entry = ⟨as, hpt_add_entrylo (alloc_kpages s.frames).1 permissions,
        vaddr &&& PAGE_FRAME, none⟩ ∧
      k < s.hpt.length ∧ ei = (index + k) % s.hpt.length ∧
      (∀ j, j < k → ∃ e : hpt_entry, s.hpt[(index + j) % s.hpt.length]? = some e ∧
        e.entrylo &&& TLBLO_VALID ≠ 0) ∧
      slot_free s.hpt ei ∧
      s1.hpt[ei]? = some entry ∧
      (ei = index → s1.hpt = s.hpt.set ei entry) ∧
      (ei ≠ index → ∃ t, hpt_add_tail s.hpt s.hpt.length index = some t ∧
        s1.hpt = (set_next s.hpt t (some ei)).set ei entry ∧
        (t ≠ ei → ∃ e1 : hpt_entry, s1.hpt[t]? = some e1 ∧ e1.next = some ei) ∧
        hpt_add_tail s1.hpt (s.hpt.length + 1) index = some ei) := by
  obtain ⟨_, _, _, _, index, ei, hpt1, hhash, hprobe, hlink, hs1⟩ :=
    hpt_add_success s s1 as vaddr permissions w h
  have hidx : index < s.hpt.length := (hpt_hash_lt _ _ _ _ hhash).1
  obtain ⟨k, hk, hei, hall⟩ := hpt_add_probe_first s.hpt index ei s.hpt.length index hidx hprobe
  obtain ⟨e0, he0, hinv0⟩ := hpt_add_probe_some _ _ _ _ _ hprobe
  have heilt : ei < s.hpt.length := (List.getElem?_eq_some.mp he0).1
  have hs1hpt : s1.hpt = hpt1.set ei ⟨as, hpt_add_entrylo (alloc_kpages s.frames).1 permissions,
      vaddr &&& PAGE_FRAME, none⟩ := by rw [hs1]
  obtain ⟨eh, heh⟩ : ∃ eh, s.hpt[index]? = some eh :=
    ⟨s.hpt[index], List.getElem?_eq_getElem hidx⟩
  refine ⟨index, ei, k, _, hhash, rfl, hk, hei, hall, ⟨e0, he0, hinv0⟩, ?_, ?_, ?_⟩
  · rw [hs1hpt]
    have hl1 : hpt1.length = s.hpt.length := by
      unfold hpt_add_link at hlink
      rw [heh] at hlink
      simp only at hlink
      split at hlink
      · split at hlink
        · simp at hlink
        · simp at hlink; rw [← hlink, length_set_next]
      · simp at hlink; rw [hlink]
    simp [List.getElem?_set, hl1, heilt]
  · intro heq
    subst heq
    rw [heh] at he0
    simp at he0
    subst he0
    unfold hpt_add_link at hlink
    rw [heh] at hlink
    simp only [hinv0, ne_eq, not_true_eq_false, if_false, Option.some.injEq] at hlink
    rw [hs1hpt, ← hlink]
  · intro hne
    have hval : eh.entrylo &&& TLBLO_VALID ≠ 0 := by
      intro hinv
      have := hpt_add_probe_home s.hpt index (s.hpt.length - 1) eh heh hinv
      rw [show s.hpt.length - 1 + 1 = s.hpt.length by omega] at this
      rw [this] at hprobe
      simp at hprobe
      exact hne hprobe.symm
    unfold hpt_add_link at hlink
    rw [heh] at hlink
    simp only [hval, ne_eq, not_false_eq_true, if_true] at hlink
    cases ht : hpt_add_tail s.hpt s.hpt.length index with
    | none => rw [ht] at hlink; simp at hlink
    | some t =>
      rw [ht] at hlink
      simp only [Option.some.injEq] at hlink
      have hfin : s1.hpt = (set_next s.hpt t (some ei)).set ei
          ⟨as, hpt_add_entrylo (alloc_kpages s.frames).1 permissions,
            vaddr &&& PAGE_FRAME, none⟩ := by rw [hs1hpt, ← hlink]
      refine ⟨t, rfl, hfin, ?_, ?_⟩
      · intro hte
        obtain ⟨et, het, _⟩ := hpt_add_tail_next s.hpt t _ _ ht
        refine ⟨{ et with next := some ei }, ?_, rfl⟩
        rw [hfin, List.getElem?_set_ne (fun hc => hte hc.symm), getElem?_set_next]
        simp [het]
      · rw [hfin]
        exact hpt_add_tail_after_link s.hpt ei t _ heilt rfl _ _ ht

/-- Witness for `hpt_add_placement`, the scenario of a table of 8 slots and two pages with
home slot 3: after the page `0x3000` is in slot 3, `hpt_add` of the page `0xb000` stores
the entry in slot 4 and links slot 3 to slot 4, and `hpt_get` for the second page returns
slot 4. -/
theorem hpt_add_placement_witness :
    ∃ s0 s1, hpt_add boot8 0x80040000 0x3000 (READ ||| WRITE) true = some (0, s0) ∧
      hpt_add s0 0x80040000 0xb000 (READ ||| WRITE) true = some (0, s1) ∧
      hpt_hash s0.hpt.length 0x80040000 (0xb000 &&& PAGE_FRAME) = some 3 ∧
      s0.hpt[3]? = some ⟨0x80040000, 0x10600, 0x3000, none⟩ ∧
      s1.hpt[3]? = some ⟨0x80040000, 0x10600, 0x3000, some 4⟩ ∧
      s1.hpt[4]? = some ⟨0x80040000, 0x11600, 0xb000, none⟩ ∧
      hpt_get s1.hpt 0x80040000 0xb000 = some (some 4, some 3) ∧
      ∃ index ei k entry,
        hpt_hash s0.hpt.length 0x80040000 (0xb000 &&& PAGE_FRAME) = some index ∧
        entry = ⟨0x80040000, hpt_add_entrylo (alloc_kpages s0.frames).1 (READ ||| WRITE),
          0xb000 &&& PAGE_FRAME, none⟩ ∧
        k < s0.hpt.length ∧ ei = (index + k) % s0.hpt.length ∧
        (∀ j, j < k → ∃ e : hpt_entry, s0.hpt[(index + j) % s0.hpt.length]? = some e ∧
          e.entrylo &&& TLBLO_VALID ≠ 0) ∧
        slot_free s0.hpt ei ∧
        s1.hpt[ei]? = some entry ∧
        (ei = index → s1.hpt = s0.hpt.set ei entry) ∧
        (ei ≠ index → ∃ t, hpt_add_tail s0.hpt s0.hpt.length index = some t ∧
          s1.hpt = (set_next s0.hpt t (some ei)).set ei entry ∧
          (t ≠ ei → ∃ e1 : hpt_entry, s1.hpt[t]? = some e1 ∧ e1.next = some ei) ∧
          hpt_add_tail s1.hpt (s0.hpt.length + 1) index = some ei) := by
  refine ⟨_, _, rfl, rfl, ?_, ?_, ?_, ?_, ?_, hpt_add_placement _ _ _ _ _ _ rfl⟩ <;>
    set_option maxRecDepth 100000 in decide

/-! ## File descriptors (asst2) -/

/-- An array element that exists has an index within the bounds. -/
theorem at_index_some {α : Type} (l : List α) (i : Int) (x : α) (h : at_index l i = some x) :
    0 ≤ i ∧ i.toNat < l.length ∧ l[i.toNat]? = some x := by
  unfold at_index at h
  by_cases hi : i < 0
  · simp [hi] at h
  · simp only [hi, if_false] at h
    exact ⟨by omega, (List.getElem?_eq_some.mp h).1, h⟩

/-- The array element at a natural index. -/
theorem at_index_natCast {α : Type} (l : List α) (n : Nat) : at_index l (n : Int) = l[n]? := by
  unfold at_index
  simp

/-- The array element just assigned. -/
theorem at_index_set_self {α : Type} (l : List α) (i : Int) (x : α) (h0 : 0 ≤ i)
    (hlt : i < (l.length : Int)) : at_index (l.set i.toNat x) i = some x := by
  unfold at_index
  have : i.toNat < l.length := by omega
  simp [show ¬ i < 0 by omega, List.getElem?_set, this]

/-- The other array elements after an assignment. -/
theorem at_index_set_ne {α : Type} (l : List α) (i j : Int) (x : α) (h0 : 0 ≤ i)
    (hne : j ≠ i) : at_index (l.set i.toNat x) j = at_index l j := by
  unfold at_index
  by_cases hj : j < 0
  · simp [hj]
  · simp only [hj, if_false]
    have : i.toNat ≠ j.toNat := by omega
    rw [List.getElem?_set_ne this]

/-- What `decrement_fh_count` does: the descriptor table and the other entries of the file
table are unchanged; the entry itself has its count lowered, or is reset when the count
reaches zero. -/
theorem decrement_fh_count_result (s s1 : Files) (i : Nat)
    (h : decrement_fh_count s i = some s1) :
    ∃ f, s.file_table[i]? = some f ∧ s1.fd_table = s.fd_table ∧
      s1.file_table.length = s.file_table.length ∧
      (∀ k, k ≠ i → s1.file_table[k]? = s.file_table[k]?) ∧
      s1.file_table[i]? = some (if f.fh.count - 1 ≤ 0 then ⟨⟨0, 0, FT_UNUSED⟩, 0⟩
        else ⟨{ f.fh with count := f.fh.count - 1 }, f.vnode⟩) := by
  unfold decrement_fh_count at h
  cases hf : s.file_table[i]? with
  | none => rw [hf] at h; simp at h
  | some f =>
    have hi : i < s.file_table.length := (List.getElem?_eq_some.mp hf).1
    rw [hf] at h
    simp only at h
    refine ⟨f, rfl, ?_⟩
    by_cases hc : f.fh.count - 1 ≤ 0
    · simp only [hc, if_true, Option.some.injEq] at h
      subst h
      refine ⟨rfl, by simp [initialise_file_handle], ?_, ?_⟩
      · intro k hk
        simp only [initialise_file_handle]
        rw [List.getElem?_set_ne (fun hh => hk hh.symm),
          List.getElem?_set_ne (fun hh => hk hh.symm)]
      · rw [if_pos hc]
        simp [initialise_file_handle, List.getElem?_set, hi]
    · simp only [hc, if_false, Option.some.injEq] at h
      subst h
      refine ⟨rfl, by simp, ?_, ?_⟩
      · intro k hk
        simp only
        rw [List.getElem?_set_ne (fun hh => hk hh.symm)]
      · rw [if_neg hc]
        simp [List.getElem?_set, hi]

/-- C23: for every descriptor `fd` that is not open in the current process (negative,
beyond the descriptor table, or with its slot marked free), `sys_read`, `sys_write`,
`sys_lseek` and `sys_dup2(fd, newfd)` for any `newfd` return `EBADF` and leave the state
(descriptor table, file table) as it is; so does `sys_close`, which bounds the descriptor
by the size of the file table, when the descriptor table is at least that long. And after
a successful `sys_close(fd)` the descriptor `fd` is not open. -/
theorem closed_fd_ebadf (s : Files) (fd : Int) :
    (fd_closed s fd →
      (∀ a2 vop_read, sys_read s fd a2 vop_read = some (EBADF, none, s)) ∧
      (∀ a2 vop_write, sys_write s fd a2 vop_write = some (EBADF, none, s)) ∧
      (∀ pos whence isseekable vop_stat,
        sys_lseek s fd pos whence isseekable vop_stat = some (EBADF, none, s)) ∧
      (s.file_table.length ≤ s.fd_table.length → sys_close s fd = some (EBADF, s)) ∧
      (∀ newfd, sys_dup2 s fd newfd = some (EBADF, none, s))) ∧
    (∀ s0, sys_close s0 fd = some (0, s) → fd_closed s fd) := by
  constructor
  · intro hclosed
    by_cases hrange : fd < 0 ∨ fd ≥ (s.fd_table.length : Int)
    · refine ⟨?_, ?_, ?_, ?_, ?_⟩
      · intro a2 vop; unfold sys_read; simp only [hrange, if_true]
      · intro a2 vop; unfold sys_write; simp only [hrange, if_true]
      · intro pos whence sk st; unfold sys_lseek; simp only [hrange, if_true]
      · intro hsz
        unfold sys_close
        have : fd < 0 ∨ fd ≥ (s.file_table.length : Int) := by
          rcases hrange with h | h
          · exact Or.inl h
          · right; omega
        simp only [this, if_true]
      · intro newfd
        unfold sys_dup2
        have : fd < 0 ∨ fd ≥ (s.fd_table.length : Int) ∨ newfd < 0 ∨
            newfd ≥ (s.fd_table.length : Int) := by
          rcases hrange with h | h
          · exact Or.inl h
          · exact Or.inr (Or.inl h)
        simp only [this, if_true]
    · have hun : at_index s.fd_table fd = some FD_UNUSED := by
        rcases hclosed with h | h | h
        · exact absurd (Or.inl h) hrange
        · exact absurd (Or.inr h) hrange
        · exact h
      refine ⟨?_, ?_, ?_, ?_, ?_⟩
      · intro a2 vop; unfold sys_read; simp only [hrange, if_false, hun, if_true]
      · intro a2 vop; unfold sys_write; simp only [hrange, if_false, hun, if_true]
      · intro pos whence sk st; unfold sys_lseek; simp only [hrange, if_false, hun, if_true]
      · intro _
        unfold sys_close
        by_cases hr2 : fd < 0 ∨ fd ≥ (s.file_table.length : Int)
        · simp only [hr2, if_true]
        · simp only [hr2, if_false, hun, if_true]
      · intro newfd
        unfold sys_dup2
        by_cases hr2 : fd < 0 ∨ fd ≥ (s.fd_table.length : Int) ∨ newfd < 0 ∨
            newfd ≥ (s.fd_table.length : Int)
        · simp only [hr2, if_true]
        · simp only [hr2, if_false, hun, if_true]
  · intro s0 h
    unfold sys_close at h
    by_cases hr : fd < 0 ∨ fd ≥ (s0.file_table.length : Int)
    · simp only [hr, if_true, Option.some.injEq, Prod.mk.injEq] at h
      exact absurd h.1 (by decide)
    · simp only [hr, if_false] at h
      cases hfd : at_index s0.fd_table fd with
      | none => rw [hfd] at h; simp at h
      | some ft_index =>
        rw [hfd] at h
        simp only at h
        by_cases hu : ft_index = FD_UNUSED
        · simp only [hu, if_true, Option.some.injEq, Prod.mk.injEq] at h
          exact absurd h.1 (by decide)
        · simp only [hu, if_false] at h
          cases hf : at_index s0.file_table ft_index with
          | none => rw [hf] at h; simp at h
          | some f =>
            rw [hf] at h
            simp only at h
            by_cases ho : f.fh.offset = FT_UNUSED
            · simp only [ho, if_true, Option.some.injEq, Prod.mk.injEq] at h
              exact absurd h.1 (by decide)
            · simp only [ho, if_false] at h
              cases hd : decrement_fh_count s0 ft_index.toNat with
              | none => rw [hd] at h; simp at h
              | some s1 =>
                rw [hd] at h
                simp only [Option.some.injEq, Prod.mk.injEq, true_and] at h
                obtain ⟨h0, hlt, _⟩ := at_index_some _ _ _ hfd
                have hlen : s1.fd_table = s0.fd_table :=
                  (decrement_fh_count_result s0 s1 _ hd).choose_spec.2.1
                right; right
                rw [← h]
                simp only
                rw [hlen]
                exact at_index_set_self _ _ _ h0 (by omega)

/-- Witness for `closed_fd_ebadf`, following the test: after `sys_open` (descriptor 3),
`sys_dup2(3, 5)` and `sys_close(5)`, a read on descriptor 5 fails with `EBADF`; and in
that state descriptor 99 was never opened, so `sys_dup2(99, 1)` and
`sys_lseek(99, 5, SEEK_SET)` fail with `EBADF`. -/
theorem closed_fd_ebadf_witness :
    ∃ s, files_dup_closed = some s ∧ fd_closed s 5 ∧ fd_closed s 99 ∧
      sys_read s 5 10 (0, 0) = some (EBADF, none, s) ∧
      sys_write s 5 10 (0, 0) = some (EBADF, none, s) ∧
      sys_close s 5 = some (EBADF, s) ∧
      sys_dup2 s 99 1 = some (EBADF, none, s) ∧
      sys_lseek s 99 5 SEEK_SET true (0, 0) = some (EBADF, none, s) := by
  have h5 : ∀ s, files_dup_closed = some s → fd_closed s 5 := by
    intro s hs
    have hv : files_dup_closed.map (fun s => at_index s.fd_table 5) =
        some (some FD_UNUSED) := by
      set_option maxRecDepth 100000 in decide
    rw [hs] at hv
    simp at hv
    exact Or.inr (Or.inr hv)
  have h99 : ∀ s, files_dup_closed = some s → fd_closed s 99 := by
    intro s hs
    have hv : files_dup_closed.map (fun s => at_index s.fd_table 99) =
        some (some FD_UNUSED) := by
      set_option maxRecDepth 100000 in decide
    rw [hs] at hv
    simp at hv
    exact Or.inr (Or.inr hv)
  have hlen : ∀ s, files_dup_closed = some s → s.file_table.length ≤ s.fd_table.length := by
    intro s hs
    have hv : files_dup_closed.map (fun s => decide (s.file_table.length ≤ s.fd_table.length)) =
        some true := by
      set_option maxRecDepth 100000 in decide
    rw [hs] at hv
    simpa using hv
  have hex : ∃ s, files_dup_closed = some s := by
    have hv : files_dup_closed.isSome = true := by
      set_option maxRecDepth 100000 in decide
    exact Option.isSome_iff_exists.mp hv
  obtain ⟨s, hs⟩ := hex
  have c5 := (closed_fd_ebadf s 5).1 (h5 s hs)
  have c99 := (closed_fd_ebadf s 99).1 (h99 s hs)
  exact ⟨s, hs, h5 s hs, h99 s hs, c5.1 10 (0, 0), c5.2.1 10 (0, 0), c5.2.2.2.1 (hlen s hs),
    c99.2.2.2.2 1, c99.2.2.1 5 SEEK_SET true (0, 0)⟩

/-- What holds when `sys_close` returns 0: the descriptor referred to an entry `j` of the
file table; its slot is now marked free, the other descriptors and the other entries of
the file table are unchanged, and entry `j` has its count lowered or is reset. -/
theorem sys_close_success (s s0 : Files) (fd : Int) (h : sys_close s fd = some (0, s0)) :
    ∃ (j : Nat) (fj : fnode), 0 ≤ fd ∧ at_index s.fd_table fd = some (j : Int) ∧
      s.file_table[j]? = some fj ∧
      s0.fd_table = s.fd_table.set fd.toNat FD_UNUSED ∧
      s0.file_table.length = s.file_table.length ∧
      (∀ k, k ≠ j → s0.file_table[k]? = s.file_table[k]?) ∧
      s0.file_table[j]? = some (if fj.fh.count - 1 ≤ 0 then ⟨⟨0, 0, FT_UNUSED⟩, 0⟩
        else ⟨{ fj.fh with count := fj.fh.count - 1 }, fj.vnode⟩) := by
  unfold sys_close at h
  by_cases hr : fd < 0 ∨ fd ≥ (s.file_table.length : Int)
  · simp only [hr, if_true, Option.some.injEq, Prod.mk.injEq] at h
    exact absurd h.1 (by decide)
  · simp only [hr, if_false] at h
    cases hfd : at_index s.fd_table fd with
    | none => rw [hfd] at h; simp at h
    | some ft_index =>
      rw [hfd] at h
      simp only at h
      by_cases hu : ft_index = FD_UNUSED
      · simp only [hu, if_true, Option.some.injEq, Prod.mk.injEq] at h
        exact absurd h.1 (by decide)
      · simp only [hu, if_false] at h
        cases hf : at_index s.file_table ft_index with
        | none => rw [hf] at h; simp at h
        | some f =>
          rw [hf] at h
          simp only at h
          by_cases ho : f.fh.offset = FT_UNUSED
          · simp only [ho, if_true, Option.some.injEq, Prod.mk.injEq] at h
            exact absurd h.1 (by decide)
          · simp only [ho, if_false] at h
            cases hd : decrement_fh_count s ft_index.toNat with
            | none => rw [hd] at h; simp at h
            | some s1 =>
              rw [hd] at h
              simp only [Option.some.injEq, Prod.mk.injEq, true_and] at h
              obtain ⟨h0, _, _⟩ := at_index_some _ _ _ hfd
              obtain ⟨hj0, _, hfj⟩ := at_index_some _ _ _ hf
              obtain ⟨f1, hf1, hfdt, hlen, hother, hself⟩ := decrement_fh_count_result s s1 _ hd
              rw [hfj] at hf1
              simp at hf1
              subst hf1
              refine ⟨ft_index.toNat, f, h0, ?_, hfj, ?_, ?_, ?_, ?_⟩
              · rw [Int.toNat_of_nonneg hj0]
              · rw [← h]; simp only; rw [hfdt]
              · rw [← h]; exact hlen
              · rw [← h]; exact hother
              · rw [← h]; exact hself

/-- The calls that go through a descriptor depend on the descriptor only through the
entry of the file table it refers to. -/
theorem same_entry_same_calls (s : Files) (fd1 fd2 : Int)
    (h1 : 0 ≤ fd1 ∧ fd1 < (s.fd_table.length : Int))
    (h2 : 0 ≤ fd2 ∧ fd2 < (s.fd_table.length : Int))
    (heq : at_index s.fd_table fd1 = at_index s.fd_table fd2) :
    (∀ pos whence isseekable vop_stat,
      sys_lseek s fd1 pos whence isseekable vop_stat =
        sys_lseek s fd2 pos whence isseekable vop_stat) ∧
    (∀ a2 vop_read, sys_read s fd1 a2 vop_read = sys_read s fd2 a2 vop_read) ∧
    (∀ a2 vop_write, sys_write s fd1 a2 vop_write = sys_write s fd2 a2 vop_write) := by
  have r1 : ¬ (fd1 < 0 ∨ fd1 ≥ (s.fd_table.length : Int)) := by omega
  have r2 : ¬ (fd2 < 0 ∨ fd2 ≥ (s.fd_table.length : Int)) := by omega
  refine ⟨?_, ?_, ?_⟩
  · intro pos whence sk st
    unfold sys_lseek
    simp only [r1, r2, if_false, heq]
  · intro a2 vop
    unfold sys_read
    simp only [r1, r2, if_false, heq]
  · intro a2 vop
    unfold sys_write
    simp only [r1, r2, if_false, heq]

/-- C24: for every open `oldfd` (referring to entry `i` of the file table) and every
in-range `newfd` different from `oldfd`, when `sys_dup2(oldfd, newfd)` returns 0: the
result stored is `newfd`; `newfd` and `oldfd` both refer to entry `i` and the other
descriptors are unchanged; the state is the one in which `newfd`, if it was open, has been
closed by `sys_close` first, and then the slot of `newfd` is set to `i` and the count of
entry `i` raised by one; when `newfd` did not refer to entry `i` before, entry `i` is the
entry before with its count one higher; and every `sys_lseek`, `sys_read` and `sys_write`
through `newfd` is the same call through `oldfd` (same result, same new state), so the two
descriptors share one offset. -/
theorem sys_dup2_shares_entry (s s1 : Files) (oldfd newfd : Int) (i : Nat) (f : fnode)
    (r : Option Int) (hopen : fd_open s oldfd i f)
    (hnew : 0 ≤ newfd ∧ newfd < (s.fd_table.length : Int)) (hne : newfd ≠ oldfd)
    (h : sys_dup2 s oldfd newfd = some (0, r, s1)) :
    r = some newfd ∧
    at_index s1.fd_table newfd = some (i : Int) ∧
    at_index s1.fd_table oldfd = some (i : Int) ∧
    (∀ fd, fd ≠ newfd → at_index s1.fd_table fd = at_index s.fd_table fd) ∧
    (∃ s0 f0, (at_index s.fd_table newfd = some FD_UNUSED → s0 = s) ∧
      (at_index s.fd_table newfd ≠ some FD_UNUSED → sys_close s newfd = some (0, s0)) ∧
      s0.file_table[i]? = some f0 ∧
      s1 = { s0 with
        fd_table := s0.fd_table.set newfd.toNat (i : Int)
        file_table := s0.file_table.set i ⟨{ f0.fh with count := f0.fh.count + 1 }, f0.vnode⟩ }) ∧
    (at_index s.fd_table newfd ≠ some (i : Int) →
      s1.file_table[i]? = some ⟨{ f.fh with count := f.fh.count + 1 }, f.vnode⟩) ∧
    (∀ pos whence isseekable vop_stat,
      sys_lseek s1 newfd pos whence isseekable vop_stat =
        sys_lseek s1 oldfd pos whence isseekable vop_stat) ∧
    (∀ a2 vop_read, sys_read s1 newfd a2 vop_read = sys_read s1 oldfd a2 vop_read) ∧
    (∀ a2 vop_write, sys_write s1 newfd a2 vop_write = sys_write s1 oldfd a2 vop_write) := by
  obtain ⟨ho0, holt, hoidx, hfi, _⟩ := hopen
  have hilt : i < s.file_table.length := (List.getElem?_eq_some.mp hfi).1
  unfold sys_dup2 at h
  have hr : ¬ (oldfd < 0 ∨ oldfd ≥ (s.fd_table.length : Int) ∨ newfd < 0 ∨
      newfd ≥ (s.fd_table.length : Int)) := by omega
  have hiu : ¬ ((i : Int) = FD_UNUSED) := by unfold FD_UNUSED; omega
  have hon : ¬ (oldfd = newfd) := fun hc => hne hc.symm
  simp only [hr, if_false, hoidx, hiu, hon] at h
  cases hn : at_index s.fd_table newfd with
  | none => rw [hn] at h; simp at h
  | some new_ft_index =>
    rw [hn] at h
    simp only at h
    -- the state after the optional close
    have key : ∀ s0 : Files, s0.fd_table.length = s.fd_table.length →
        at_index s0.fd_table oldfd = some (i : Int) →
        (∀ fd, fd ≠ newfd → at_index s0.fd_table fd = at_index s.fd_table fd) →
        ∀ f0, s0.file_table[i]? = some f0 →
        s1 = { s0 with
          fd_table := s0.fd_table.set newfd.toNat (i : Int)
          file_table := s0.file_table.set i
            ⟨{ f0.fh with count := f0.fh.count + 1 }, f0.vnode⟩ } →
        at_index s1.fd_table newfd = some (i : Int) ∧
        at_index s1.fd_table oldfd = some (i : Int) ∧
        (∀ fd, fd ≠ newfd → at_index s1.fd_table fd = at_index s.fd_table fd) ∧
        s1.file_table[i]? = some ⟨{ f0.fh with count := f0.fh.count + 1 }, f0.vnode⟩ ∧
        s1.fd_table.length = s.fd_table.length := by
      intro s0 hlen hold hoth f0 hf0 hs1
      have hi0 : i < s0.file_table.length := (List.getElem?_eq_some.mp hf0).1
      subst hs1
      refine ⟨?_, ?_, ?_, ?_, ?_⟩
      · exact at_index_set_self _ _ _ hnew.1 (by omega)
      · simp only
        rw [at_index_set_ne _ _ _ _ hnew.1 (fun hc => hne hc.symm)]
        exact hold
      · intro fd hfd
        simp only
        rw [at_index_set_ne _ _ _ _ hnew.1 hfd]
        exact hoth fd hfd
      · simp [List.getElem?_set, hi0]
      · simp [hlen]
    have share : s1.fd_table.length = s.fd_table.length →
        at_index s1.fd_table newfd = some (i : Int) →
        at_index s1.fd_table oldfd = some (i : Int) →
        (∀ pos whence isseekable vop_stat,
          sys_lseek s1 newfd pos whence isseekable vop_stat =
            sys_lseek s1 oldfd pos whence isseekable vop_stat) ∧
        (∀ a2 vop_read, sys_read s1 newfd a2 vop_read = sys_read s1 oldfd a2 vop_read) ∧
        (∀ a2 vop_write, sys_write s1 newfd a2 vop_write = sys_write s1 oldfd a2 vop_write) := by
      intro hlen hn1 ho1
      exact same_entry_same_calls s1 newfd oldfd (by omega) (by omega) (by rw [hn1, ho1])
    by_cases hnu : new_ft_index = FD_UNUSED
    · subst hnu
      simp only [ne_eq, not_true_eq_false, if_false] at h
      rw [at_index_natCast, hfi] at h
      simp only [Option.some.injEq, Prod.mk.injEq, true_and] at h
      obtain ⟨hr1, hs1⟩ := h
      have hint : ((i : Int)).toNat = i := Int.toNat_natCast i
      rw [hint] at hs1
      obtain ⟨k1, k2, k3, k4, k5⟩ := key s rfl hoidx (fun fd _ => rfl) f hfi hs1.symm
      exact ⟨hr1.symm, k1, k2, k3, ⟨s, f, fun _ => rfl, fun hc => absurd rfl hc, hfi, hs1.symm⟩,
        fun _ => k4, share k5 k1 k2⟩
    · simp only [ne_eq, hnu, not_false_eq_true, if_true] at h
      cases hc : sys_close s newfd with
      | none => rw [hc] at h; simp at h
      | some res =>
        obtain ⟨err, s0⟩ := res
        rw [hc] at h
        simp only at h
        by_cases herr : err = 0
        · subst herr
          simp only [ne_eq, not_true_eq_false, if_false] at h
          obtain ⟨j, fj, _, hjidx, hfj, hfdt, hflen, hother, hself⟩ :=
            sys_close_success s s0 newfd hc
          have hi0 : i < s0.file_table.length := by omega
          have hf0 : s0.file_table[i]? = some s0.file_table[i] := List.getElem?_eq_getElem hi0
          rw [at_index_natCast, hf0] at h
          simp only [Option.some.injEq, Prod.mk.injEq, true_and] at h
          obtain ⟨hr1, hs1⟩ := h
          have hint : ((i : Int)).toNat = i := Int.toNat_natCast i
          rw [hint] at hs1
          have hlen0 : s0.fd_table.length = s.fd_table.length := by rw [hfdt]; simp
          have hold0 : at_index s0.fd_table oldfd = some (i : Int) := by
            rw [hfdt, at_index_set_ne _ _ _ _ hnew.1 (fun hc => hne hc.symm)]
            exact hoidx
          have hoth0 : ∀ fd, fd ≠ newfd →
              at_index s0.fd_table fd = at_index s.fd_table fd := by
            intro fd hfd
            rw [hfdt, at_index_set_ne _ _ _ _ hnew.1 hfd]
          obtain ⟨k1, k2, k3, k4, k5⟩ := key s0 hlen0 hold0 hoth0 _ hf0 hs1.symm
          refine ⟨hr1.symm, k1, k2, k3,
            ⟨s0, _, fun hc2 => ?_, fun _ => rfl, hf0, hs1.symm⟩, ?_, share k5 k1 k2⟩
          · simp at hc2
            exact absurd hc2 hnu
          · intro hji
            rw [hn] at hjidx
            have hjne : i ≠ j := by
              intro hc3
              subst hc3
              exact hji hjidx
            have : s0.file_table[i] = f := by
              have h5 := hother i hjne
              rw [hf0, hfi] at h5
              simpa using h5
            rw [k4, this]
        · simp only [ne_eq, herr, not_false_eq_true, if_true, Option.some.injEq,
            Prod.mk.injEq] at h
          exact h.1.elim

/-- Witness for `sys_dup2_shares_entry`, following the test: after `sys_open` (descriptor
3, entry 0 of the file table, count 1), `sys_dup2(3, 5)` returns 0 and stores 5; both
descriptors refer to entry 0, whose count is 2; `sys_lseek(5, 7, SEEK_SET)` then sets the
offset that a read through descriptor 3 starts from. -/
theorem sys_dup2_shares_entry_witness :
    ∃ s s1, files_open = some s ∧ sys_dup2 s 3 5 = some (0, some 5, s1) ∧
      fd_open s 3 0 ⟨⟨O_RDWR ||| O_CREAT, 1, 0⟩, 0x80050000⟩ ∧
      at_index s1.fd_table 5 = some 0 ∧ at_index s1.fd_table 3 = some 0 ∧
      s1.file_table[0]? = some ⟨⟨O_RDWR ||| O_CREAT, 2, 0⟩, 0x80050000⟩ ∧
      (∀ pos whence isseekable vop_stat,
        sys_lseek s1 5 pos whence isseekable vop_stat =
          sys_lseek s1 3 pos whence isseekable vop_stat) ∧
      ((sys_lseek s1 5 7 SEEK_SET true (0, 0)).bind fun r1 =>
        (sys_read r1.2.2 3 10 (0, 0)).map fun r2 => (r2.1, r2.2.1, r2.2.2.vfs.head?)) =
        some (0, some 10, some (vfs_op.read 0x80050000 7 10)) := by
  have hs : ∃ s, files_open = some s := by
    have hv : files_open.isSome = true := by
      set_option maxRecDepth 100000 in decide
    exact Option.isSome_iff_exists.mp hv
  obtain ⟨s, hs⟩ := hs
  have hopen : fd_open s 3 0 ⟨⟨O_RDWR ||| O_CREAT, 1, 0⟩, 0x80050000⟩ := by
    have hv : files_open.map (fun s => (decide (0 ≤ (3 : Int) ∧
        (3 : Int) < (s.fd_table.length : Int)), at_index s.fd_table 3, s.file_table[0]?)) =
        some (true, some 0, some ⟨⟨O_RDWR ||| O_CREAT, 1, 0⟩, 0x80050000⟩) := by
      set_option maxRecDepth 100000 in decide
    rw [hs] at hv
    simp only [Option.map, Option.some.injEq, Prod.mk.injEq, decide_eq_true_eq] at hv
    exact ⟨hv.1.1, hv.1.2, hv.2.1, hv.2.2, by decide⟩
  have hrange : 0 ≤ (5 : Int) ∧ (5 : Int) < (s.fd_table.length : Int) := by
    have hv : files_open.map (fun s => decide (0 ≤ (5 : Int) ∧
        (5 : Int) < (s.fd_table.length : Int))) = some true := by
      set_option maxRecDepth 100000 in decide
    rw [hs] at hv
    simpa using hv
  have hd : ∃ s1, sys_dup2 s 3 5 = some (0, some 5, s1) := by
    have hv : (files_open.bind fun s => (sys_dup2 s 3 5).map fun r => (r.1, r.2.1)) =
        some (0, some 5) := by
      set_option maxRecDepth 100000 in decide
    rw [hs] at hv
    simp only [Option.some_bind] at hv
    cases hres : sys_dup2 s 3 5 with
    | none => rw [hres] at hv; simp at hv
    | some res =>
      obtain ⟨c, r, s1⟩ := res
      rw [hres] at hv
      simp at hv
      exact ⟨s1, by rw [hv.1, hv.2]⟩
  obtain ⟨s1, hd⟩ := hd
  have hthm := sys_dup2_shares_entry s s1 3 5 0 _ _ hopen hrange (by decide) hd
  obtain ⟨_, h5, h3, _, _, hcount, hlseek, _, _⟩ := hthm
  have hnotsame : at_index s.fd_table 5 ≠ some ((0 : Nat) : Int) := by
    have hv : files_open.map (fun s => at_index s.fd_table 5) = some (some FD_UNUSED) := by
      set_option maxRecDepth 100000 in decide
    rw [hs] at hv
    simp at hv
    rw [hv]
    decide
  refine ⟨s, s1, hs, hd, hopen, h5, h3, hcount hnotsame, hlseek, ?_⟩
  have hv : (files_open.bind fun s => (sys_dup2 s 3 5).bind fun r0 =>
      (sys_lseek r0.2.2 5 7 SEEK_SET true (0, 0)).bind fun r1 =>
        (sys_read r1.2.2 3 10 (0, 0)).map fun r2 => (r2.1, r2.2.1, r2.2.2.vfs.head?)) =
      some (0, some 10, some (vfs_op.read 0x80050000 7 10)) := by
    set_option maxRecDepth 100000 in decide
  rw [hs] at hv
  simp only [Option.some_bind] at hv
  rw [hd] at hv
  simpa using hv

/-- C25: after `sys_open` descriptor 3 is open (entry 0 of the file table, count 1).
`sys_dup2(3, 3)` returns the value 3, not 0, and stores nothing through `retval`; the
state is unchanged. -/
theorem sys_dup2_same_fd_returns_fd :
    files_open.map (fun s => (at_index s.fd_table 3, s.file_table[0]?)) =
      some (some 0, some ⟨⟨O_RDWR ||| O_CREAT, 1, 0⟩, 0x80050000⟩) ∧
    (files_open.bind fun s =>
      (sys_dup2 s 3 3).map fun r => (r.1, r.2.1, decide (r.2.2 = s))) =
      some (3, none, true) ∧
    (3 : Nat) ≠ 0 := by
  refine ⟨?_, ?_, ?_⟩ <;> set_option maxRecDepth 100000 in decide

/-- A value in the range of `off_t` is not changed by the reduction to 64 bits. -/
theorem i64_of_range (t : Int) (h1 : -2 ^ 63 ≤ t) (h2 : t < 2 ^ 63) : i64 t = t := by
  unfold i64
  have : (t + 2 ^ 63) % 2 ^ 64 = t + 2 ^ 63 := Int.emod_eq_of_lt (by omega) (by omega)
  omega

/-- C26: for every open descriptor `fd` (entry `i` of the file table, current offset
`f.fh.offset`) on a seekable file of size `size`: with the target `t` being `pos` for
`SEEK_SET`, `offset + pos` for `SEEK_CUR` and `size + pos` for `SEEK_END`, a value of the
64-bit type `off_t`, `sys_lseek` sets the offset of the handle to `t`, stores `t` and
returns 0 when `t >= 0`, and returns `EINVAL` with the state unchanged when `t < 0`; for
any other `whence` it returns `EINVAL` with the state unchanged. -/
theorem sys_lseek_sets_offset (s : Files) (fd pos whence size : Int) (i : Nat) (f : fnode)
    (hopen : fd_open s fd i f) :
    (∀ t, lseek_target whence f.fh.offset size pos = some t → -2 ^ 63 ≤ t → t < 2 ^ 63 →
      (0 ≤ t → sys_lseek s fd pos whence true (0, size) =
        some (0, some t,
          { s with file_table := s.file_table.set i ⟨{ f.fh with offset := t }, f.vnode⟩ })) ∧
      (t < 0 → sys_lseek s fd pos whence true (0, size) = some (EINVAL, none, s))) ∧
    (lseek_target whence f.fh.offset size pos = none →
      sys_lseek s fd pos whence true (0, size) = some (EINVAL, none, s)) := by
  obtain ⟨h0, hlt, hidx, hfi, hused⟩ := hopen
  have hr : ¬ (fd < 0 ∨ fd ≥ (s.fd_table.length : Int)) := by omega
  have hiu : ¬ ((i : Int) = FD_UNUSED) := by unfold FD_UNUSED; omega
  have hint : ((i : Int)).toNat = i := Int.toNat_natCast i
  have hbody : sys_lseek s fd pos whence true (0, size) =
      (if whence = SEEK_SET then
        if pos < 0 then some (EINVAL, none, s)
        else some (0, some pos,
          { s with file_table := s.file_table.set i ⟨{ f.fh with offset := pos }, f.vnode⟩ })
      else if whence = SEEK_CUR then
        if i64 (f.fh.offset + pos) < 0 then some (EINVAL, none, s)
        else some (0, some (i64 (f.fh.offset + pos)),
          { s with
            file_table := s.file_table.set i
              ⟨{ f.fh with offset := i64 (f.fh.offset + pos) }, f.vnode⟩ })
      else if whence = SEEK_END then
        if i64 (size + pos) < 0 then some (EINVAL, none, s)
        else some (0, some (i64 (size + pos)),
          { s with
            file_table := s.file_table.set i
              ⟨{ f.fh with offset := i64 (size + pos) }, f.vnode⟩ })
      else some (EINVAL, none, s)) := by
    unfold sys_lseek
    simp only [hr, if_false, hidx, hiu, at_index_natCast, hfi, hused, hint]
    simp
  rw [hbody]
  unfold lseek_target
  constructor
  · intro t ht h1 h2
    have hcs : ¬ SEEK_CUR = SEEK_SET := by decide
    have hes : ¬ SEEK_END = SEEK_SET := by decide
    have hec : ¬ SEEK_END = SEEK_CUR := by decide
    by_cases hs : whence = SEEK_SET
    · subst hs
      simp only [if_true, Option.some.injEq] at ht ⊢
      subst ht
      constructor
      · intro hpos; rw [if_neg (by omega)]
      · intro hneg; rw [if_pos hneg]
    · by_cases hc : whence = SEEK_CUR
      · subst hc
        simp only [hcs, if_true, if_false, Option.some.injEq] at ht ⊢
        subst ht
        rw [i64_of_range _ h1 h2]
        constructor
        · intro hpos; rw [if_neg (by omega)]
        · intro hneg; rw [if_pos hneg]
      · by_cases he : whence = SEEK_END
        · subst he
          simp only [hes, hec, if_true, if_false, Option.some.injEq] at ht ⊢
          subst ht
          rw [i64_of_range _ h1 h2]
          constructor
          · intro hpos; rw [if_neg (by omega)]
          · intro hneg; rw [if_pos hneg]
        · simp [hs, hc, he] at ht
  · intro hnone
    by_cases hs : whence = SEEK_SET
    · rw [if_pos hs] at hnone
      exact absurd hnone (by simp)
    · rw [if_neg hs] at hnone
      by_cases hc : whence = SEEK_CUR
      · rw [if_pos hc] at hnone
        exact absurd hnone (by simp)
      · rw [if_neg hc] at hnone
        by_cases he : whence = SEEK_END
        · rw [if_pos he] at hnone
          exact absurd hnone (by simp)
        · simp only [hs, hc, he, if_false]

/-- Witness for `sys_lseek_sets_offset`, following the test: on the file opened as
descriptor 3 (offset 0), `sys_lseek(3, 5, SEEK_SET)` returns 0 and stores 5, and the
10-byte read that follows starts at offset 5 and leaves the offset 15; a seek to
`SEEK_END` with `pos = -5` on a file of 100 bytes stores 95, and a seek with
`SEEK_CUR` and `pos = -1` from offset 0 returns `EINVAL`. -/
theorem sys_lseek_sets_offset_witness :
    ∃ s, files_open = some s ∧
      fd_open s 3 0 ⟨⟨O_RDWR ||| O_CREAT, 1, 0⟩, 0x80050000⟩ ∧
      sys_lseek s 3 5 SEEK_SET true (0, 100) =
        some (0, some 5,
          { s with
            file_table := s.file_table.set 0 ⟨⟨O_RDWR ||| O_CREAT, 1, 5⟩, 0x80050000⟩ }) ∧
      sys_lseek s 3 (-5) SEEK_END true (0, 100) =
        some (0, some 95,
          { s with
            file_table := s.file_table.set 0 ⟨⟨O_RDWR ||| O_CREAT, 1, 95⟩, 0x80050000⟩ }) ∧
      sys_lseek s 3 (-1) SEEK_CUR true (0, 100) = some (EINVAL, none, s) ∧
      ((sys_lseek s 3 5 SEEK_SET true (0, 100)).bind fun r1 =>
        (sys_read r1.2.2 3 10 (0, 0)).map fun r2 =>
          (r2.1, r2.2.1, r2.2.2.vfs.head?, r2.2.2.file_table[0]?)) =
        some (0, some 10, some (vfs_op.read 0x80050000 5 10),
          some ⟨⟨O_RDWR ||| O_CREAT, 1, 15⟩, 0x80050000⟩) := by
  have hs : ∃ s, files_open = some s := by
    have hv : files_open.isSome = true := by
      set_option maxRecDepth 100000 in decide
    exact Option.isSome_iff_exists.mp hv
  obtain ⟨s, hs⟩ := hs
  have hopen : fd_open s 3 0 ⟨⟨O_RDWR ||| O_CREAT, 1, 0⟩, 0x80050000⟩ := by
    have hv : files_open.map (fun s => (decide (0 ≤ (3 : Int) ∧
        (3 : Int) < (s.fd_table.length : Int)), at_index s.fd_table 3, s.file_table[0]?)) =
        some (true, some 0, some ⟨⟨O_RDWR ||| O_CREAT, 1, 0⟩, 0x80050000⟩) := by
      set_option maxRecDepth 100000 in decide
    rw [hs] at hv
    simp only [Option.map, Option.some.injEq, Prod.mk.injEq, decide_eq_true_eq] at hv
    exact ⟨hv.1.1, hv.1.2, hv.2.1, hv.2.2, by decide⟩
  have hset := ((sys_lseek_sets_offset s 3 5 SEEK_SET 100 0 _ hopen).1 5 (by decide)
    (by decide) (by decide)).1 (by decide)
  have hend := ((sys_lseek_sets_offset s 3 (-5) SEEK_END 100 0 _ hopen).1 95 (by decide)
    (by decide) (by decide)).1 (by decide)
  have hcur := ((sys_lseek_sets_offset s 3 (-1) SEEK_CUR 100 0 _ hopen).1 (-1) (by decide)
    (by decide) (by decide)).2 (by decide)
  refine ⟨s, hs, hopen, hset, hend, hcur, ?_⟩
  have hv : (files_open.bind fun s => (sys_lseek s 3 5 SEEK_SET true (0, 100)).bind fun r1 =>
      (sys_read r1.2.2 3 10 (0, 0)).map fun r2 =>
        (r2.1, r2.2.1, r2.2.2.vfs.head?, r2.2.2.file_table[0]?)) =
      some (0, some 10, some (vfs_op.read 0x80050000 5 10),
        some ⟨⟨O_RDWR ||| O_CREAT, 1, 15⟩, 0x80050000⟩) := by
    set_option maxRecDepth 100000 in decide
  rw [hs] at hv
  simpa using hv

/-! ## Links under `hpt_add` and `hpt_free` (C29) -/

/-- Links stay in range and acyclic when every link of the new table is a link of the old
one or replaces two consecutive links of the old one. -/
theorem links_shortcut (hpt hpt1 : List hpt_entry) (hlen : hpt1.length = hpt.length)
    (hsub : ∀ (i : Nat) (e1 : hpt_entry) (j : Nat), hpt1[i]? = some e1 → e1.next = some j →
      (∃ e : hpt_entry, hpt[i]? = some e ∧ e.next = some j) ∨
      (∃ (e : hpt_entry) (m : Nat) (em : hpt_entry), hpt[i]? = some e ∧ e.next = some m ∧
        hpt[m]? = some em ∧ em.next = some j))
    (h : links_in_range hpt ∧ links_acyclic hpt) :
    links_in_range hpt1 ∧ links_acyclic hpt1 := by
  obtain ⟨hr, rank, hrank⟩ := h
  constructor
  · intro i e1 j h1 h2
    rw [hlen]
    rcases hsub i e1 j h1 h2 with ⟨e, he, hn⟩ | ⟨e, m, em, he, hn, hem, hmn⟩
    · exact hr i e j he hn
    · exact hr m em j hem hmn
  · refine ⟨rank, ?_⟩
    intro i e1 j h1 h2
    rcases hsub i e1 j h1 h2 with ⟨e, he, hn⟩ | ⟨e, m, em, he, hn, hem, hmn⟩
    · exact hrank i e j he hn
    · exact Nat.lt_trans (hrank m em j hem hmn) (hrank i e m he hn)

/-- Slots of the table after `clear_entry`: the link of every slot is kept. -/
theorem next_clear_entry (hpt : List hpt_entry) (t i : Nat) (e1 : hpt_entry)
    (h : (clear_entry hpt t)[i]? = some e1) :
    ∃ e : hpt_entry, hpt[i]? = some e ∧ e1.next = e.next := by
  unfold clear_entry at h
  cases ht : hpt[t]? with
  | none => rw [ht] at h; exact ⟨e1, h, rfl⟩
  | some e =>
    rw [ht] at h
    simp only at h
    have hlt : t < hpt.length := (List.getElem?_eq_some.mp ht).1
    by_cases hi : i = t
    · subst hi
      simp [List.getElem?_set, hlt] at h
      subst h
      exact ⟨e, ht, rfl⟩
    · rw [List.getElem?_set_ne (fun hc => hi hc.symm)] at h
      exact ⟨e1, h, rfl⟩

/-- Clearing a slot keeps the size of the table. -/
theorem length_clear_entry (hpt : List hpt_entry) (t : Nat) :
    (clear_entry hpt t).length = hpt.length := by
  unfold clear_entry
  cases hpt[t]? <;> simp

/-- The predecessor `hpt_get` reports for the slot it returns is linked to that slot (or
is the predecessor the walk was started with, when the first slot matches). -/
theorem hpt_get_walk_prev (hpt : List hpt_entry) (pid vaddr ei p : Nat) :
    ∀ fuel curr prev, hpt_get_walk hpt pid vaddr fuel (some curr) prev = some (some ei, some p) →
      (prev = some p ∧ curr = ei) ∨
        ∃ e : hpt_entry, hpt[p]? = some e ∧ e.next = some ei := by
  intro fuel
  induction fuel with
  | zero => intro curr prev h; simp [hpt_get_walk] at h
  | succ f ih =>
    intro curr prev h
    unfold hpt_get_walk at h
    cases he : hpt[curr]? with
    | none => rw [he] at h; simp at h
    | some e =>
      rw [he] at h
      simp only at h
      by_cases hm : (e.entryhi &&& TLBHI_VPAGE) = vaddr ∧ pid = e.pid ∧
          e.entrylo &&& TLBLO_VALID ≠ 0
      · rw [if_pos hm] at h
        simp only [Option.some.injEq, Prod.mk.injEq] at h
        exact Or.inl ⟨h.2, h.1⟩
      · rw [if_neg hm] at h
        cases hnx : e.next with
        | none =>
          rw [hnx] at h
          cases f with
          | zero => simp [hpt_get_walk] at h
          | succ f1 => simp [hpt_get_walk] at h
        | some nx =>
          rw [hnx] at h
          rcases ih nx (some curr) h with ⟨h1, h2⟩ | h1
          · right
            simp only [Option.some.injEq] at h1
            subst h1 h2
            exact ⟨e, he, hnx⟩
          · exact Or.inr h1

/-- Unlinking: when slot `p` is linked to slot `ei`, giving `p` the link of `ei` and
clearing `ei` keeps the size of the table and leaves its links in range and acyclic. -/
theorem links_after_unlink (hpt : List hpt_entry) (p ei : Nat) (ep entry : hpt_entry)
    (hp : hpt[p]? = some ep) (hpn : ep.next = some ei) (hei : hpt[ei]? = some entry)
    (hinv : links_in_range hpt ∧ links_acyclic hpt) :
    (clear_entry (set_next hpt p entry.next) ei).length = hpt.length ∧
    links_in_range (clear_entry (set_next hpt p entry.next) ei) ∧
    links_acyclic (clear_entry (set_next hpt p entry.next) ei) := by
  have hlen : (clear_entry (set_next hpt p entry.next) ei).length = hpt.length := by
    rw [length_clear_entry, length_set_next]
  refine ⟨hlen, links_shortcut hpt _ hlen ?_ hinv⟩
  intro i e1 j h1 h2
  obtain ⟨e2, he2, hn2⟩ := next_clear_entry _ _ _ _ h1
  rw [getElem?_set_next] at he2
  by_cases hip : i = p
  · subst hip
    simp only [if_true] at he2
    rw [hp] at he2
    simp at he2
    right
    refine ⟨ep, ei, entry, hp, hpn, hei, ?_⟩
    rw [← h2, hn2, ← he2]
  · simp only [hip, if_false] at he2
    left
    exact ⟨e2, he2, by rw [← hn2]; exact h2⟩

/-- Clearing a slot keeps the size of the table and leaves its links in range and
acyclic. -/
theorem links_after_clear (hpt : List hpt_entry) (ei : Nat)
    (hinv : links_in_range hpt ∧ links_acyclic hpt) :
    (clear_entry hpt ei).length = hpt.length ∧
    links_in_range (clear_entry hpt ei) ∧ links_acyclic (clear_entry hpt ei) := by
  have hlen : (clear_entry hpt ei).length = hpt.length := length_clear_entry _ _
  refine ⟨hlen, links_shortcut hpt _ hlen ?_ hinv⟩
  intro i e1 j h1 h2
  obtain ⟨e2, he2, hn2⟩ := next_clear_entry _ _ _ _ h1
  left
  exact ⟨e2, he2, by rw [← hn2]; exact h2⟩

/-- Promotion of the tail: writing another entry with the same link into slot `ei`,
removing the link of slot `prev` and clearing slot `end_entry` keeps the size of the table
and leaves its links in range and acyclic. -/
theorem links_after_promotion (hpt : List hpt_entry) (ei prev end_entry : Nat)
    (entry e1 : hpt_entry) (hei : hpt[ei]? = some entry) (hnext : e1.next = entry.next)
    (hinv : links_in_range hpt ∧ links_acyclic hpt) :
    (clear_entry (set_next (hpt.set ei e1) prev none) end_entry).length = hpt.length ∧
    links_in_range (clear_entry (set_next (hpt.set ei e1) prev none) end_entry) ∧
    links_acyclic (clear_entry (set_next (hpt.set ei e1) prev none) end_entry) := by
  have heilt : ei < hpt.length := (List.getElem?_eq_some.mp hei).1
  have hlen : (clear_entry (set_next (hpt.set ei e1) prev none) end_entry).length =
      hpt.length := by
    rw [length_clear_entry, length_set_next, List.length_set]
  refine ⟨hlen, links_shortcut hpt _ hlen ?_ hinv⟩
  intro i e2 j h1 h2
  obtain ⟨e3, he3, hn3⟩ := next_clear_entry _ _ _ _ h1
  rw [getElem?_set_next] at he3
  by_cases hip : i = prev
  · subst hip
    simp only [if_true] at he3
    cases hq : (hpt.set ei e1)[i]? with
    | none => rw [hq] at he3; simp at he3
    | some q =>
      rw [hq] at he3
      simp at he3
      rw [hn3, ← he3] at h2
      simp at h2
  · simp only [hip, if_false] at he3
    left
    by_cases hie : i = ei
    · subst hie
      simp [List.getElem?_set, heilt] at he3
      refine ⟨entry, hei, ?_⟩
      rw [← h2, hn3, ← he3, hnext]
    · rw [List.getElem?_set_ne (fun hc => hie hc.symm)] at he3
      exact ⟨e3, he3, by rw [← hn3]; exact h2⟩

/-- One round of `hpt_free` keeps the size of the table and leaves its links in range and
acyclic. -/
theorem hpt_free_page_links (s s1 : Kernel) (as page : Nat)
    (h : hpt_free_page s as page = some s1)
    (hinv : links_in_range s.hpt ∧ links_acyclic s.hpt) :
    s1.hpt.length = s.hpt.length ∧ links_in_range s1.hpt ∧ links_acyclic s1.hpt := by
  unfold hpt_free_page at h
  cases hg : hpt_get s.hpt as page with
  | none => rw [hg] at h; simp at h
  | some res =>
    obtain ⟨found, prev_entry⟩ := res
    rw [hg] at h
    cases found with
    | none =>
      simp only [Option.some.injEq] at h
      subst h
      exact ⟨rfl, hinv⟩
    | some ei =>
      simp only at h
      cases hei : s.hpt[ei]? with
      | none => rw [hei] at h; simp at h
      | some entry =>
        rw [hei] at h
        simp only at h
        by_cases hpg : (entry.entryhi &&& TLBHI_VPAGE) ≠ page
        · rw [if_pos hpg] at h; simp at h
        · rw [if_neg hpg] at h
          cases prev_entry with
          | some p =>
            simp only [Option.some.injEq] at h
            subst h
            have hwalk : ∃ ep : hpt_entry, s.hpt[p]? = some ep ∧ ep.next = some ei := by
              unfold hpt_get at hg
              cases hh : hpt_hash s.hpt.length as page with
              | none => rw [hh] at hg; simp at hg
              | some index =>
                rw [hh] at hg
                simp only at hg
                rcases hpt_get_walk_prev s.hpt as page ei p _ _ _ hg with ⟨hc, _⟩ | hw
                · simp at hc
                · exact hw
            obtain ⟨ep, hep, hepn⟩ := hwalk
            exact links_after_unlink s.hpt p ei ep entry hep hepn hei hinv
          | none =>
            simp only at h
            cases hnx : entry.next with
            | none =>
              rw [hnx] at h
              simp only [Option.some.injEq] at h
              subst h
              exact links_after_clear s.hpt ei hinv
            | some nx =>
              rw [hnx] at h
              simp only at h
              cases ht : hpt_free_tail s.hpt s.hpt.length ei ei with
              | none => rw [ht] at h; simp at h
              | some pe =>
                obtain ⟨prev, end_entry⟩ := pe
                rw [ht] at h
                simp only at h
                cases hend : s.hpt[end_entry]? with
                | none => rw [hend] at h; simp at h
                | some e =>
                  rw [hend] at h
                  simp only [Option.some.injEq] at h
                  subst h
                  exact links_after_promotion s.hpt ei prev end_entry entry _ hei
                    (by rw [hnx]) hinv

/-- Function `hpt_free`, when it returns, keeps the size of the table and leaves its links
in range and acyclic. -/
theorem hpt_free_links (s s1 : Kernel) (as vaddr memsize : Nat)
    (h : hpt_free s as vaddr memsize = some s1)
    (hinv : links_in_range s.hpt ∧ links_acyclic s.hpt) :
    s1.hpt.length = s.hpt.length ∧ links_in_range s1.hpt ∧ links_acyclic s1.hpt := by
  have hloop : ∀ fuel (s s1 : Kernel) page,
      hpt_free_loop as (u32 (vaddr + memsize)) fuel s page = some s1 →
      links_in_range s.hpt ∧ links_acyclic s.hpt →
      s1.hpt.length = s.hpt.length ∧ links_in_range s1.hpt ∧ links_acyclic s1.hpt := by
    intro fuel
    induction fuel with
    | zero => intro s s1 page h; simp [hpt_free_loop] at h
    | succ f ih =>
      intro s s1 page h hinv
      unfold hpt_free_loop at h
      by_cases hp : page = u32 (vaddr + memsize)
      · rw [if_pos hp] at h
        simp only [Option.some.injEq] at h
        subst h
        exact ⟨rfl, hinv⟩
      · rw [if_neg hp] at h
        cases hpage : hpt_free_page s as page with
        | none => rw [hpage] at h; simp at h
        | some s2 =>
          rw [hpage] at h
          simp only at h
          obtain ⟨hl2, hinv2⟩ := hpt_free_page_links s s2 as page hpage hinv
          obtain ⟨hl1, hinv1⟩ := ih s2 s1 _ h hinv2
          exact ⟨by rw [hl1, hl2], hinv1⟩
  exact hloop _ s s1 vaddr h hinv

/-- Function `hpt_add`, when it returns, keeps the size of the table and leaves its links
in range and acyclic. -/
theorem hpt_add_links (s s1 : Kernel) (as vaddr permissions ret : Nat) (w : Bool)
    (h : hpt_add s as vaddr permissions w = some (ret, s1))
    (hinv : links_in_range s.hpt ∧ links_acyclic s.hpt) :
    s1.hpt.length = s.hpt.length ∧ links_in_range s1.hpt ∧ links_acyclic s1.hpt := by
  by_cases hret : ret = 0
  · subst hret
    obtain ⟨ei, hfree, hlen, hnew, hold, _, _⟩ := hpt_add_slots s s1 as vaddr permissions w h
    obtain ⟨e0, he0, _⟩ := hfree
    have hei : ei < s.hpt.length := (List.getElem?_eq_some.mp he0).1
    exact ⟨hlen, links_after_add s.hpt s1.hpt ei _ rfl hei hlen hnew hold hinv.1 hinv.2⟩
  · obtain ⟨_, hs, _⟩ := hpt_add_failure s s1 as vaddr permissions ret w h hret
    rw [hs]
    exact ⟨rfl, hinv⟩

/-- The table `hpt_init` builds has no link at all. -/
theorem hpt_init_links (ram_size : Nat) :
    links_in_range (hpt_init ram_size) ∧ links_acyclic (hpt_init ram_size) := by
  have hnone : ∀ (i : Nat) (e : hpt_entry), (hpt_init ram_size)[i]? = some e → e.next = none := by
    intro i e h
    unfold hpt_init at h
    rw [List.getElem?_replicate] at h
    split at h
    · simp at h; rw [← h]
    · simp at h
  constructor
  · intro i e j h1 h2
    rw [hnone i e h1] at h2; simp at h2
  · refine ⟨fun _ => 0, ?_⟩
    intro i e j h1 h2
    rw [hnone i e h1] at h2; simp at h2

/-- After any sequence of calls of `hpt_add` and `hpt_free` the table has the size it had
and its links are in range and acyclic, if they were before. -/
theorem run_calls_links :
    ∀ (calls : List hpt_call) (s s1 : Kernel), run_calls calls s = some s1 →
      links_in_range s.hpt ∧ links_acyclic s.hpt →
      s1.hpt.length = s.hpt.length ∧ links_in_range s1.hpt ∧ links_acyclic s1.hpt := by
  intro calls
  induction calls with
  | nil =>
    intro s s1 h hinv
    simp only [run_calls, Option.some.injEq] at h
    subst h
    exact ⟨rfl, hinv⟩
  | cons c rest ih =>
    intro s s1 h hinv
    cases c with
    | add as vaddr permissions w =>
      simp only [run_calls] at h
      cases ha : hpt_add s as vaddr permissions w with
      | none => rw [ha] at h; simp at h
      | some r =>
        obtain ⟨ret, s2⟩ := r
        rw [ha] at h
        simp only at h
        obtain ⟨hl2, hinv2⟩ := hpt_add_links s s2 as vaddr permissions ret w ha hinv
        obtain ⟨hl1, hinv1⟩ := ih s2 s1 h hinv2
        exact ⟨by rw [hl1, hl2], hinv1⟩
    | free as vaddr memsize =>
      simp only [run_calls] at h
      cases hf : hpt_free s as vaddr memsize with
      | none => rw [hf] at h; simp at h
      | some s2 =>
        rw [hf] at h
        simp only at h
        obtain ⟨hl2, hinv2⟩ := hpt_free_links s s2 as vaddr memsize hf hinv
        obtain ⟨hl1, hinv1⟩ := ih s2 s1 h hinv2
        exact ⟨by rw [hl1, hl2], hinv1⟩

/-- When the tail walk of `hpt_add` from a slot ends, so does the tail walk of `hpt_free`,
at the same slot. -/
theorem hpt_free_tail_of_add_tail (hpt : List hpt_entry) (t : Nat) :
    ∀ fuel prev curr, hpt_add_tail hpt fuel curr = some t →
      ∃ p, hpt_free_tail hpt fuel prev curr = some (p, t) := by
  intro fuel
  induction fuel with
  | zero => intro prev curr h; simp [hpt_add_tail] at h
  | succ f ih =>
    intro prev curr h
    unfold hpt_add_tail at h
    unfold hpt_free_tail
    cases he : hpt[curr]? with
    | none => rw [he] at h; simp at h
    | some e =>
      rw [he] at h
      simp only at h ⊢
      cases hnx : e.next with
      | none =>
        rw [hnx] at h
        simp only [Option.some.injEq] at h
        subst h
        exact ⟨prev, rfl⟩
      | some nx =>
        rw [hnx] at h
        simp only at h ⊢
        exact ih curr nx h

/-- C29: in every state reached from `vm_bootstrap` by a sequence of calls of `hpt_add`
and `hpt_free`, the table has the size `hpt_init` gave it, every link is the index of a
slot, and the links form no cycle (a rank decreases along every link). So the tail walk of
`hpt_add` and the tail walk of `hpt_free` from any slot end within as many steps as the
table has slots, and the chain walk of `hpt_get` returns for every aligned address within
one step more (the step to `NULL`). -/
theorem links_acyclic_reachable (s0 : Kernel) (ram_size : Nat) (calls : List hpt_call)
    (s : Kernel) (h : run_calls calls (vm_bootstrap s0 ram_size) = some s) :
    s.hpt.length = (ram_size / PAGE_SIZE) * 2 ∧
    links_in_range s.hpt ∧ links_acyclic s.hpt ∧
    (∀ i, i < s.hpt.length → ∃ t, hpt_add_tail s.hpt s.hpt.length i = some t) ∧
    (∀ i, i < s.hpt.length → ∃ p t, hpt_free_tail s.hpt s.hpt.length i i = some (p, t)) ∧
    (∀ as vaddr, 0 < s.hpt.length → vaddr &&& PAGE_FRAME = vaddr →
      ∃ res, hpt_get s.hpt as vaddr = some res) := by
  have hboot : links_in_range (vm_bootstrap s0 ram_size).hpt ∧
      links_acyclic (vm_bootstrap s0 ram_size).hpt := hpt_init_links ram_size
  obtain ⟨hlen, hr, hac⟩ := run_calls_links calls _ s h hboot
  have htail : ∀ i, i < s.hpt.length → ∃ t, hpt_add_tail s.hpt s.hpt.length i = some t := by
    intro i hi
    obtain ⟨rank, hrank⟩ := hac
    exact hpt_add_tail_terminates s.hpt rank hr hrank s.hpt.length i ∅ hi (by simp) (by simp)
  refine ⟨?_, hr, hac, htail, ?_, ?_⟩
  · rw [hlen]
    simp [vm_bootstrap, hpt_init]
  · intro i hi
    obtain ⟨t, ht⟩ := htail i hi
    obtain ⟨p, hp⟩ := hpt_free_tail_of_add_tail s.hpt t _ i i ht
    exact ⟨p, t, hp⟩
  · intro as vaddr hn hal
    obtain ⟨res, hres, _⟩ := hpt_get_returns s.hpt as vaddr hn hal hr hac
    exact ⟨res, hres⟩

/-- Witness for `links_acyclic_reachable`: on a machine of 16 KiB, three calls of
`hpt_add` for pages with the home slots 3, 3 and 4 and `hpt_free` of the second page. -/
theorem links_acyclic_reachable_witness :
    ∃ s, run_calls
        [hpt_call.add 0x80040000 0x3000 (READ ||| WRITE) true,
         hpt_call.add 0x80040000 0xb000 (READ ||| WRITE) true,
         hpt_call.add 0x80040000 0x4000 (READ ||| WRITE) true,
         hpt_call.free 0x80040000 0xb000 0x1000]
        (vm_bootstrap ⟨[], [0x80010000, 0x80011000, 0x80012000, 0x80013000], fun _ => 7, [],
          []⟩ 16384) = some s ∧
      s.hpt.length = 8 ∧ links_in_range s.hpt ∧ links_acyclic s.hpt ∧
      (∃ t, hpt_add_tail s.hpt s.hpt.length 3 = some t) ∧
      (∃ res, hpt_get s.hpt 0x80040000 0x4000 = some res) := by
  have hex : (run_calls
        [hpt_call.add 0x80040000 0x3000 (READ ||| WRITE) true,
         hpt_call.add 0x80040000 0xb000 (READ ||| WRITE) true,
         hpt_call.add 0x80040000 0x4000 (READ ||| WRITE) true,
         hpt_call.free 0x80040000 0xb000 0x1000]
        (vm_bootstrap ⟨[], [0x80010000, 0x80011000, 0x80012000, 0x80013000], fun _ => 7, [],
          []⟩ 16384)).isSome = true := by
    set_option maxRecDepth 100000 in decide
  obtain ⟨s, hs⟩ := Option.isSome_iff_exists.mp hex
  have hthm := links_acyclic_reachable _ _ _ s hs
  obtain ⟨hlen, hr, hac, htail, _, hget⟩ := hthm
  have h8 : s.hpt.length = 8 := by rw [hlen]; decide
  exact ⟨s, hs, h8, hr, hac, htail 3 (by omega), hget 0x80040000 0x4000 (by omega) (by decide)⟩

/-! ## Reference counts and the unused marker (C31) -/

/-- C31: from `files0` (file table after `initialise_file_table`, every descriptor free),
the two calls `sys_open`, `sys_write` lead to the state `files_written`. The
`sys_open` of a file for writing gives descriptor 3 and entry 0 (count 1, offset 0). Then
`sys_write(3, buf, (size_t)-1)`, with `VOP_WRITE` consuming the whole request, returns 0
and stores the count -1; afterwards entry 0 has count 1, one descriptor slot refers to it,
and its offset is -1, which is negative and is the marker `FT_UNUSED`: the entry is marked
unused while its count is 1 and an open descriptor refers to it. In that state
`sys_close(3)` and `sys_write` on descriptor 3 return `EBADF`, and the next `sys_open`
takes entry 0 again (descriptor 4, count 2, the vnode replaced) while descriptor 3 still
refers to it. -/
theorem write_count_hits_unused_marker :
    run_file_calls [file_call.sys_open 0 O_WRONLY (0, 0x80050000),
      file_call.sys_write 3 (-1) (0, 0)] files0 = files_written ∧
    files_wronly.map (fun s => (s.file_table[0]?, fd_refs s 0, at_index s.fd_table 3)) =
      some (some ⟨⟨O_WRONLY, 1, 0⟩, 0x80050000⟩, 1, some 0) ∧
    (files_wronly.bind fun s => (sys_write s 3 (-1) (0, 0)).map fun r => (r.1, r.2.1)) =
      some (0, some (-1)) ∧
    files_written.map (fun s => (s.file_table[0]?, fd_refs s 0, at_index s.fd_table 3)) =
      some (some ⟨⟨O_WRONLY, 1, FT_UNUSED⟩, 0x80050000⟩, 1, some 0) ∧
    FT_UNUSED = -1 ∧ FT_UNUSED < 0 ∧
    (files_written.bind fun s => (sys_close s 3).map fun r => r.1) = some EBADF ∧
    (files_written.bind fun s => (sys_write s 3 5 (0, 0)).map fun r => r.1) = some EBADF ∧
    (files_written.bind fun s => (sys_open s 0 O_RDONLY (0, 0x80050040)).map fun r =>
      (r.1, r.2.1, r.2.2.file_table[0]?)) =
      some (0, some 4, some ⟨⟨O_RDONLY, 2, 0⟩, 0x80050040⟩) ∧
    (files_written.bind fun s => (sys_open s 0 O_RDONLY (0, 0x80050040)).map fun r =>
      (at_index r.2.2.fd_table 3, at_index r.2.2.fd_table 4)) = some (some 0, some 0) := by
  refine ⟨?_, ?_, ?_, ?_, ?_, ?_, ?_, ?_, ?_, ?_⟩ <;> set_option maxRecDepth 100000 in decide

/-! ### Reference counts along a run -/

/-- Occurrences of a value in a list after an assignment to one element. -/
theorem count_set_add (l : List Int) (x a : Int) :
    ∀ n, n < l.length →
      (l.set n x).count a + (if l[n]? = some a then 1 else 0) =
        l.count a + (if x = a then 1 else 0) := by
  induction l with
  | nil => intro n h; simp at h
  | cons y ys ih =>
    intro n h
    cases n with
    | zero =>
      simp only [List.set_cons_zero, List.count_cons, List.getElem?_cons_zero,
        Option.some.injEq, beq_iff_eq]
      omega
    | succ m =>
      have hm : m < ys.length := by simpa using h
      have := ih m hm
      simp only [List.set_cons_succ, List.count_cons, List.getElem?_cons_succ, beq_iff_eq]
      omega

/-- The counts match in a state that has the same descriptor table and, entry by entry,
the same reference counts as a state in which they match. -/
theorem counts_match_of_same (s s1 : Files) (hfd : s1.fd_table = s.fd_table)
    (hft : ∀ (i : Nat) (f1 : fnode), s1.file_table[i]? = some f1 →
      ∃ f : fnode, s.file_table[i]? = some f ∧ f1.fh.count = f.fh.count)
    (h : counts_match s) : counts_match s1 := by
  intro i f1 hf1
  obtain ⟨f, hf, hc⟩ := hft i f1 hf1
  rw [hc, h i f hf]
  unfold fd_refs
  rw [hfd]

/-- An assignment to an entry of the file table that keeps its reference count. -/
theorem same_counts_set (ft : List fnode) (n : Nat) (f g : fnode) (hf : ft[n]? = some f)
    (hg : g.fh.count = f.fh.count) :
    ∀ (i : Nat) (f1 : fnode), (ft.set n g)[i]? = some f1 →
      ∃ f0 : fnode, ft[i]? = some f0 ∧ f1.fh.count = f0.fh.count := by
  intro i f1 h
  have hn : n < ft.length := (List.getElem?_eq_some.mp hf).1
  by_cases hi : i = n
  · subst hi
    simp [List.getElem?_set, hn] at h
    subst h
    exact ⟨f, hf, hg⟩
  · rw [List.getElem?_set_ne (fun hc => hi hc.symm)] at h
    exact ⟨f1, h, rfl⟩

/-- Function `sys_read` changes neither the descriptor table nor a reference count. -/
theorem sys_read_counts (s s1 : Files) (a0 a2 : Int) (vop_read : Nat × Nat) (c : Nat)
    (r : Option Int) (h : sys_read s a0 a2 vop_read = some (c, r, s1)) :
    s1.fd_table = s.fd_table ∧
    ∀ (i : Nat) (f1 : fnode), s1.file_table[i]? = some f1 →
      ∃ f : fnode, s.file_table[i]? = some f ∧ f1.fh.count = f.fh.count := by
  have triv : s = s1 → s1.fd_table = s.fd_table ∧
      ∀ (i : Nat) (f1 : fnode), s1.file_table[i]? = some f1 →
        ∃ f : fnode, s.file_table[i]? = some f ∧ f1.fh.count = f.fh.count := by
    intro hs; subst hs
    exact ⟨rfl, fun i f1 hf => ⟨f1, hf, rfl⟩⟩
  unfold sys_read at h
  simp only at h
  by_cases hr : a0 < 0 ∨ a0 ≥ (s.fd_table.length : Int)
  · simp only [hr, if_true, Option.some.injEq, Prod.mk.injEq] at h
    exact triv h.2.2
  · simp only [hr, if_false] at h
    cases hfd : at_index s.fd_table a0 with
    | none => rw [hfd] at h; simp at h
    | some ft_index =>
      rw [hfd] at h
      simp only at h
      by_cases hu : ft_index = FD_UNUSED
      · simp only [hu, if_true, Option.some.injEq, Prod.mk.injEq] at h
        exact triv h.2.2
      · simp only [hu, if_false] at h
        cases hf : at_index s.file_table ft_index with
        | none => rw [hf] at h; simp at h
        | some f =>
          rw [hf] at h
          simp only at h
          obtain ⟨_, _, hfi⟩ := at_index_some _ _ _ hf
          by_cases ho : f.fh.offset = FT_UNUSED
          · simp only [ho, if_true, Option.some.injEq, Prod.mk.injEq] at h
            exact triv h.2.2
          · simp only [ho, if_false] at h
            by_cases hacc : f.fh.flag &&& O_ACCMODE = O_WRONLY
            · simp only [hacc, if_true, Option.some.injEq, Prod.mk.injEq] at h
              exact triv h.2.2
            · simp only [hacc, if_false] at h
              by_cases herr : vop_read.1 ≠ 0
              · simp only [herr, ne_eq, not_false_eq_true, if_true, Option.some.injEq,
                  Prod.mk.injEq] at h
                rw [← h.2.2]
                exact ⟨rfl, fun i f1 hf => ⟨f1, hf, rfl⟩⟩
              · simp only [herr, if_false, Option.some.injEq, Prod.mk.injEq] at h
                rw [← h.2.2]
                exact ⟨rfl, same_counts_set s.file_table _ f _ hfi rfl⟩

/-- Function `sys_write` changes neither the descriptor table nor a reference count. -/
theorem sys_write_counts (s s1 : Files) (a0 a2 : Int) (vop_write : Nat × Nat) (c : Nat)
    (r : Option Int) (h : sys_write s a0 a2 vop_write = some (c, r, s1)) :
    s1.fd_table = s.fd_table ∧
    ∀ (i : Nat) (f1 : fnode), s1.file_table[i]? = some f1 →
      ∃ f : fnode, s.file_table[i]? = some f ∧ f1.fh.count = f.fh.count := by
  have triv : s = s1 → s1.fd_table = s.fd_table ∧
      ∀ (i : Nat) (f1 : fnode), s1.file_table[i]? = some f1 →
        ∃ f : fnode, s.file_table[i]? = some f ∧ f1.fh.count = f.fh.count := by
    intro hs; subst hs
    exact ⟨rfl, fun i f1 hf => ⟨f1, hf, rfl⟩⟩
  unfold sys_write at h
  simp only at h
  by_cases hr : a0 < 0 ∨ a0 ≥ (s.fd_table.length : Int)
  · simp only [hr, if_true, Option.some.injEq, Prod.mk.injEq] at h
    exact triv h.2.2
  · simp only [hr, if_false] at h
    cases hfd : at_index s.fd_table a0 with
    | none => rw [hfd] at h; simp at h
    | some ft_index =>
      rw [hfd] at h
      simp only at h
      by_cases hu : ft_index = FD_UNUSED
      · simp only [hu, if_true, Option.some.injEq, Prod.mk.injEq] at h
        exact triv h.2.2
      · simp only [hu, if_false] at h
        cases hf : at_index s.file_table ft_index with
        | none => rw [hf] at h; simp at h
        | some f =>
          rw [hf] at h
          simp only at h
          obtain ⟨_, _, hfi⟩ := at_index_some _ _ _ hf
          by_cases ho : f.fh.offset = FT_UNUSED
          · simp only [ho, if_true, Option.some.injEq, Prod.mk.injEq] at h
            exact triv h.2.2
          · simp only [ho, if_false] at h
            by_cases hacc : f.fh.flag &&& O_ACCMODE = O_RDONLY
            · simp only [hacc, if_true, Option.some.injEq, Prod.mk.injEq] at h
              exact triv h.2.2
            · simp only [hacc, if_false] at h
              by_cases herr : vop_write.1 ≠ 0
              · simp only [herr, ne_eq, not_false_eq_true, if_true, Option.some.injEq,
                  Prod.mk.injEq] at h
                rw [← h.2.2]
                exact ⟨rfl, fun i f1 hf => ⟨f1, hf, rfl⟩⟩
              · simp only [herr, if_false, Option.some.injEq, Prod.mk.injEq] at h
                rw [← h.2.2]
                exact ⟨rfl, same_counts_set s.file_table _ f _ hfi rfl⟩

/-- Function `sys_lseek` changes neither the descriptor table nor a reference count. -/
theorem sys_lseek_counts (s s1 : Files) (fd pos whence : Int) (isseekable : Bool)
    (vop_stat : Nat × Int) (c : Nat) (r : Option Int)
    (h : sys_lseek s fd pos whence isseekable vop_stat = some (c, r, s1)) :
    s1.fd_table = s.fd_table ∧
    ∀ (i : Nat) (f1 : fnode), s1.file_table[i]? = some f1 →
      ∃ f : fnode, s.file_table[i]? = some f ∧ f1.fh.count = f.fh.count := by
  have triv : s = s1 → s1.fd_table = s.fd_table ∧
      ∀ (i : Nat) (f1 : fnode), s1.file_table[i]? = some f1 →
        ∃ f : fnode, s.file_table[i]? = some f ∧ f1.fh.count = f.fh.count := by
    intro hs; subst hs
    exact ⟨rfl, fun i f1 hf => ⟨f1, hf, rfl⟩⟩
  unfold sys_lseek at h
  by_cases hr : fd < 0 ∨ fd ≥ (s.fd_table.length : Int)
  · simp only [hr, if_true, Option.some.injEq, Prod.mk.injEq] at h
    exact triv h.2.2
  · simp only [hr, if_false] at h
    cases hfd : at_index s.fd_table fd with
    | none => rw [hfd] at h; simp at h
    | some ft_index =>
      rw [hfd] at h
      simp only at h
      by_cases hu : ft_index = FD_UNUSED
      · simp only [hu, if_true, Option.some.injEq, Prod.mk.injEq] at h
        exact triv h.2.2
      · simp only [hu, if_false] at h
        cases hf : at_index s.file_table ft_index with
        | none => rw [hf] at h; simp at h
        | some f =>
          rw [hf] at h
          simp only at h
          obtain ⟨_, _, hfi⟩ := at_index_some _ _ _ hf
          have hset : ∀ o : Int, some (0, some o,
              ({ s with
                file_table := s.file_table.set (ft_index.toNat)
                  ⟨{ f.fh with offset := o }, f.vnode⟩ } : Files)) = some (c, r, s1) →
              s1.fd_table = s.fd_table ∧
              ∀ (i : Nat) (f1 : fnode), s1.file_table[i]? = some f1 →
                ∃ f : fnode, s.file_table[i]? = some f ∧ f1.fh.count = f.fh.count := by
            intro o ho
            simp only [Option.some.injEq, Prod.mk.injEq] at ho
            rw [← ho.2.2]
            exact ⟨rfl, same_counts_set s.file_table _ f _ hfi rfl⟩
          have hsame : some (EINVAL, (none : Option Int), s) = some (c, r, s1) →
              s1.fd_table = s.fd_table ∧
              ∀ (i : Nat) (f1 : fnode), s1.file_table[i]? = some f1 →
                ∃ f : fnode, s.file_table[i]? = some f ∧ f1.fh.count = f.fh.count := by
            intro ho
            simp only [Option.some.injEq, Prod.mk.injEq] at ho
            exact triv ho.2.2
          by_cases ho : f.fh.offset = FT_UNUSED
          · simp only [ho, if_true, Option.some.injEq, Prod.mk.injEq] at h
            exact triv h.2.2
          · simp only [ho, if_false] at h
            cases isseekable with
            | false =>
              simp only [Bool.false_eq_true, not_false_eq_true, if_true, Option.some.injEq,
                Prod.mk.injEq] at h
              exact triv h.2.2
            | true =>
              simp only [not_true_eq_false, if_false] at h
              by_cases h1 : whence = SEEK_SET
              · simp only [h1, if_true] at h
                by_cases hp : pos < 0
                · rw [if_pos hp] at h; exact hsame h
                · rw [if_neg hp] at h; exact hset _ h
              · simp only [h1, if_false] at h
                by_cases h2 : whence = SEEK_CUR
                · simp only [h2, if_true] at h
                  by_cases hp : i64 (f.fh.offset + pos) < 0
                  · rw [if_pos hp] at h; exact hsame h
                  · rw [if_neg hp] at h; exact hset _ h
                · simp only [h2, if_false] at h
                  by_cases h3 : whence = SEEK_END
                  · simp only [h3, if_true] at h
                    by_cases he : vop_stat.1 ≠ 0
                    · rw [if_pos he] at h
                      simp only [Option.some.injEq, Prod.mk.injEq] at h
                      exact triv h.2.2
                    · rw [if_neg he] at h
                      by_cases hp : i64 (vop_stat.2 + pos) < 0
                      · rw [if_pos hp] at h; exact hsame h
                      · rw [if_neg hp] at h; exact hset _ h
                  · simp only [h3, if_false] at h
                    exact hsame h

/-- The counts depend on the two tables only. -/
theorem counts_match_congr (s s1 : Files) (hfd : s1.fd_table = s.fd_table)
    (hft : s1.file_table = s.file_table) (h : counts_match s) : counts_match s1 :=
  counts_match_of_same s s1 hfd (fun i f1 hf => ⟨f1, by rw [← hft]; exact hf, rfl⟩) h

/-- A call of `sys_close` that fails leaves the state as it is. -/
theorem sys_close_failure (s s0 : Files) (fd : Int) (err : Nat)
    (h : sys_close s fd = some (err, s0)) (herr : err ≠ 0) : s0 = s := by
  unfold sys_close at h
  by_cases hr : fd < 0 ∨ fd ≥ (s.file_table.length : Int)
  · simp only [hr, if_true, Option.some.injEq, Prod.mk.injEq] at h
    exact h.2.symm
  · simp only [hr, if_false] at h
    cases hfd : at_index s.fd_table fd with
    | none => rw [hfd] at h; simp at h
    | some ft_index =>
      rw [hfd] at h
      simp only at h
      by_cases hu : ft_index = FD_UNUSED
      · simp only [hu, if_true, Option.some.injEq, Prod.mk.injEq] at h
        exact h.2.symm
      · simp only [hu, if_false] at h
        cases hf : at_index s.file_table ft_index with
        | none => rw [hf] at h; simp at h
        | some f =>
          rw [hf] at h
          simp only at h
          by_cases ho : f.fh.offset = FT_UNUSED
          · simp only [ho, if_true, Option.some.injEq, Prod.mk.injEq] at h
            exact h.2.symm
          · simp only [ho, if_false] at h
            cases hd : decrement_fh_count s ft_index.toNat with
            | none => rw [hd] at h; simp at h
            | some s1 =>
              rw [hd] at h
              simp only [Option.some.injEq, Prod.mk.injEq] at h
              exact absurd h.1.symm herr

/-- Function `sys_close` keeps the reference counts equal to the numbers of
descriptors. -/
theorem sys_close_counts_match (s s0 : Files) (fd : Int) (err : Nat)
    (h : sys_close s fd = some (err, s0)) (hinv : counts_match s) : counts_match s0 := by
  by_cases herr : err = 0
  · subst herr
    obtain ⟨j, fj, h0, hjidx, hfj, hfdt, _, hother, hself⟩ := sys_close_success s s0 fd h
    obtain ⟨_, hlt, hget⟩ := at_index_some _ _ _ hjidx
    intro i f hf
    have hcount := count_set_add s.fd_table FD_UNUSED (i : Int) fd.toNat hlt
    have hneg : ¬ (FD_UNUSED = (i : Int)) := by unfold FD_UNUSED; omega
    rw [hget] at hcount
    simp only [hneg, if_false, Nat.add_zero, Option.some.injEq] at hcount
    unfold fd_refs
    rw [hfdt]
    by_cases hij : i = j
    · subst hij
      simp only [if_true] at hcount
      have hc := hinv i fj hfj
      unfold fd_refs at hc
      rw [hself] at hf
      simp only [Option.some.injEq] at hf
      by_cases hz : fj.fh.count - 1 ≤ 0
      · rw [if_pos hz] at hf
        rw [← hf]
        simp only
        omega
      · rw [if_neg hz] at hf
        rw [← hf]
        simp only
        omega
    · have hji : ¬ ((j : Int) = (i : Int)) := by omega
      simp only [hji, if_false, Nat.add_zero] at hcount
      rw [hother i hij] at hf
      rw [hcount]
      exact hinv i f hf
  · rw [sys_close_failure s s0 fd err h herr]
    exact hinv

/-- Linking a free descriptor slot `n` to the entry `i` and raising the count of that
entry by one keeps the reference counts equal to the numbers of descriptors. -/
theorem counts_match_link (s : Files) (n i : Nat) (f0 g : fnode) (v : List vfs_op)
    (hn : s.fd_table[n]? = some FD_UNUSED) (hf0 : s.file_table[i]? = some f0)
    (hg : g.fh.count = f0.fh.count + 1) (hinv : counts_match s) :
    counts_match ⟨s.file_table.set i g, s.fd_table.set n (i : Int), v⟩ := by
  have hnlt : n < s.fd_table.length := (List.getElem?_eq_some.mp hn).1
  have hilt : i < s.file_table.length := (List.getElem?_eq_some.mp hf0).1
  intro k f hf
  simp only at hf
  have hcount := count_set_add s.fd_table (i : Int) (k : Int) n hnlt
  have hneg : ¬ (FD_UNUSED = (k : Int)) := by unfold FD_UNUSED; omega
  rw [hn] at hcount
  simp only [Option.some.injEq, hneg, if_false, Nat.add_zero] at hcount
  unfold fd_refs
  simp only
  rw [hcount]
  by_cases hki : k = i
  · subst hki
    simp [List.getElem?_set, hilt] at hf
    rw [← hf, hg, hinv k f0 hf0]
    unfold fd_refs
    simp
  · rw [List.getElem?_set_ne (fun hc => hki hc.symm)] at hf
    have hik : ¬ ((i : Int) = (k : Int)) := by omega
    simp only [hik, if_false, Nat.add_zero]
    exact hinv k f hf

/-- A descriptor `get_fd` returns is a free slot of the descriptor table. -/
theorem get_fd_loop_free (fd_table : List Int) (fd : Nat) :
    ∀ n i, get_fd_loop fd_table n i = some fd → fd_table[fd]? = some FD_UNUSED := by
  intro n
  induction n with
  | zero => intro i h; simp [get_fd_loop] at h
  | succ m ih =>
    intro i h
    unfold get_fd_loop at h
    cases hx : fd_table[i]? with
    | none => rw [hx] at h; simp at h
    | some x =>
      rw [hx] at h
      simp only at h
      by_cases hu : x = FD_UNUSED
      · simp only [hu, if_true, Option.some.injEq] at h
        subst h
        rw [hx, hu]
      · simp only [hu, if_false] at h
        exact ih _ h

/-- What `sys_open_ft` returns: on failure the two tables are unchanged; on success one
entry of the file table has been replaced by an entry whose count is one higher. -/
theorem sys_open_ft_result (s s1 : Files) (flags : Nat) (vfs_open : Nat × Nat) (err : Nat)
    (fti : Option Nat) (h : sys_open_ft s false flags vfs_open = some (err, fti, s1)) :
    (err ≠ 0 ∧ s1.fd_table = s.fd_table ∧ s1.file_table = s.file_table) ∨
    (err = 0 ∧ ∃ (ft_ind : Nat) (f : fnode), fti = some ft_ind ∧
      s.file_table[ft_ind]? = some f ∧ s1.fd_table = s.fd_table ∧
      s1.file_table = s.file_table.set ft_ind
        ⟨⟨flags, f.fh.count + 1, FT_USED⟩, vfs_open.2⟩) := by
  unfold sys_open_ft at h
  simp only [Bool.false_eq_true, if_false] at h
  split at h
  · simp only [Option.some.injEq, Prod.mk.injEq] at h
    left
    exact ⟨by rw [← h.1]; decide, by rw [← h.2.2], by rw [← h.2.2]⟩
  · split at h
    · rename_i herr
      simp only [Option.some.injEq, Prod.mk.injEq] at h
      left
      exact ⟨by rw [← h.1]; exact herr, by rw [← h.2.2], by rw [← h.2.2]⟩
    · split at h
      · simp only [Option.some.injEq, Prod.mk.injEq] at h
        left
        exact ⟨by rw [← h.1]; decide, by rw [← h.2.2], by rw [← h.2.2]⟩
      · rename_i ft_ind hidx
        split at h
        · simp at h
        · rename_i f hf
          simp only [Option.some.injEq, Prod.mk.injEq] at h
          right
          refine ⟨h.1.symm, ft_ind, f, h.2.1.symm, hf, by rw [← h.2.2], by rw [← h.2.2]⟩

/-- Function `sys_open` keeps the reference counts equal to the numbers of
descriptors. -/
theorem sys_open_counts_match (s s1 : Files) (copyinstr flags : Nat) (vfs_open : Nat × Nat)
    (err : Nat) (r : Option Int)
    (h : sys_open s copyinstr flags vfs_open = some (err, r, s1))
    (hinv : counts_match s) : counts_match s1 := by
  unfold sys_open at h
  split at h
  · simp only [Option.some.injEq, Prod.mk.injEq] at h
    rw [← h.2.2]; exact hinv
  · cases hg : get_fd s with
    | none =>
      rw [hg] at h
      simp only [Option.some.injEq, Prod.mk.injEq] at h
      rw [← h.2.2]; exact hinv
    | some fd =>
      rw [hg] at h
      simp only at h
      have hfree : s.fd_table[fd]? = some FD_UNUSED := get_fd_loop_free _ _ _ _ hg
      cases ho : sys_open_ft s false flags vfs_open with
      | none => rw [ho] at h; simp at h
      | some res =>
        obtain ⟨e, fti, s2⟩ := res
        rw [ho] at h
        simp only at h
        rcases sys_open_ft_result s s2 flags vfs_open e fti ho with
          ⟨he, hfd, hft⟩ | ⟨he, ft_ind, f, hfti, hf, hfd, hft⟩
        · simp only [he, ne_eq, not_false_eq_true, if_true, Option.some.injEq,
            Prod.mk.injEq] at h
          rw [← h.2.2]
          exact counts_match_congr s s2 hfd hft hinv
        · subst he hfti
          simp only [ne_eq, not_true_eq_false, if_false, Option.some.injEq,
            Prod.mk.injEq] at h
          rw [← h.2.2]
          have hlink := counts_match_link s fd ft_ind f
            ⟨⟨flags, f.fh.count + 1, FT_USED⟩, vfs_open.2⟩ s2.vfs hfree hf rfl hinv
          exact counts_match_congr _ _ (by simp only; rw [hfd]) (by simp only; rw [hft]) hlink

/-- Function `sys_dup2` keeps the reference counts equal to the numbers of
descriptors. -/
theorem sys_dup2_counts_match (s s1 : Files) (oldfd newfd : Int) (err : Nat)
    (r : Option Int) (h : sys_dup2 s oldfd newfd = some (err, r, s1))
    (hinv : counts_match s) : counts_match s1 := by
  unfold sys_dup2 at h
  split at h
  · simp only [Option.some.injEq, Prod.mk.injEq] at h
    rw [← h.2.2]; exact hinv
  · cases hold : at_index s.fd_table oldfd with
    | none => rw [hold] at h; simp at h
    | some old_ft_index =>
      rw [hold] at h
      simp only at h
      split at h
      · simp only [Option.some.injEq, Prod.mk.injEq] at h
        rw [← h.2.2]; exact hinv
      · split at h
        · simp only [Option.some.injEq, Prod.mk.injEq] at h
          rw [← h.2.2]; exact hinv
        · cases hnew : at_index s.fd_table newfd with
          | none => rw [hnew] at h; simp at h
          | some new_ft_index =>
            rw [hnew] at h
            simp only at h
            have hclosed : ∀ (e : Nat) (s2 : Files),
                (if new_ft_index ≠ FD_UNUSED then sys_close s newfd else some (0, s)) =
                  some (e, s2) →
                counts_match s2 ∧ (e = 0 → s2.fd_table[newfd.toNat]? = some FD_UNUSED) := by
              intro e s2 hc
              by_cases hu : new_ft_index = FD_UNUSED
              · simp only [hu, ne_eq, not_true_eq_false, if_false, Option.some.injEq,
                  Prod.mk.injEq] at hc
                rw [← hc.2]
                refine ⟨hinv, fun _ => ?_⟩
                rw [← hu]
                exact (at_index_some _ _ _ hnew).2.2
              · simp only [hu, ne_eq, not_false_eq_true, if_true] at hc
                refine ⟨sys_close_counts_match s s2 newfd e hc hinv, fun he => ?_⟩
                subst he
                obtain ⟨j, fj, _, _, _, hfdt, _, _, _⟩ := sys_close_success s s2 newfd hc
                rw [hfdt]
                have hlt := (at_index_some _ _ _ hnew).2.1
                simp [List.getElem?_set, hlt]
            cases hcl : (if new_ft_index ≠ FD_UNUSED then sys_close s newfd
                else some (0, s)) with
            | none => rw [hcl] at h; simp at h
            | some res =>
              obtain ⟨e, s2⟩ := res
              rw [hcl] at h
              simp only at h
              obtain ⟨hinv2, hfree⟩ := hclosed e s2 hcl
              by_cases he : e = 0
              · simp only [he, ne_eq, not_true_eq_false, if_false] at h
                cases hf : at_index s2.file_table old_ft_index with
                | none => rw [hf] at h; simp at h
                | some f =>
                  rw [hf] at h
                  simp only [Option.some.injEq, Prod.mk.injEq] at h
                  rw [← h.2.2]
                  obtain ⟨h0, _, hget⟩ := at_index_some _ _ _ hf
                  have hcast : old_ft_index = ((old_ft_index.toNat : Nat) : Int) := by omega
                  have hlink := counts_match_link s2 newfd.toNat old_ft_index.toNat f
                    ⟨{ f.fh with count := f.fh.count + 1 }, f.vnode⟩ s2.vfs (hfree he) hget
                    rfl hinv2
                  rw [← hcast] at hlink
                  exact hlink
              · simp only [he, ne_eq, not_false_eq_true, if_true, Option.some.injEq,
                  Prod.mk.injEq] at h
                rw [← h.2.2]; exact hinv2

/-- Entries of the table after the loop of `initialise_file_table`: inside the range of the
loop they are reset, outside it they are the entries of before. -/
theorem initialise_file_table_loop_entry (k : Nat) (f : fnode) :
    ∀ (n i : Nat) (file_table : List fnode),
      (initialise_file_table_loop file_table n i)[k]? = some f →
      ((i ≤ k ∧ k < i + n) → f = ⟨⟨0, 0, FT_UNUSED⟩, 0⟩) ∧
      (¬ (i ≤ k ∧ k < i + n) → file_table[k]? = some f) := by
  intro n
  induction n with
  | zero =>
    intro i file_table h
    unfold initialise_file_table_loop at h
    exact ⟨fun hr => by omega, fun _ => h⟩
  | succ m ih =>
    intro i file_table h
    unfold initialise_file_table_loop at h
    obtain ⟨hin, hout⟩ := ih (i + 1) _ h
    unfold initialise_file_handle at hout
    by_cases hki : k = i
    · subst hki
      have hset := hout (by omega)
      have hlt : k < file_table.length := by
        have := (List.getElem?_eq_some.mp hset).1
        simpa using this
      simp [List.getElem?_set, hlt] at hset
      exact ⟨fun _ => hset.symm, fun hr => by omega⟩
    · refine ⟨fun hr => hin (by omega), fun hr => ?_⟩
      have hset := hout (by omega)
      rw [List.getElem?_set_ne (fun hc => hki hc.symm)] at hset
      exact hset

/-- After `initialise_file_table`, with every descriptor free, each reference count is 0
and no descriptor refers to an entry. -/
theorem initialise_file_table_counts (s0 : Files)
    (hfree : ∀ x ∈ s0.fd_table, x = FD_UNUSED) : counts_match (initialise_file_table s0) := by
  intro i f hf
  unfold initialise_file_table at hf
  simp only at hf
  obtain ⟨hin, hout⟩ := initialise_file_table_loop_entry i f _ _ _ hf
  have hrefs : fd_refs (initialise_file_table s0) i = 0 := by
    unfold fd_refs initialise_file_table
    simp only
    rw [List.count_eq_zero]
    intro hmem
    have := hfree _ hmem
    unfold FD_UNUSED at this
    omega
  rw [hrefs]
  by_cases hr : i < s0.file_table.length
  · rw [hin ⟨by omega, by omega⟩]
    simp
  · have hlt := (List.getElem?_eq_some.mp (hout (by omega))).1
    omega

/-- Each system call of the file layer keeps the reference counts equal to the numbers of
descriptors, along a sequence of calls. -/
theorem run_file_calls_counts : ∀ (calls : List file_call) (s s1 : Files),
    run_file_calls calls s = some s1 → counts_match s → counts_match s1 := by
  intro calls
  induction calls with
  | nil =>
    intro s s1 h hinv
    simp only [run_file_calls, Option.some.injEq] at h
    rw [← h]; exact hinv
  | cons c rest ih =>
    intro s s1 h hinv
    cases c with
    | sys_open copyinstr flags vfs_open =>
      simp only [run_file_calls] at h
      cases hr : sys_open s copyinstr flags vfs_open with
      | none => rw [hr] at h; simp at h
      | some r =>
        rw [hr] at h
        exact ih _ _ h (sys_open_counts_match s r.2.2 copyinstr flags vfs_open r.1 r.2.1 hr hinv)
    | sys_close fd =>
      simp only [run_file_calls] at h
      cases hr : sys_close s fd with
      | none => rw [hr] at h; simp at h
      | some r =>
        rw [hr] at h
        exact ih _ _ h (sys_close_counts_match s r.2 fd r.1 hr hinv)
    | sys_dup2 oldfd newfd =>
      simp only [run_file_calls] at h
      cases hr : sys_dup2 s oldfd newfd with
      | none => rw [hr] at h; simp at h
      | some r =>
        rw [hr] at h
        exact ih _ _ h (sys_dup2_counts_match s r.2.2 oldfd newfd r.1 r.2.1 hr hinv)
    | sys_read a0 a2 vop_read =>
      simp only [run_file_calls] at h
      cases hr : sys_read s a0 a2 vop_read with
      | none => rw [hr] at h; simp at h
      | some r =>
        rw [hr] at h
        obtain ⟨hfd, hft⟩ := sys_read_counts s r.2.2 a0 a2 vop_read r.1 r.2.1 hr
        exact ih _ _ h (counts_match_of_same s r.2.2 hfd hft hinv)
    | sys_write a0 a2 vop_write =>
      simp only [run_file_calls] at h
      cases hr : sys_write s a0 a2 vop_write with
      | none => rw [hr] at h; simp at h
      | some r =>
        rw [hr] at h
        obtain ⟨hfd, hft⟩ := sys_write_counts s r.2.2 a0 a2 vop_write r.1 r.2.1 hr
        exact ih _ _ h (counts_match_of_same s r.2.2 hfd hft hinv)
    | sys_lseek fd pos whence isseekable vop_stat =>
      simp only [run_file_calls] at h
      cases hr : sys_lseek s fd pos whence isseekable vop_stat with
      | none => rw [hr] at h; simp at h
      | some r =>
        rw [hr] at h
        obtain ⟨hfd, hft⟩ := sys_lseek_counts s r.2.2 fd pos whence isseekable vop_stat
          r.1 r.2.1 hr
        exact ih _ _ h (counts_match_of_same s r.2.2 hfd hft hinv)

/-- In every state reached from `initialise_file_table` (every descriptor free) by a
sequence of system calls, the reference count of each entry of the file table is the
number of descriptor slots that refer to it. -/
theorem fh_count_eq_refs (s0 s : Files) (calls : List file_call)
    (hfree : ∀ x ∈ s0.fd_table, x = FD_UNUSED)
    (h : run_file_calls calls (initialise_file_table s0) = some s) : counts_match s :=
  run_file_calls_counts calls _ s h (initialise_file_table_counts s0 hfree)

/-! ## Regions whose end wraps: faults and overlap (C7, C10) -/

/-- C7: on the empty address space `space0`, `as_define_region` accepts the read-only
region at `0x1000` of size `0xFFFFF000` (result 0), which gives the address space `spaceW`.
The page `0x2000` lies in `[base, base + size)` of that region and the region grants
`READ`, yet a Read fault at `0x2000` returns `EFAULT` (with the state unchanged): the end
`base + size` that `vm_fault` compares with is 0 on 32 bits, so its scan finds no region
for the page. -/
theorem vm_fault_efault_inside_region :
    (as_define_region boot0 space0 0x1000 0xFFFFF000 1 0 0).1 = 0 ∧
    spaceW.ptr ≠ 0 ∧
    spaceW.regions = [⟨0x1000, 0xFFFFF000, READ, false⟩] ∧
    (∃ r ∈ spaceW.regions, r.base ≤ (0x2000 &&& PAGE_FRAME) ∧
      (0x2000 &&& PAGE_FRAME) < r.base + r.size ∧ r.permissions &&& READ ≠ 0) ∧
    (∀ r ∈ spaceW.regions, region_end r = 0) ∧
    first_region spaceW.regions (0x2000 &&& PAGE_FRAME) = none ∧
    vm_fault bootW spaceW VM_FAULT_READ 0x2000 = some (EFAULT, bootW) := by
  refine ⟨?_, ?_, ?_, ?_, ?_, ?_, ?_⟩
  · set_option maxRecDepth 100000 in decide
  · set_option maxRecDepth 100000 in decide
  · set_option maxRecDepth 100000 in decide
  · set_option maxRecDepth 100000 in decide
  · set_option maxRecDepth 100000 in decide
  · set_option maxRecDepth 100000 in decide
  · have has : spaceW.ptr ≠ 0 := by set_option maxRecDepth 100000 in decide
    have hr : spaceW.regions ≠ [] := by set_option maxRecDepth 100000 in decide
    have hscan : vm_fault_scan (0x2000 &&& PAGE_FRAME) spaceW.regions none = some none := by
      set_option maxRecDepth 100000 in decide
    unfold vm_fault
    simp [has, hr, hscan, VM_FAULT_READ, VM_FAULT_WRITE, VM_FAULT_READONLY]

/-- C10: the address space `spaceW` holds the one region at `0x1000` of size `0xFFFFF000`.
The request `(0x2000, 0x1000)` has its page-aligned range `[0x2000, 0x3000)` within user
space; the existing region satisfies `alignedBase ≤ other.base + other.size` and
`alignedBase + alignedSize ≥ other.base` with the exact sums, and the two page ranges
share the address `0x2000`. Yet `as_define_region` returns 0, not `EINVAL`, and adds the
region: the sum `other.base + other.size` it compares with is 0 on 32 bits. -/
theorem as_define_region_overlap_not_einval :
    spaceW.ptr ≠ 0 ∧
    spaceW.regions = [⟨0x1000, 0xFFFFF000, READ, false⟩] ∧
    region_base 0x2000 = 0x2000 ∧ region_size 0x2000 0x1000 = 0x1000 ∧
    region_base 0x2000 + region_size 0x2000 0x1000 ≤ MIPS_KSEG0 ∧
    (∃ other ∈ spaceW.regions,
      region_base 0x2000 ≤ other.base + other.size ∧
      region_base 0x2000 + region_size 0x2000 0x1000 ≥ other.base ∧
      (other.base ≤ 0x2000 ∧ 0x2000 < other.base + other.size) ∧
      (region_base 0x2000 ≤ 0x2000 ∧
        0x2000 < region_base 0x2000 + region_size 0x2000 0x1000) ∧
      region_end other = 0) ∧
    (as_define_region bootW spaceW 0x2000 0x1000 1 1 0).1 = 0 ∧
    (as_define_region bootW spaceW 0x2000 0x1000 1 1 0).1 ≠ EINVAL ∧
    (as_define_region bootW spaceW 0x2000 0x1000 1 1 0).2.1.regions =
      [⟨0x2000, 0x1000, READ ||| WRITE, false⟩, ⟨0x1000, 0xFFFFF000, READ, false⟩] := by
  refine ⟨?_, ?_, ?_, ?_, ?_, ?_, ?_, ?_, ?_⟩ <;> set_option maxRecDepth 100000 in decide

end Vm
